import Mathlib

/-!
Verification of the rasterop-based binary morphology core (`morph.c`).

The bitmap (`Pix`), rasterop, border and `Sel` primitives are external
collaborators of the studied file; they are modelled from their interface
specification.  The morphological operators themselves (`pixDilate`,
`pixErode`, `pixHMT`, `pixOpen`, `pixClose`, `pixCloseSafe`, the
generalized and brick variants, and the argument pre-processors) are
translated from the source, with the global boundary-condition selector
`MORPH_BC` threaded as an explicit argument and C pointer arguments
rendered as `Option`.
-/

namespace Morph

/-- Boundary-condition selector (the global `MORPH_BC`), threaded as an
explicit argument: `ASYMMETRIC_MORPH_BC` or `SYMMETRIC_MORPH_BC`. -/
inductive BC where
  | asymmetric
  | symmetric
deriving DecidableEq

/-- Modelled from the spec: a packed 1-bpp bitmap (`Pix`) from the bitmap
primitive interface: width, height, depth, and the bit at each coordinate.
Only bits inside the w-by-h rectangle belong to the image. -/
structure Pix where
  w : Nat
  h : Nat
  d : Nat
  pix : Int → Int → Bool

/-- The coordinate (x, y) lies inside the image rectangle of `p`. -/
def inImg (p : Pix) (x y : Int) : Prop :=
  0 ≤ x ∧ x < (p.w : Int) ∧ 0 ≤ y ∧ y < (p.h : Int)

instance (p : Pix) (x y : Int) : Decidable (inImg p x y) := by
  unfold inImg
  infer_instance

/-- Reading a pixel; positions outside the image rectangle read OFF. -/
def Pix.getPix (p : Pix) (x y : Int) : Bool :=
  if inImg p x y then p.pix x y else false

/-- Modelled from the spec: `pixSizesEqual` compares width, height, depth. -/
def pixSizesEqual (a b : Pix) : Bool :=
  a.w == b.w && a.h == b.h && a.d == b.d

/-- Modelled from the spec: `pixCreateTemplate` makes a blank bitmap with
the source's geometry and depth. -/
def pixCreateTemplate (s : Pix) : Pix :=
  ⟨s.w, s.h, s.d, fun _ _ => false⟩

/-- Modelled from the spec: `pixClearAll` writes 0 everywhere. -/
def pixClearAll (p : Pix) : Pix :=
  { p with pix := fun _ _ => false }

/-- Modelled from the spec: `pixSetAll` writes 1 everywhere. -/
def pixSetAll (p : Pix) : Pix :=
  { p with pix := fun _ _ => true }

/-- Modelled from the spec: `pixCopy(pixd, pixs)` puts an independent copy
of the source's bits into the destination; at the value level the result
is the source's bit content. -/
def pixCopy (_pixd : Option Pix) (s : Pix) : Pix := s

/-- Modelled from the spec: `pixClone` yields a second handle on the same
bits; at the value level it is the source itself. -/
def pixClone (s : Pix) : Pix := s

/-- Boolean rasterop code `PIX_SRC | PIX_DST`. -/
def opSrcOrDst (s dbit : Bool) : Bool := s || dbit

/-- Boolean rasterop code `PIX_SRC & PIX_DST`. -/
def opSrcAndDst (s dbit : Bool) : Bool := s && dbit

/-- Boolean rasterop code `PIX_SRC`. -/
def opSrc (s _dbit : Bool) : Bool := s

/-- Boolean rasterop code `PIX_NOT(PIX_SRC)`. -/
def opNotSrc (s _dbit : Bool) : Bool := !s

/-- Boolean rasterop code `PIX_NOT(PIX_SRC) & PIX_DST`. -/
def opNotSrcAndDst (s dbit : Bool) : Bool := !s && dbit

/-- Boolean rasterop code `PIX_CLR` (needs no source). -/
def opClr (_s _dbit : Bool) : Bool := false

/-- Modelled from the spec: `pixRasterop(dst, dx, dy, bw, bh, op, src, sx, sy)`
combines, inside the bw-by-bh rectangle at (dx, dy) of the destination,
each destination bit with the source bit at offset (sx + Δx, sy + Δy)
under `op`, clipping both to their image rectangles; bits outside the
clipped region are not written.  A `none` source is used only with ops
independent of SRC (here `PIX_CLR`). -/
def pixRasterop (dst : Pix) (dx dy bw bh : Int) (op : Bool → Bool → Bool)
    (src : Option Pix) (sx sy : Int) : Pix :=
  { dst with pix := fun x y =>
      if dx ≤ x ∧ x < dx + bw ∧ dy ≤ y ∧ y < dy + bh then
        match src with
        | none => op false (dst.getPix x y)
        | some s =>
          if inImg s (sx + (x - dx)) (sy + (y - dy)) then
            op (s.getPix (sx + (x - dx)) (sy + (y - dy))) (dst.getPix x y)
          else dst.getPix x y
      else dst.getPix x y }

/-- Modelled from the spec: `pixAddBorderGeneral(pixs, l, r, t, b, val)`
pads the image by `l`/`r` columns and `t`/`b` rows filled with `val`. -/
def pixAddBorderGeneral (s : Pix) (l r t b : Nat) (fill : Bool) : Pix :=
  ⟨s.w + l + r, s.h + t + b, s.d, fun x y =>
    if (l : Int) ≤ x ∧ x < (l : Int) + s.w ∧ (t : Int) ≤ y ∧ y < (t : Int) + s.h then
      s.getPix (x - l) (y - t)
    else fill⟩

/-- Modelled from the spec: `pixRemoveBorderGeneral` crops the border back. -/
def pixRemoveBorderGeneral (s : Pix) (l r t b : Nat) : Pix :=
  ⟨s.w - (l + r), s.h - (t + b), s.d, fun x y => s.getPix (x + l) (y + t)⟩

/-- Modelled from the spec: `pixAddBorder` pads uniformly on all sides. -/
def pixAddBorder (s : Pix) (b : Nat) (fill : Bool) : Pix :=
  pixAddBorderGeneral s b b b b fill

/-- Modelled from the spec: `pixRemoveBorder` crops uniformly. -/
def pixRemoveBorder (s : Pix) (b : Nat) : Pix :=
  pixRemoveBorderGeneral s b b b b

/-- Modelled from the spec: a structuring element (`Sel`): an sy-by-sx grid
of cells valued DONT_CARE (0), HIT (1) or MISS (2), with origin (cx, cy). -/
structure Sel where
  sy : Nat
  sx : Nat
  cy : Nat
  cx : Nat
  data : Nat → Nat → Nat

/-- Modelled from the spec: `selCreateBrick(sy, sx, cy, cx, fill)` builds a
Sel of the given shape with every cell set to `fill` (SEL_HIT = 1). -/
def selCreateBrick (sy sx cy cx : Nat) (fill : Nat) : Sel :=
  ⟨sy, sx, cy, cx, fun _ _ => fill⟩

/-- Row-major enumeration of the Sel's cell coordinates (i, j). -/
def selPairs (sl : Sel) : List (Nat × Nat) :=
  (List.range sl.sy).flatMap fun i => (List.range sl.sx).map fun j => (i, j)

/-- Maximum of 0 and `f` over the HIT cells of the Sel. -/
def selMaxHit (sl : Sel) (f : Nat × Nat → Int) : Int :=
  (selPairs sl).foldl
    (fun acc ij => if sl.data ij.1 ij.2 = 1 then max acc (f ij) else acc) 0

/-- Modelled from the spec: `selFindMaxTranslations(sel)` returns
(xp, yp, xn, yn), the extents of the Sel's hits left, up, right and down
of the origin, each clamped at 0. -/
def selFindMaxTranslations (sl : Sel) : Int × Int × Int × Int :=
  (selMaxHit sl (fun ij => (sl.cx : Int) - ij.2),
   selMaxHit sl (fun ij => (sl.cy : Int) - ij.1),
   selMaxHit sl (fun ij => (ij.2 : Int) - sl.cx),
   selMaxHit sl (fun ij => (ij.1 : Int) - sl.cy))

/-- `(i, j)` is a HIT cell of the Sel. -/
def isHit (sl : Sel) (i j : Nat) : Prop :=
  i < sl.sy ∧ j < sl.sx ∧ sl.data i j = 1

/-- `(i, j)` is a MISS cell of the Sel. -/
def isMiss (sl : Sel) (i j : Nat) : Prop :=
  i < sl.sy ∧ j < sl.sx ∧ sl.data i j = 2

/-- The four conditional edge clears performed after erosion (asymmetric
boundary condition) and after the hit-miss transform, in source order:
left `xp` columns, right `xn` columns, top `yp` rows, bottom `yn` rows. -/
def clearStrips (dpix : Pix) (w h xp yp xn yn : Int) : Pix :=
  let d2 := if xp > 0 then pixRasterop dpix 0 0 xp h opClr none 0 0 else dpix
  let d3 := if xn > 0 then pixRasterop d2 (w - xn) 0 xn h opClr none 0 0 else d2
  let d4 := if yp > 0 then pixRasterop d3 0 0 w yp opClr none 0 0 else d3
  if yn > 0 then pixRasterop d4 0 (h - yn) w yn opClr none 0 0 else d4

/-- `processMorphArgs1` (morph.c): validates source, Sel, depth and Sel
size, reconciles the optional destination, and produces the read-only
source snapshot `pixt` (a clone for a distinct destination, an independent
copy for the in-place case; both have the source's bit content). -/
def processMorphArgs1 (pixd pixs : Option Pix) (sel : Option Sel) :
    Option (Pix × Pix) :=
  match pixs, sel with
  | none, _ => none
  | some _, none => none
  | some s, some sl =>
    if s.d ≠ 1 then none
    else if sl.sx = 0 ∨ sl.sy = 0 then none
    else
      match pixd with
      | none => some (pixCreateTemplate s, pixClone s)
      | some dpix =>
        if pixSizesEqual s dpix then some (dpix, pixClone s) else none

/-- `processMorphArgs2` (morph.c): same validation, destination only. -/
def processMorphArgs2 (pixd pixs : Option Pix) (sel : Option Sel) :
    Option Pix :=
  match pixs, sel with
  | none, _ => none
  | some _, none => none
  | some s, some sl =>
    if s.d ≠ 1 then none
    else if sl.sx = 0 ∨ sl.sy = 0 then none
    else
      match pixd with
      | none => some (pixCreateTemplate s)
      | some dpix => if pixSizesEqual s dpix then some dpix else none

/-- The accumulation loop of `pixDilate`: for each HIT cell (i, j),
`dst := dst | src` with the snapshot `t` (which has the source's
dimensions and bits) translated to offset (j - cx, i - cy). -/
def dilateAccum (t : Pix) (sl : Sel) (dpix : Pix) : Pix :=
  (selPairs sl).foldl
    (fun acc ij =>
      if sl.data ij.1 ij.2 = 1 then
        pixRasterop acc ((ij.2 : Int) - sl.cx) ((ij.1 : Int) - sl.cy)
          t.w t.h opSrcOrDst (some t) 0 0
      else acc) dpix

/-- `pixDilate` (morph.c): clear the destination, then OR in the
translated snapshot for every HIT cell of the Sel. -/
def pixDilate (_bc : BC) (pixd pixs : Option Pix) (sel : Option Sel) :
    Option Pix :=
  match pixs, sel, processMorphArgs1 pixd pixs sel with
  | some _, some sl, some dt => some (dilateAccum dt.2 sl (pixClearAll dt.1))
  | _, _, _ => none

/-- The accumulation loop of `pixErode`: for each HIT cell (i, j),
`dst := dst & src` with the snapshot translated to offset
(cx - j, cy - i). -/
def erodeAccum (t : Pix) (sl : Sel) (dpix : Pix) : Pix :=
  (selPairs sl).foldl
    (fun acc ij =>
      if sl.data ij.1 ij.2 = 1 then
        pixRasterop acc ((sl.cx : Int) - ij.2) ((sl.cy : Int) - ij.1)
          t.w t.h opSrcAndDst (some t) 0 0
      else acc) dpix

/-- `pixErode` (morph.c): set the destination, AND in the translated
snapshot for every HIT cell, then clear the edge strips found by
`selFindMaxTranslations` -- under the asymmetric boundary condition only. -/
def pixErode (bc : BC) (pixd pixs : Option Pix) (sel : Option Sel) :
    Option Pix :=
  match pixs, sel, processMorphArgs1 pixd pixs sel with
  | some s, some sl, some dt =>
    let d1 := erodeAccum dt.2 sl (pixSetAll dt.1)
    let m := selFindMaxTranslations sl
    some (if bc = BC.asymmetric then
            clearStrips d1 (s.w : Int) (s.h : Int) m.1 m.2.1 m.2.2.1 m.2.2.2
          else d1)
  | _, _, _ => none

/-- One step of the `pixHMT` accumulation loop: the pair carries the
destination and the `firstrasterop` flag.  The first non-DONT_CARE cell
initializes (clear-then-SRC for a HIT, set-then-NOT_SRC for a MISS);
later HIT cells AND in the translated snapshot, later MISS cells AND in
its complement.  Translation offset is (cx - j, cy - i). -/
def hmtStep (t : Pix) (sl : Sel) (acc : Pix × Bool) (ij : Nat × Nat) :
    Pix × Bool :=
  if sl.data ij.1 ij.2 = 1 then
    if acc.2 then
      (pixRasterop (pixClearAll acc.1) ((sl.cx : Int) - ij.2)
        ((sl.cy : Int) - ij.1) t.w t.h opSrc (some t) 0 0, false)
    else
      (pixRasterop acc.1 ((sl.cx : Int) - ij.2) ((sl.cy : Int) - ij.1)
        t.w t.h opSrcAndDst (some t) 0 0, false)
  else if sl.data ij.1 ij.2 = 2 then
    if acc.2 then
      (pixRasterop (pixSetAll acc.1) ((sl.cx : Int) - ij.2)
        ((sl.cy : Int) - ij.1) t.w t.h opNotSrc (some t) 0 0, false)
    else
      (pixRasterop acc.1 ((sl.cx : Int) - ij.2) ((sl.cy : Int) - ij.1)
        t.w t.h opNotSrcAndDst (some t) 0 0, false)
  else acc

/-- `pixHMT` (morph.c): the hit-miss accumulation over all Sel cells,
followed by the unconditional clearing of the four edge strips. -/
def pixHMT (_bc : BC) (pixd pixs : Option Pix) (sel : Option Sel) :
    Option Pix :=
  match pixs, sel, processMorphArgs1 pixd pixs sel with
  | some s, some sl, some dt =>
    let r := ((selPairs sl).foldl (hmtStep dt.2 sl) (dt.1, true)).1
    let m := selFindMaxTranslations sl
    some (clearStrips r (s.w : Int) (s.h : Int) m.1 m.2.1 m.2.2.1 m.2.2.2)
  | _, _, _ => none

/-- `pixOpen` (morph.c): erosion into a scratch bitmap, then dilation into
the destination.  On the (unreachable after validation) failure of the
internal erosion the source returns the destination unchanged. -/
def pixOpen (bc : BC) (pixd pixs : Option Pix) (sel : Option Sel) :
    Option Pix :=
  match processMorphArgs2 pixd pixs sel with
  | none => none
  | some d0 =>
    match pixErode bc none pixs sel with
    | none => some d0
    | some t => pixDilate bc (some d0) (some t) sel

/-- `pixClose` (morph.c): dilation into a scratch bitmap, then erosion
into the destination. -/
def pixClose (bc : BC) (pixd pixs : Option Pix) (sel : Option Sel) :
    Option Pix :=
  match processMorphArgs2 pixd pixs sel with
  | none => none
  | some d0 =>
    match pixDilate bc none pixs sel with
    | none => some d0
    | some t => pixErode bc (some d0) (some t) sel

/-- `pixCloseSafe` (morph.c): under the symmetric boundary condition,
delegate to `pixClose`; otherwise pad the source with OFF pixels by
`xbord` columns each side (a multiple of 32) and (yp, yn) rows, close the
padded bitmap in place (a failed internal closing leaves the padded
bitmap unchanged, its return value being discarded), strip the border,
and copy into the destination if one was supplied.  A destination of
different geometry only triggers a warning. -/
def pixCloseSafe (bc : BC) (pixd pixs : Option Pix) (sel : Option Sel) :
    Option Pix :=
  match pixs, sel with
  | some s, some sl =>
    if s.d ≠ 1 then none
    else if bc = BC.symmetric then pixClose bc pixd pixs sel
    else
      let m := selFindMaxTranslations sl
      let xmax := max m.1 m.2.2.1
      let xbord := 32 * ((xmax + 31) / 32)
      let t1 := pixAddBorderGeneral s xbord.toNat xbord.toNat
                  m.2.1.toNat m.2.2.2.toNat false
      let t1c := (pixClose bc (some t1) (some t1) sel).getD t1
      let t2 := pixRemoveBorderGeneral t1c xbord.toNat xbord.toNat
                  m.2.1.toNat m.2.2.2.toNat
      match pixd with
      | none => some t2
      | some dpix => some (pixCopy (some dpix) t2)
  | _, _ => none

/-- `pixOpenGeneralized` (morph.c): hit-miss transform, then dilation. -/
def pixOpenGeneralized (bc : BC) (pixd pixs : Option Pix)
    (sel : Option Sel) : Option Pix :=
  match processMorphArgs2 pixd pixs sel with
  | none => none
  | some d0 =>
    match pixHMT bc none pixs sel with
    | none => some d0
    | some t => pixDilate bc (some d0) (some t) sel

/-- `pixCloseGeneralized` (morph.c): dilation, then hit-miss transform. -/
def pixCloseGeneralized (bc : BC) (pixd pixs : Option Pix)
    (sel : Option Sel) : Option Pix :=
  match processMorphArgs2 pixd pixs sel with
  | none => none
  | some d0 =>
    match pixDilate bc none pixs sel with
    | none => some d0
    | some t => pixHMT bc (some d0) (some t) sel

/-- A call made only for its effect on a destination buffer, its returned
pointer being discarded: if there is no destination buffer nothing is
retained; otherwise the buffer holds the call's result on success and its
previous bits on failure (validation fails before any write). -/
def discardCall (dst result : Option Pix) : Option Pix :=
  match dst, result with
  | some _, some r => some r
  | some b, none => some b
  | none, _ => none

/-- `pixDilateBrick` (morph.c): all-HIT brick Sel with origin
(hsize/2, vsize/2); one generic pass if hsize or vsize is 1, otherwise a
1-by-hsize pass followed by a vsize-by-1 pass. -/
def pixDilateBrick (bc : BC) (pixd pixs : Option Pix) (hsize vsize : Int) :
    Option Pix :=
  match pixs with
  | none => none
  | some s =>
    if s.d ≠ 1 then none
    else if hsize < 1 ∨ vsize < 1 then none
    else if hsize = 1 ∧ vsize = 1 then some (pixCopy pixd s)
    else if hsize = 1 ∨ vsize = 1 then
      pixDilate bc pixd pixs
        (some (selCreateBrick vsize.toNat hsize.toNat
          (vsize / 2).toNat (hsize / 2).toNat 1))
    else
      let selh := selCreateBrick 1 hsize.toNat 0 (hsize / 2).toNat 1
      let selv := selCreateBrick vsize.toNat 1 (vsize / 2).toNat 0 1
      let t := pixDilate bc none pixs (some selh)
      pixDilate bc pixd t (some selv)

/-- `pixErodeBrick` (morph.c): brick erosion, separable when possible. -/
def pixErodeBrick (bc : BC) (pixd pixs : Option Pix) (hsize vsize : Int) :
    Option Pix :=
  match pixs with
  | none => none
  | some s =>
    if s.d ≠ 1 then none
    else if hsize < 1 ∨ vsize < 1 then none
    else if hsize = 1 ∧ vsize = 1 then some (pixCopy pixd s)
    else if hsize = 1 ∨ vsize = 1 then
      pixErode bc pixd pixs
        (some (selCreateBrick vsize.toNat hsize.toNat
          (vsize / 2).toNat (hsize / 2).toNat 1))
    else
      let selh := selCreateBrick 1 hsize.toNat 0 (hsize / 2).toNat 1
      let selv := selCreateBrick vsize.toNat 1 (vsize / 2).toNat 0 1
      let t := pixErode bc none pixs (some selh)
      pixErode bc pixd t (some selv)

/-- `pixOpenBrick` (morph.c): two erosions then two dilations in the
separable case, reusing the two scratch buffers; the third and fourth
calls are made for their effect on those buffers. -/
def pixOpenBrick (bc : BC) (pixd pixs : Option Pix) (hsize vsize : Int) :
    Option Pix :=
  match pixs with
  | none => none
  | some s =>
    if s.d ≠ 1 then none
    else if hsize < 1 ∨ vsize < 1 then none
    else if hsize = 1 ∧ vsize = 1 then some (pixCopy pixd s)
    else if hsize = 1 ∨ vsize = 1 then
      pixOpen bc pixd pixs
        (some (selCreateBrick vsize.toNat hsize.toNat
          (vsize / 2).toNat (hsize / 2).toNat 1))
    else
      let selh := selCreateBrick 1 hsize.toNat 0 (hsize / 2).toNat 1
      let selv := selCreateBrick vsize.toNat 1 (vsize / 2).toNat 0 1
      let t := pixErode bc none pixs (some selh)
      let dres := pixErode bc pixd t (some selv)
      let t2 := discardCall t (pixDilate bc t dres (some selh))
      discardCall dres (pixDilate bc dres t2 (some selv))

/-- `pixCloseBrick` (morph.c): two dilations then two erosions in the
separable case. -/
def pixCloseBrick (bc : BC) (pixd pixs : Option Pix) (hsize vsize : Int) :
    Option Pix :=
  match pixs with
  | none => none
  | some s =>
    if s.d ≠ 1 then none
    else if hsize < 1 ∨ vsize < 1 then none
    else if hsize = 1 ∧ vsize = 1 then some (pixCopy pixd s)
    else if hsize = 1 ∨ vsize = 1 then
      pixClose bc pixd pixs
        (some (selCreateBrick vsize.toNat hsize.toNat
          (vsize / 2).toNat (hsize / 2).toNat 1))
    else
      let selh := selCreateBrick 1 hsize.toNat 0 (hsize / 2).toNat 1
      let selv := selCreateBrick vsize.toNat 1 (vsize / 2).toNat 0 1
      let t := pixDilate bc none pixs (some selh)
      let dres := pixDilate bc pixd t (some selv)
      let t2 := discardCall t (pixErode bc t dres (some selh))
      discardCall dres (pixErode bc dres t2 (some selv))

/-- `pixCloseSafeBrick` (morph.c): under the symmetric boundary condition
delegate to `pixCloseBrick`; otherwise pad uniformly by `bordsize` (a
multiple of 32 at least max(hsize/2, vsize/2)), close the padded bitmap
(separably when possible), crop, and copy into the destination if one was
supplied (its geometry is never checked). -/
def pixCloseSafeBrick (bc : BC) (pixd pixs : Option Pix)
    (hsize vsize : Int) : Option Pix :=
  match pixs with
  | none => none
  | some s =>
    if s.d ≠ 1 then none
    else if hsize < 1 ∨ vsize < 1 then none
    else if hsize = 1 ∧ vsize = 1 then some (pixCopy pixd s)
    else if bc = BC.symmetric then pixCloseBrick bc pixd pixs hsize vsize
    else
      let maxtrans := max (hsize / 2) (vsize / 2)
      let bordsize := 32 * ((maxtrans + 31) / 32)
      let sb := pixAddBorder s bordsize.toNat false
      let db : Option Pix :=
        if hsize = 1 ∨ vsize = 1 then
          pixClose bc none (some sb)
            (some (selCreateBrick vsize.toNat hsize.toNat
              (vsize / 2).toNat (hsize / 2).toNat 1))
        else
          let selh := selCreateBrick 1 hsize.toNat 0 (hsize / 2).toNat 1
          let selv := selCreateBrick vsize.toNat 1 (vsize / 2).toNat 0 1
          let t := pixDilate bc none (some sb) (some selh)
          let dbv := pixDilate bc none t (some selv)
          let t2 := discardCall t (pixErode bc t dbv (some selh))
          discardCall dbv (pixErode bc dbv t2 (some selv))
      match db with
      | none => none
      | some dbv =>
        let t := pixRemoveBorder dbv bordsize.toNat
        match pixd with
        | none => some t
        | some dpix => some (pixCopy (some dpix) t)

end Morph

namespace Morph

/-! ### Basic bitmap lemmas -/

theorem Pix.ext2 {a b : Pix} (hw : a.w = b.w) (hh : a.h = b.h)
    (hd : a.d = b.d) (hp : a.pix = b.pix) : a = b := by
  cases a
  cases b
  simp_all

@[simp] theorem clearAll_w (p : Pix) : (pixClearAll p).w = p.w := rfl

@[simp] theorem clearAll_h (p : Pix) : (pixClearAll p).h = p.h := rfl

@[simp] theorem clearAll_d (p : Pix) : (pixClearAll p).d = p.d := rfl

@[simp] theorem setAll_w (p : Pix) : (pixSetAll p).w = p.w := rfl

@[simp] theorem setAll_h (p : Pix) : (pixSetAll p).h = p.h := rfl

@[simp] theorem setAll_d (p : Pix) : (pixSetAll p).d = p.d := rfl

@[simp] theorem rasterop_w (dst : Pix) (dx dy bw bh : Int) (op) (src) (sx sy : Int) :
    (pixRasterop dst dx dy bw bh op src sx sy).w = dst.w := rfl

@[simp] theorem rasterop_h (dst : Pix) (dx dy bw bh : Int) (op) (src) (sx sy : Int) :
    (pixRasterop dst dx dy bw bh op src sx sy).h = dst.h := rfl

@[simp] theorem rasterop_d (dst : Pix) (dx dy bw bh : Int) (op) (src) (sx sy : Int) :
    (pixRasterop dst dx dy bw bh op src sx sy).d = dst.d := rfl

@[simp] theorem template_w (p : Pix) : (pixCreateTemplate p).w = p.w := rfl

@[simp] theorem template_h (p : Pix) : (pixCreateTemplate p).h = p.h := rfl

@[simp] theorem template_d (p : Pix) : (pixCreateTemplate p).d = p.d := rfl

theorem inImg_congr {p q : Pix} (hw : p.w = q.w) (hh : p.h = q.h)
    (x y : Int) : inImg p x y ↔ inImg q x y := by
  unfold inImg
  rw [hw, hh]

theorem getPix_of_not_inImg {p : Pix} {x y : Int} (h : ¬ inImg p x y) :
    p.getPix x y = false := by
  unfold Pix.getPix
  rw [if_neg h]

theorem getPix_eq_true_iff {p : Pix} {x y : Int} :
    p.getPix x y = true ↔ inImg p x y ∧ p.pix x y = true := by
  unfold Pix.getPix
  split
  · simp_all
  · simp_all

theorem inImg_of_getPix {p : Pix} {x y : Int} (h : p.getPix x y = true) :
    inImg p x y := (getPix_eq_true_iff.mp h).1

@[simp] theorem getPix_clearAll (p : Pix) (x y : Int) :
    (pixClearAll p).getPix x y = false := by
  unfold Pix.getPix pixClearAll
  split <;> rfl

theorem getPix_setAll_of_inImg {p : Pix} {x y : Int} (h : inImg p x y) :
    (pixSetAll p).getPix x y = true := by
  unfold Pix.getPix pixSetAll
  rw [if_pos]
  exact h

theorem sizesEqual_iff {a b : Pix} :
    pixSizesEqual a b = true ↔ a.w = b.w ∧ a.h = b.h ∧ a.d = b.d := by
  unfold pixSizesEqual
  simp [and_assoc]

/-! ### Rasterop reading lemmas -/

theorem getPix_rasterop_some (dst t : Pix) (dx dy bw bh x y : Int)
    (op : Bool → Bool → Bool) :
    (pixRasterop dst dx dy bw bh op (some t) 0 0).getPix x y =
      if inImg dst x y ∧ (dx ≤ x ∧ x < dx + bw ∧ dy ≤ y ∧ y < dy + bh) ∧
          inImg t (x - dx) (y - dy)
      then op (t.getPix (x - dx) (y - dy)) (dst.getPix x y)
      else dst.getPix x y := by
  have himg : inImg (pixRasterop dst dx dy bw bh op (some t) 0 0) x y ↔
      inImg dst x y := inImg_congr rfl rfl x y
  unfold Pix.getPix
  rw [show (pixRasterop dst dx dy bw bh op (some t) 0 0).pix =
      fun x y =>
        if dx ≤ x ∧ x < dx + bw ∧ dy ≤ y ∧ y < dy + bh then
          if inImg t (0 + (x - dx)) (0 + (y - dy)) then
            op (t.getPix (0 + (x - dx)) (0 + (y - dy))) (dst.getPix x y)
          else dst.getPix x y
        else dst.getPix x y from rfl]
  simp only [zero_add]
  by_cases h1 : inImg dst x y
  · rw [if_pos (himg.mpr h1)]
    by_cases h2 : dx ≤ x ∧ x < dx + bw ∧ dy ≤ y ∧ y < dy + bh
    · rw [if_pos h2]
      by_cases h3 : inImg t (x - dx) (y - dy)
      · rw [if_pos h3, if_pos ⟨h1, h2, h3⟩]
        unfold Pix.getPix
        rw [if_pos h1]
      · rw [if_neg h3, if_neg (by tauto)]
        unfold Pix.getPix
        rw [if_pos h1]
    · rw [if_neg h2, if_neg (by tauto)]
      unfold Pix.getPix
      rw [if_pos h1]
  · rw [if_neg (fun hc => h1 (himg.mp hc)), if_neg (by tauto)]
    rw [if_neg h1]

theorem getPix_ropOr {dst t : Pix} (dx dy x y : Int) (hw : dst.w = t.w)
    (hh : dst.h = t.h) (hxy : inImg dst x y) :
    (pixRasterop dst dx dy t.w t.h opSrcOrDst (some t) 0 0).getPix x y
      = (dst.getPix x y || t.getPix (x - dx) (y - dy)) := by
  rw [getPix_rasterop_some]
  by_cases h3 : inImg t (x - dx) (y - dy)
  · rw [if_pos ⟨hxy, by unfold inImg at h3; omega, h3⟩]
    exact Bool.or_comm _ _
  · rw [if_neg (by tauto), getPix_of_not_inImg h3, Bool.or_false]

theorem getPix_ropAnd {dst t : Pix} (dx dy x y : Int) :
    (pixRasterop dst dx dy t.w t.h opSrcAndDst (some t) 0 0).getPix x y
      = (dst.getPix x y &&
          (!(decide (inImg t (x - dx) (y - dy))) || t.getPix (x - dx) (y - dy))) := by
  rw [getPix_rasterop_some]
  by_cases h1 : inImg dst x y
  · by_cases h3 : inImg t (x - dx) (y - dy)
    · rw [if_pos ⟨h1, by unfold inImg at h3; omega, h3⟩]
      simp [h3, opSrcAndDst, Bool.and_comm]
    · rw [if_neg (by tauto)]
      simp [h3]
  · rw [if_neg (by tauto), getPix_of_not_inImg h1, Bool.false_and]

theorem getPix_ropSrc_clear {dst t : Pix} (dx dy x y : Int) (hxy : inImg dst x y) :
    (pixRasterop (pixClearAll dst) dx dy t.w t.h opSrc (some t) 0 0).getPix x y
      = t.getPix (x - dx) (y - dy) := by
  rw [getPix_rasterop_some]
  by_cases h3 : inImg t (x - dx) (y - dy)
  · rw [if_pos ⟨(inImg_congr rfl rfl x y).mpr hxy,
      by unfold inImg at h3; omega, h3⟩]
    rfl
  · rw [if_neg (by tauto), getPix_clearAll, getPix_of_not_inImg h3]

theorem getPix_ropNotSrc_set {dst t : Pix} (dx dy x y : Int) (hxy : inImg dst x y) :
    (pixRasterop (pixSetAll dst) dx dy t.w t.h opNotSrc (some t) 0 0).getPix x y
      = !(t.getPix (x - dx) (y - dy)) := by
  rw [getPix_rasterop_some]
  by_cases h3 : inImg t (x - dx) (y - dy)
  · rw [if_pos ⟨(inImg_congr rfl rfl x y).mpr hxy,
      by unfold inImg at h3; omega, h3⟩]
    rfl
  · rw [if_neg (by tauto), getPix_of_not_inImg h3,
      getPix_setAll_of_inImg ((inImg_congr rfl rfl x y).mpr hxy)]
    rfl

theorem getPix_ropNand {dst t : Pix} (dx dy x y : Int) :
    (pixRasterop dst dx dy t.w t.h opNotSrcAndDst (some t) 0 0).getPix x y
      = (dst.getPix x y && !(t.getPix (x - dx) (y - dy))) := by
  rw [getPix_rasterop_some]
  by_cases h1 : inImg dst x y
  · by_cases h3 : inImg t (x - dx) (y - dy)
    · rw [if_pos ⟨h1, by unfold inImg at h3; omega, h3⟩]
      simp [opNotSrcAndDst, Bool.and_comm]
    · rw [if_neg (by tauto), getPix_of_not_inImg h3]
      simp
  · rw [if_neg (by tauto), getPix_of_not_inImg h1, Bool.false_and]

theorem getPix_rasterop_none (dst : Pix) (dx dy bw bh x y : Int)
    (op : Bool → Bool → Bool) :
    (pixRasterop dst dx dy bw bh op none 0 0).getPix x y =
      if inImg dst x y ∧ (dx ≤ x ∧ x < dx + bw ∧ dy ≤ y ∧ y < dy + bh)
      then op false (dst.getPix x y)
      else dst.getPix x y := by
  have himg : inImg (pixRasterop dst dx dy bw bh op none 0 0) x y ↔
      inImg dst x y := inImg_congr rfl rfl x y
  unfold Pix.getPix
  rw [show (pixRasterop dst dx dy bw bh op none 0 0).pix =
      fun x y =>
        if dx ≤ x ∧ x < dx + bw ∧ dy ≤ y ∧ y < dy + bh then
          op false (dst.getPix x y)
        else dst.getPix x y from rfl]
  beta_reduce
  by_cases h1 : inImg dst x y
  · rw [if_pos (himg.mpr h1)]
    by_cases h2 : dx ≤ x ∧ x < dx + bw ∧ dy ≤ y ∧ y < dy + bh
    · rw [if_pos h2, if_pos ⟨h1, h2⟩]
      unfold Pix.getPix
      rw [if_pos h1]
    · rw [if_neg h2, if_neg (by tauto)]
      unfold Pix.getPix
      rw [if_pos h1]
  · rw [if_neg (fun hc => h1 (himg.mp hc)), if_neg (by tauto)]
    rw [if_neg h1]

theorem getPix_clr (dst : Pix) (dx dy bw bh x y : Int) :
    (pixRasterop dst dx dy bw bh opClr none 0 0).getPix x y
      = (dst.getPix x y &&
          !(decide (dx ≤ x ∧ x < dx + bw ∧ dy ≤ y ∧ y < dy + bh))) := by
  rw [getPix_rasterop_none]
  by_cases h1 : inImg dst x y
  · by_cases h2 : dx ≤ x ∧ x < dx + bw ∧ dy ≤ y ∧ y < dy + bh
    · rw [if_pos ⟨h1, h2⟩]
      simp [opClr, h2]
    · rw [if_neg (by tauto)]
      simp [h2]
  · rw [if_neg (by tauto), getPix_of_not_inImg h1, Bool.false_and]

/-! ### Sel lemmas -/

theorem mem_selPairs {sl : Sel} {ij : Nat × Nat} :
    ij ∈ selPairs sl ↔ ij.1 < sl.sy ∧ ij.2 < sl.sx := by
  unfold selPairs
  rcases ij with ⟨i, j⟩
  simp [List.mem_flatMap, List.mem_map, List.mem_range]

theorem foldl_max_le {f : Nat × Nat → Int} {P : Nat × Nat → Prop}
    [DecidablePred P] (L : List (Nat × Nat)) (a t : Int) :
    (L.foldl (fun acc ij => if P ij then max acc (f ij) else acc) a) ≤ t ↔
      a ≤ t ∧ ∀ ij ∈ L, P ij → f ij ≤ t := by
  induction L generalizing a with
  | nil => simp
  | cons hd tl ih =>
    rw [List.foldl_cons, ih]
    by_cases hp : P hd
    · rw [if_pos hp]
      simp only [max_le_iff, List.mem_cons]
      constructor
      · rintro ⟨⟨h1, h2⟩, h3⟩
        exact ⟨h1, fun ij hij hpij => by
          rcases hij with h | h
          · subst h; exact h2
          · exact h3 ij h hpij⟩
      · rintro ⟨h1, h2⟩
        exact ⟨⟨h1, h2 hd (Or.inl rfl) hp⟩, fun ij hij hpij => h2 ij (Or.inr hij) hpij⟩
    · rw [if_neg hp]
      simp only [List.mem_cons]
      constructor
      · rintro ⟨h1, h2⟩
        exact ⟨h1, fun ij hij hpij => by
          rcases hij with h | h
          · subst h; exact absurd hpij hp
          · exact h2 ij h hpij⟩
      · rintro ⟨h1, h2⟩
        exact ⟨h1, fun ij hij hpij => h2 ij (Or.inr hij) hpij⟩

theorem selMaxHit_le {sl : Sel} {f : Nat × Nat → Int} {t : Int} :
    selMaxHit sl f ≤ t ↔
      0 ≤ t ∧ ∀ i j, isHit sl i j → f (i, j) ≤ t := by
  unfold selMaxHit
  rw [foldl_max_le]
  constructor
  · rintro ⟨h0, h1⟩
    refine ⟨h0, fun i j hij => ?_⟩
    exact h1 (i, j) (mem_selPairs.mpr ⟨hij.1, hij.2.1⟩) hij.2.2
  · rintro ⟨h0, h1⟩
    refine ⟨h0, fun ij hmem hp => ?_⟩
    have := mem_selPairs.mp hmem
    exact h1 ij.1 ij.2 ⟨this.1, this.2, hp⟩

theorem selMaxHit_nonneg (sl : Sel) (f : Nat × Nat → Int) :
    0 ≤ selMaxHit sl f :=
  (selMaxHit_le.mp le_rfl).1

theorem le_selMaxHit {sl : Sel} {f : Nat × Nat → Int} {i j : Nat}
    (h : isHit sl i j) : f (i, j) ≤ selMaxHit sl f :=
  (selMaxHit_le.mp le_rfl).2 i j h

/-! ### Strip-clearing lemmas -/

@[simp] theorem clearStrips_w (dpix : Pix) (w h xp yp xn yn : Int) :
    (clearStrips dpix w h xp yp xn yn).w = dpix.w := by
  unfold clearStrips
  split <;> split <;> split <;> split <;> rfl

@[simp] theorem clearStrips_h (dpix : Pix) (w h xp yp xn yn : Int) :
    (clearStrips dpix w h xp yp xn yn).h = dpix.h := by
  unfold clearStrips
  split <;> split <;> split <;> split <;> rfl

@[simp] theorem clearStrips_d (dpix : Pix) (w h xp yp xn yn : Int) :
    (clearStrips dpix w h xp yp xn yn).d = dpix.d := by
  unfold clearStrips
  split <;> split <;> split <;> split <;> rfl

theorem getPix_clrIf {dpix : Pix} (c : Prop) [Decidable c]
    (dx dy bw bh x y : Int) :
    ((if c then pixRasterop dpix dx dy bw bh opClr none 0 0 else dpix)).getPix x y = true ↔
      dpix.getPix x y = true ∧
        (c → ¬(dx ≤ x ∧ x < dx + bw ∧ dy ≤ y ∧ y < dy + bh)) := by
  by_cases hc : c
  · rw [if_pos hc, getPix_clr]
    simp only [Bool.and_eq_true, Bool.not_eq_true', decide_eq_false_iff_not]
    constructor
    · rintro ⟨hv, hr⟩
      exact ⟨hv, fun _ => hr⟩
    · rintro ⟨hv, hr⟩
      exact ⟨hv, hr hc⟩
  · rw [if_neg hc]
    simp [hc]

theorem getPix_clearStrips {dpix : Pix} {w h xp yp xn yn x y : Int}
    (hxy : inImg dpix x y) (hw : (dpix.w : Int) = w) (hh : (dpix.h : Int) = h) :
    (clearStrips dpix w h xp yp xn yn).getPix x y = true ↔
      (dpix.getPix x y = true ∧ xp ≤ x ∧ x < w - xn ∧ yp ≤ y ∧ y < h - yn) := by
  unfold clearStrips
  rw [getPix_clrIf, getPix_clrIf, getPix_clrIf, getPix_clrIf]
  unfold inImg at hxy
  constructor
  · rintro ⟨⟨⟨⟨hv, g1⟩, g2⟩, g3⟩, g4⟩
    have b1 : xp ≤ x := by
      by_cases h1 : xp > 0
      · have := g1 h1; omega
      · omega
    have b2 : x < w - xn := by
      by_cases h1 : xn > 0
      · have := g2 h1; omega
      · omega
    have b3 : yp ≤ y := by
      by_cases h1 : yp > 0
      · have := g3 h1; omega
      · omega
    have b4 : y < h - yn := by
      by_cases h1 : yn > 0
      · have := g4 h1; omega
      · omega
    exact ⟨hv, b1, b2, b3, b4⟩
  · rintro ⟨hv, b1, b2, b3, b4⟩
    refine ⟨⟨⟨⟨hv, fun h1 hr => by omega⟩, fun h1 hr => by omega⟩,
      fun h1 hr => by omega⟩, fun h1 hr => by omega⟩

/-! ### Accumulation loop lemmas -/

theorem foldl_pix_dims {α : Type} (g : Pix → α → Pix)
    (hg : ∀ dpix a, (g dpix a).w = dpix.w ∧ (g dpix a).h = dpix.h ∧
      (g dpix a).d = dpix.d) :
    ∀ (L : List α) (dpix : Pix), (L.foldl g dpix).w = dpix.w ∧
      (L.foldl g dpix).h = dpix.h ∧ (L.foldl g dpix).d = dpix.d := by
  intro L
  induction L with
  | nil => intro d; exact ⟨rfl, rfl, rfl⟩
  | cons hd tl ih =>
    intro d
    rw [List.foldl_cons]
    rcases ih (g d hd) with ⟨h1, h2, h3⟩
    rcases hg d hd with ⟨g1, g2, g3⟩
    exact ⟨h1.trans g1, h2.trans g2, h3.trans g3⟩

theorem dilateAccum_dims (t : Pix) (sl : Sel) (dpix : Pix) :
    (dilateAccum t sl dpix).w = dpix.w ∧ (dilateAccum t sl dpix).h = dpix.h ∧
      (dilateAccum t sl dpix).d = dpix.d := by
  unfold dilateAccum
  exact foldl_pix_dims _ (fun d a => by split <;> exact ⟨rfl, rfl, rfl⟩) _ dpix

theorem erodeAccum_dims (t : Pix) (sl : Sel) (dpix : Pix) :
    (erodeAccum t sl dpix).w = dpix.w ∧ (erodeAccum t sl dpix).h = dpix.h ∧
      (erodeAccum t sl dpix).d = dpix.d := by
  unfold erodeAccum
  exact foldl_pix_dims _ (fun d a => by split <;> exact ⟨rfl, rfl, rfl⟩) _ dpix

theorem dilate_fold_getPix (t : Pix) (sl : Sel) (x y : Int) :
    ∀ (L : List (Nat × Nat)) (dpix : Pix), dpix.w = t.w → dpix.h = t.h →
      inImg dpix x y →
      ((L.foldl (fun acc ij =>
          if sl.data ij.1 ij.2 = 1 then
            pixRasterop acc ((ij.2 : Int) - sl.cx) ((ij.1 : Int) - sl.cy)
              t.w t.h opSrcOrDst (some t) 0 0
          else acc) dpix).getPix x y)
        = (dpix.getPix x y ||
            L.any fun ij => decide (sl.data ij.1 ij.2 = 1) &&
              t.getPix (x - ((ij.2 : Int) - sl.cx)) (y - ((ij.1 : Int) - sl.cy))) := by
  intro L
  induction L with
  | nil => intro d _ _ _; simp
  | cons hd tl ih =>
    intro d hw hh hxy
    rw [List.foldl_cons]
    by_cases hhit : sl.data hd.1 hd.2 = 1
    · rw [if_pos hhit]
      rw [ih (pixRasterop d ((hd.2 : Int) - sl.cx) ((hd.1 : Int) - sl.cy)
          t.w t.h opSrcOrDst (some t) 0 0) hw hh hxy]
      rw [getPix_ropOr _ _ x y hw hh hxy]
      simp [hhit, Bool.or_assoc]
    · rw [if_neg hhit]
      rw [ih d hw hh hxy]
      simp [hhit]

theorem erode_fold_getPix (t : Pix) (sl : Sel) (x y : Int) :
    ∀ (L : List (Nat × Nat)) (dpix : Pix), dpix.w = t.w → dpix.h = t.h →
      ((L.foldl (fun acc ij =>
          if sl.data ij.1 ij.2 = 1 then
            pixRasterop acc ((sl.cx : Int) - ij.2) ((sl.cy : Int) - ij.1)
              t.w t.h opSrcAndDst (some t) 0 0
          else acc) dpix).getPix x y)
        = (dpix.getPix x y &&
            L.all fun ij => !(decide (sl.data ij.1 ij.2 = 1)) ||
              !(decide (inImg t (x - ((sl.cx : Int) - ij.2))
                  (y - ((sl.cy : Int) - ij.1)))) ||
              t.getPix (x - ((sl.cx : Int) - ij.2)) (y - ((sl.cy : Int) - ij.1))) := by
  intro L
  induction L with
  | nil => intro d _ _; simp
  | cons hd tl ih =>
    intro d hw hh
    rw [List.foldl_cons]
    by_cases hhit : sl.data hd.1 hd.2 = 1
    · rw [if_pos hhit]
      rw [ih (pixRasterop d ((sl.cx : Int) - hd.2) ((sl.cy : Int) - hd.1)
          t.w t.h opSrcAndDst (some t) 0 0) hw hh]
      rw [getPix_ropAnd]
      simp [hhit, Bool.and_assoc]
    · rw [if_neg hhit]
      rw [ih d hw hh]
      simp [hhit]

/-! ### Argument pre-processing lemmas -/

theorem args1_none (s : Pix) (sl : Sel) (hd : s.d = 1) (hsx : 0 < sl.sx)
    (hsy : 0 < sl.sy) :
    processMorphArgs1 none (some s) (some sl) = some (pixCreateTemplate s, s) := by
  simp only [processMorphArgs1]
  rw [if_neg (by omega), if_neg (by omega)]
  rfl

theorem args1_some (dpix s : Pix) (sl : Sel) (hd : s.d = 1) (hsx : 0 < sl.sx)
    (hsy : 0 < sl.sy) (hsz : pixSizesEqual s dpix = true) :
    processMorphArgs1 (some dpix) (some s) (some sl) = some (dpix, s) := by
  simp only [processMorphArgs1]
  rw [if_neg (by omega), if_neg (by omega), if_pos hsz]
  rfl

theorem args2_none (s : Pix) (sl : Sel) (hd : s.d = 1) (hsx : 0 < sl.sx)
    (hsy : 0 < sl.sy) :
    processMorphArgs2 none (some s) (some sl) = some (pixCreateTemplate s) := by
  simp only [processMorphArgs2]
  rw [if_neg (by omega), if_neg (by omega)]

theorem args2_some (dpix s : Pix) (sl : Sel) (hd : s.d = 1) (hsx : 0 < sl.sx)
    (hsy : 0 < sl.sy) (hsz : pixSizesEqual s dpix = true) :
    processMorphArgs2 (some dpix) (some s) (some sl) = some dpix := by
  simp only [processMorphArgs2]
  rw [if_neg (by omega), if_neg (by omega), if_pos hsz]

/-! ### Operator characterizations -/

theorem args1_shape (pd : Option Pix) (s : Pix) (sl : Sel)
    (hd : s.d = 1) (hsx : 0 < sl.sx) (hsy : 0 < sl.sy)
    (hpd : ∀ d0, pd = some d0 → pixSizesEqual s d0 = true) :
    ∃ d0, processMorphArgs1 pd (some s) (some sl) = some (d0, s) ∧
      d0.w = s.w ∧ d0.h = s.h ∧ d0.d = s.d := by
  cases pd with
  | none => exact ⟨pixCreateTemplate s, args1_none s sl hd hsx hsy, rfl, rfl, rfl⟩
  | some dpix =>
    have hsz := hpd dpix rfl
    rcases sizesEqual_iff.mp hsz with ⟨h1, h2, h3⟩
    exact ⟨dpix, args1_some dpix s sl hd hsx hsy hsz, h1.symm, h2.symm, h3.symm⟩

theorem pixDilate_spec (bc : BC) (pd : Option Pix) (s : Pix) (sl : Sel)
    (hd : s.d = 1) (hsx : 0 < sl.sx) (hsy : 0 < sl.sy)
    (hpd : ∀ d0, pd = some d0 → pixSizesEqual s d0 = true) :
    ∃ R, pixDilate bc pd (some s) (some sl) = some R ∧
      R.w = s.w ∧ R.h = s.h ∧ R.d = s.d ∧
      ∀ x y : Int, R.getPix x y = true ↔
        (inImg s x y ∧ ∃ i j, isHit sl i j ∧
          s.getPix (x - ((j : Int) - sl.cx)) (y - ((i : Int) - sl.cy)) = true) := by
  obtain ⟨d0, hargs, hw, hh, hdd⟩ := args1_shape pd s sl hd hsx hsy hpd
  refine ⟨dilateAccum s sl (pixClearAll d0), by simp only [pixDilate, hargs], ?_, ?_, ?_, ?_⟩
  · exact ((dilateAccum_dims s sl (pixClearAll d0)).1).trans hw
  · exact ((dilateAccum_dims s sl (pixClearAll d0)).2.1).trans hh
  · exact ((dilateAccum_dims s sl (pixClearAll d0)).2.2).trans hdd
  intro x y
  by_cases hxy : inImg s x y
  · have hxy0 : inImg (pixClearAll d0) x y := by
      unfold inImg at hxy ⊢
      simp only [clearAll_w, clearAll_h, hw, hh]
      exact hxy
    unfold dilateAccum
    rw [dilate_fold_getPix s sl x y (selPairs sl) (pixClearAll d0) hw hh hxy0]
    rw [getPix_clearAll, Bool.false_or, List.any_eq_true]
    constructor
    · rintro ⟨ij, hmem, hp⟩
      rcases mem_selPairs.mp hmem with ⟨h1, h2⟩
      simp only [Bool.and_eq_true, decide_eq_true_eq] at hp
      exact ⟨hxy, ij.1, ij.2, ⟨h1, h2, hp.1⟩, hp.2⟩
    · rintro ⟨-, i, j, ⟨h1, h2, h3⟩, h4⟩
      refine ⟨(i, j), mem_selPairs.mpr ⟨h1, h2⟩, ?_⟩
      simp only [Bool.and_eq_true, decide_eq_true_eq]
      exact ⟨h3, h4⟩
  · have hR : ¬ inImg (dilateAccum s sl (pixClearAll d0)) x y := by
      unfold inImg at hxy ⊢
      rcases dilateAccum_dims s sl (pixClearAll d0) with ⟨e1, e2, -⟩
      simp only [e1, e2, clearAll_w, clearAll_h, hw, hh]
      exact hxy
    rw [getPix_of_not_inImg hR]
    simp only [Bool.false_eq_true, false_iff]
    tauto

theorem strips_iff (s : Pix) (sl : Sel) {x y : Int} (hxy : inImg s x y) :
    (selMaxHit sl (fun ij => (sl.cx : Int) - ij.2) ≤ x ∧
      x < (s.w : Int) - selMaxHit sl (fun ij => (ij.2 : Int) - sl.cx) ∧
      selMaxHit sl (fun ij => (sl.cy : Int) - ij.1) ≤ y ∧
      y < (s.h : Int) - selMaxHit sl (fun ij => (ij.1 : Int) - sl.cy)) ↔
    ∀ i j, isHit sl i j →
      inImg s (x + ((j : Int) - sl.cx)) (y + ((i : Int) - sl.cy)) := by
  unfold inImg at hxy
  constructor
  · rintro ⟨b1, b2, b3, b4⟩ i j hij
    have c1 := selMaxHit_le.mp b1
    have c2 := selMaxHit_le.mp (show selMaxHit sl (fun ij => (ij.2 : Int) - sl.cx)
      ≤ (s.w : Int) - x - 1 from by omega)
    have c3 := selMaxHit_le.mp b3
    have c4 := selMaxHit_le.mp (show selMaxHit sl (fun ij => (ij.1 : Int) - sl.cy)
      ≤ (s.h : Int) - y - 1 from by omega)
    have d1 := c1.2 i j hij
    have d2 := c2.2 i j hij
    have d3 := c3.2 i j hij
    have d4 := c4.2 i j hij
    unfold inImg
    simp only at d1 d2 d3 d4
    omega
  · intro hall
    have e1 : selMaxHit sl (fun ij => (sl.cx : Int) - ij.2) ≤ x := by
      rw [selMaxHit_le]
      refine ⟨by omega, fun i j hij => ?_⟩
      have := hall i j hij
      unfold inImg at this
      simp only
      omega
    have e2 : selMaxHit sl (fun ij => (ij.2 : Int) - sl.cx) ≤ (s.w : Int) - x - 1 := by
      rw [selMaxHit_le]
      refine ⟨by omega, fun i j hij => ?_⟩
      have := hall i j hij
      unfold inImg at this
      simp only
      omega
    have e3 : selMaxHit sl (fun ij => (sl.cy : Int) - ij.1) ≤ y := by
      rw [selMaxHit_le]
      refine ⟨by omega, fun i j hij => ?_⟩
      have := hall i j hij
      unfold inImg at this
      simp only
      omega
    have e4 : selMaxHit sl (fun ij => (ij.1 : Int) - sl.cy) ≤ (s.h : Int) - y - 1 := by
      rw [selMaxHit_le]
      refine ⟨by omega, fun i j hij => ?_⟩
      have := hall i j hij
      unfold inImg at this
      simp only
      omega
    omega

theorem erode_entry_iff (s : Pix) (sl : Sel) (x y : Int) (i j : Nat) :
    ((!(decide (sl.data i j = 1)) ||
      !(decide (inImg s (x - ((sl.cx : Int) - j)) (y - ((sl.cy : Int) - i)))) ||
      s.getPix (x - ((sl.cx : Int) - j)) (y - ((sl.cy : Int) - i))) = true) ↔
    (sl.data i j = 1 →
      inImg s (x + ((j : Int) - sl.cx)) (y + ((i : Int) - sl.cy)) →
      s.getPix (x + ((j : Int) - sl.cx)) (y + ((i : Int) - sl.cy)) = true) := by
  have hrw1 : x - ((sl.cx : Int) - (j : Int)) = x + ((j : Int) - sl.cx) := by ring
  have hrw2 : y - ((sl.cy : Int) - (i : Int)) = y + ((i : Int) - sl.cy) := by ring
  rw [hrw1, hrw2]
  simp only [Bool.or_eq_true, Bool.not_eq_true', decide_eq_false_iff_not,
    decide_eq_true_eq]
  tauto

theorem pixErode_spec_sym (pd : Option Pix) (s : Pix) (sl : Sel)
    (hd : s.d = 1) (hsx : 0 < sl.sx) (hsy : 0 < sl.sy)
    (hpd : ∀ d0, pd = some d0 → pixSizesEqual s d0 = true) :
    ∃ R, pixErode BC.symmetric pd (some s) (some sl) = some R ∧
      R.w = s.w ∧ R.h = s.h ∧ R.d = s.d ∧
      ∀ x y : Int, R.getPix x y = true ↔
        (inImg s x y ∧ ∀ i j, isHit sl i j →
          inImg s (x + ((j : Int) - sl.cx)) (y + ((i : Int) - sl.cy)) →
          s.getPix (x + ((j : Int) - sl.cx)) (y + ((i : Int) - sl.cy)) = true) := by
  obtain ⟨d0, hargs, hw, hh, hdd⟩ := args1_shape pd s sl hd hsx hsy hpd
  refine ⟨erodeAccum s sl (pixSetAll d0), ?_, ?_, ?_, ?_, ?_⟩
  · simp only [pixErode, hargs]
    rfl
  · exact ((erodeAccum_dims s sl (pixSetAll d0)).1).trans hw
  · exact ((erodeAccum_dims s sl (pixSetAll d0)).2.1).trans hh
  · exact ((erodeAccum_dims s sl (pixSetAll d0)).2.2).trans hdd
  intro x y
  by_cases hxy : inImg s x y
  · have hxy0 : inImg d0 x y := by
      unfold inImg at hxy ⊢
      rw [hw, hh]
      exact hxy
    unfold erodeAccum
    rw [erode_fold_getPix s sl x y (selPairs sl) (pixSetAll d0) hw hh]
    rw [getPix_setAll_of_inImg hxy0, Bool.true_and, List.all_eq_true]
    constructor
    · intro hall
      refine ⟨hxy, fun i j hij hin => ?_⟩
      have hmem := hall (i, j) (mem_selPairs.mpr ⟨hij.1, hij.2.1⟩)
      exact (erode_entry_iff s sl x y i j).mp hmem hij.2.2 hin
    · rintro ⟨-, hall⟩ ij hmem
      exact (erode_entry_iff s sl x y ij.1 ij.2).mpr
        (fun h1 h2 => hall ij.1 ij.2
          ⟨(mem_selPairs.mp hmem).1, (mem_selPairs.mp hmem).2, h1⟩ h2)
  · have hR : ¬ inImg (erodeAccum s sl (pixSetAll d0)) x y := by
      unfold inImg at hxy ⊢
      rcases erodeAccum_dims s sl (pixSetAll d0) with ⟨e1, e2, -⟩
      simp only [e1, e2, setAll_w, setAll_h, hw, hh]
      exact hxy
    rw [getPix_of_not_inImg hR]
    simp only [Bool.false_eq_true, false_iff]
    tauto

theorem pixErode_spec_asym (pd : Option Pix) (s : Pix) (sl : Sel)
    (hd : s.d = 1) (hsx : 0 < sl.sx) (hsy : 0 < sl.sy)
    (hpd : ∀ d0, pd = some d0 → pixSizesEqual s d0 = true) :
    ∃ R, pixErode BC.asymmetric pd (some s) (some sl) = some R ∧
      R.w = s.w ∧ R.h = s.h ∧ R.d = s.d ∧
      ∀ x y : Int, R.getPix x y = true ↔
        (inImg s x y ∧ ∀ i j, isHit sl i j →
          s.getPix (x + ((j : Int) - sl.cx)) (y + ((i : Int) - sl.cy)) = true) := by
  obtain ⟨d0, hargs, hw, hh, hdd⟩ := args1_shape pd s sl hd hsx hsy hpd
  have haw : (erodeAccum s sl (pixSetAll d0)).w = s.w :=
    ((erodeAccum_dims s sl (pixSetAll d0)).1).trans hw
  have hah : (erodeAccum s sl (pixSetAll d0)).h = s.h :=
    ((erodeAccum_dims s sl (pixSetAll d0)).2.1).trans hh
  refine ⟨clearStrips (erodeAccum s sl (pixSetAll d0)) (s.w : Int) (s.h : Int)
      (selMaxHit sl (fun ij => (sl.cx : Int) - ij.2))
      (selMaxHit sl (fun ij => (sl.cy : Int) - ij.1))
      (selMaxHit sl (fun ij => (ij.2 : Int) - sl.cx))
      (selMaxHit sl (fun ij => (ij.1 : Int) - sl.cy)), ?_, ?_, ?_, ?_, ?_⟩
  · simp only [pixErode, hargs]
    rfl
  · simp only [clearStrips_w]
    exact haw
  · simp only [clearStrips_h]
    exact hah
  · simp only [clearStrips_d]
    exact ((erodeAccum_dims s sl (pixSetAll d0)).2.2).trans hdd
  intro x y
  by_cases hxy : inImg s x y
  · have hxya : inImg (erodeAccum s sl (pixSetAll d0)) x y := by
      unfold inImg at hxy ⊢
      rw [haw, hah]
      exact hxy
    rw [getPix_clearStrips hxya (by rw [haw]) (by rw [hah])]
    unfold erodeAccum
    rw [erode_fold_getPix s sl x y (selPairs sl) (pixSetAll d0) hw hh]
    have hxy0 : inImg d0 x y := by
      unfold inImg at hxy ⊢
      rw [hw, hh]
      exact hxy
    rw [getPix_setAll_of_inImg hxy0, Bool.true_and, List.all_eq_true]
    constructor
    · rintro ⟨hall, hb⟩
      refine ⟨hxy, fun i j hij => ?_⟩
      have hin : inImg s (x + ((j : Int) - sl.cx)) (y + ((i : Int) - sl.cy)) :=
        (strips_iff s sl hxy).mp hb i j hij
      exact (erode_entry_iff s sl x y i j).mp
        (hall (i, j) (mem_selPairs.mpr ⟨hij.1, hij.2.1⟩)) hij.2.2 hin
    · rintro ⟨-, hall⟩
      constructor
      · intro ij hmem
        exact (erode_entry_iff s sl x y ij.1 ij.2).mpr
          (fun h1 _ => hall ij.1 ij.2
            ⟨(mem_selPairs.mp hmem).1, (mem_selPairs.mp hmem).2, h1⟩)
      · exact (strips_iff s sl hxy).mpr
          (fun i j hij => inImg_of_getPix (hall i j hij))
  · have hR : ¬ inImg (clearStrips (erodeAccum s sl (pixSetAll d0))
        (s.w : Int) (s.h : Int)
        (selMaxHit sl (fun ij => (sl.cx : Int) - ij.2))
        (selMaxHit sl (fun ij => (sl.cy : Int) - ij.1))
        (selMaxHit sl (fun ij => (ij.2 : Int) - sl.cx))
        (selMaxHit sl (fun ij => (ij.1 : Int) - sl.cy))) x y := by
      unfold inImg at hxy ⊢
      simp only [clearStrips_w, clearStrips_h, haw, hah]
      exact hxy
    rw [getPix_of_not_inImg hR]
    simp only [Bool.false_eq_true, false_iff]
    tauto

/-! ### Hit-miss transform machinery -/

/-- The per-cell factor accumulated by `pixHMT` after initialization:
for a HIT cell, off-image translates are skipped by clipping; for a MISS
cell the complemented bit is ANDed in; DONT_CARE contributes nothing. -/
def hmtChi (t : Pix) (sl : Sel) (x y : Int) (ij : Nat × Nat) : Bool :=
  if sl.data ij.1 ij.2 = 1 then
    !(decide (inImg t (x - ((sl.cx : Int) - ij.2)) (y - ((sl.cy : Int) - ij.1)))) ||
      t.getPix (x - ((sl.cx : Int) - ij.2)) (y - ((sl.cy : Int) - ij.1))
  else if sl.data ij.1 ij.2 = 2 then
    !(t.getPix (x - ((sl.cx : Int) - ij.2)) (y - ((sl.cy : Int) - ij.1)))
  else true

/-- The accumulated `pixHMT` bit over a cell list whose first
non-DONT_CARE cell initializes the destination. -/
def hmtF (t : Pix) (sl : Sel) (x y : Int) : List (Nat × Nat) → Bool
  | [] => false
  | ij :: rest =>
    if sl.data ij.1 ij.2 = 1 then
      t.getPix (x - ((sl.cx : Int) - ij.2)) (y - ((sl.cy : Int) - ij.1)) &&
        rest.all (hmtChi t sl x y)
    else if sl.data ij.1 ij.2 = 2 then
      !(t.getPix (x - ((sl.cx : Int) - ij.2)) (y - ((sl.cy : Int) - ij.1))) &&
        rest.all (hmtChi t sl x y)
    else hmtF t sl x y rest

theorem hmtF_cons (t : Pix) (sl : Sel) (x y : Int) (ij : Nat × Nat)
    (rest : List (Nat × Nat)) :
    hmtF t sl x y (ij :: rest) =
      (if sl.data ij.1 ij.2 = 1 then
        t.getPix (x - ((sl.cx : Int) - ij.2)) (y - ((sl.cy : Int) - ij.1)) &&
          rest.all (hmtChi t sl x y)
      else if sl.data ij.1 ij.2 = 2 then
        !(t.getPix (x - ((sl.cx : Int) - ij.2)) (y - ((sl.cy : Int) - ij.1))) &&
          rest.all (hmtChi t sl x y)
      else hmtF t sl x y rest) := rfl

theorem hmtStep_dims (t : Pix) (sl : Sel) (acc : Pix × Bool) (ij : Nat × Nat) :
    (hmtStep t sl acc ij).1.w = acc.1.w ∧ (hmtStep t sl acc ij).1.h = acc.1.h ∧
      (hmtStep t sl acc ij).1.d = acc.1.d := by
  unfold hmtStep
  split
  · split <;> exact ⟨rfl, rfl, rfl⟩
  split
  · split <;> exact ⟨rfl, rfl, rfl⟩
  · exact ⟨rfl, rfl, rfl⟩

theorem hmt_fold_dims (t : Pix) (sl : Sel) :
    ∀ (L : List (Nat × Nat)) (acc : Pix × Bool),
      (L.foldl (hmtStep t sl) acc).1.w = acc.1.w ∧
      (L.foldl (hmtStep t sl) acc).1.h = acc.1.h ∧
      (L.foldl (hmtStep t sl) acc).1.d = acc.1.d := by
  intro L
  induction L with
  | nil => intro acc; exact ⟨rfl, rfl, rfl⟩
  | cons hd tl ih =>
    intro acc
    rw [List.foldl_cons]
    rcases ih (hmtStep t sl acc hd) with ⟨h1, h2, h3⟩
    rcases hmtStep_dims t sl acc hd with ⟨g1, g2, g3⟩
    exact ⟨h1.trans g1, h2.trans g2, h3.trans g3⟩

theorem hmt_fold_inited (t : Pix) (sl : Sel) (x y : Int) :
    ∀ (L : List (Nat × Nat)) (dpix : Pix), dpix.w = t.w → dpix.h = t.h →
      (L.foldl (hmtStep t sl) (dpix, false)).2 = false ∧
      (L.foldl (hmtStep t sl) (dpix, false)).1.getPix x y =
        (dpix.getPix x y && L.all (hmtChi t sl x y)) := by
  intro L
  induction L with
  | nil => intro d _ _; simp
  | cons hd tl ih =>
    intro d hw hh
    rw [List.foldl_cons]
    by_cases h1 : sl.data hd.1 hd.2 = 1
    · have hstep : hmtStep t sl (d, false) hd =
          (pixRasterop d ((sl.cx : Int) - hd.2) ((sl.cy : Int) - hd.1)
            t.w t.h opSrcAndDst (some t) 0 0, false) := by
        simp [hmtStep, h1]
      rw [hstep]
      rcases ih (pixRasterop d ((sl.cx : Int) - hd.2) ((sl.cy : Int) - hd.1)
          t.w t.h opSrcAndDst (some t) 0 0) hw hh with ⟨e1, e2⟩
      refine ⟨e1, ?_⟩
      rw [e2, getPix_ropAnd]
      simp [hmtChi, h1, List.all_cons, Bool.and_assoc]
    by_cases h2 : sl.data hd.1 hd.2 = 2
    · have hstep : hmtStep t sl (d, false) hd =
          (pixRasterop d ((sl.cx : Int) - hd.2) ((sl.cy : Int) - hd.1)
            t.w t.h opNotSrcAndDst (some t) 0 0, false) := by
        simp [hmtStep, h1, h2]
      rw [hstep]
      rcases ih (pixRasterop d ((sl.cx : Int) - hd.2) ((sl.cy : Int) - hd.1)
          t.w t.h opNotSrcAndDst (some t) 0 0) hw hh with ⟨e1, e2⟩
      refine ⟨e1, ?_⟩
      rw [e2, getPix_ropNand]
      simp [hmtChi, h1, h2, List.all_cons, Bool.and_assoc]
    · have hstep : hmtStep t sl (d, false) hd = (d, false) := by
        simp [hmtStep, h1, h2]
      rw [hstep]
      rcases ih d hw hh with ⟨e1, e2⟩
      refine ⟨e1, ?_⟩
      rw [e2]
      simp [hmtChi, h1, h2, List.all_cons]

theorem hmt_fold_first (t : Pix) (sl : Sel) :
    ∀ (L : List (Nat × Nat)) (dpix : Pix), dpix.w = t.w → dpix.h = t.h →
      ((∀ ij ∈ L, sl.data ij.1 ij.2 ≠ 1 ∧ sl.data ij.1 ij.2 ≠ 2) ∧
        L.foldl (hmtStep t sl) (dpix, true) = (dpix, true))
      ∨ ((∃ ij ∈ L, sl.data ij.1 ij.2 = 1 ∨ sl.data ij.1 ij.2 = 2) ∧
          ∀ x y : Int, inImg dpix x y →
            (L.foldl (hmtStep t sl) (dpix, true)).1.getPix x y =
              hmtF t sl x y L) := by
  intro L
  induction L with
  | nil =>
    intro d _ _
    exact Or.inl ⟨fun ij h => absurd h (List.not_mem_nil ij), rfl⟩
  | cons hd tl ih =>
    intro d hw hh
    rw [List.foldl_cons]
    by_cases h1 : sl.data hd.1 hd.2 = 1
    · have hstep : hmtStep t sl (d, true) hd =
          (pixRasterop (pixClearAll d) ((sl.cx : Int) - hd.2)
            ((sl.cy : Int) - hd.1) t.w t.h opSrc (some t) 0 0, true && false) := by
        simp [hmtStep, h1]
      refine Or.inr ⟨⟨hd, List.mem_cons_self hd tl, Or.inl h1⟩, fun x y hxy => ?_⟩
      rw [show hmtStep t sl (d, true) hd =
          (pixRasterop (pixClearAll d) ((sl.cx : Int) - hd.2)
            ((sl.cy : Int) - hd.1) t.w t.h opSrc (some t) 0 0, false) from by
        simp [hmtStep, h1]]
      rw [(hmt_fold_inited t sl x y tl
        (pixRasterop (pixClearAll d) ((sl.cx : Int) - hd.2)
          ((sl.cy : Int) - hd.1) t.w t.h opSrc (some t) 0 0) hw hh).2]
      rw [getPix_ropSrc_clear _ _ x y hxy]
      rw [hmtF_cons, if_pos h1]
    by_cases h2 : sl.data hd.1 hd.2 = 2
    · refine Or.inr ⟨⟨hd, List.mem_cons_self hd tl, Or.inr h2⟩, fun x y hxy => ?_⟩
      rw [show hmtStep t sl (d, true) hd =
          (pixRasterop (pixSetAll d) ((sl.cx : Int) - hd.2)
            ((sl.cy : Int) - hd.1) t.w t.h opNotSrc (some t) 0 0, false) from by
        simp [hmtStep, h1, h2]]
      rw [(hmt_fold_inited t sl x y tl
        (pixRasterop (pixSetAll d) ((sl.cx : Int) - hd.2)
          ((sl.cy : Int) - hd.1) t.w t.h opNotSrc (some t) 0 0) hw hh).2]
      rw [getPix_ropNotSrc_set _ _ x y hxy]
      rw [hmtF_cons, if_neg h1, if_pos h2]
    · have hstep : hmtStep t sl (d, true) hd = (d, true) := by
        simp [hmtStep, h1, h2]
      rw [hstep]
      rcases ih d hw hh with ⟨g1, g2⟩ | ⟨g1, g2⟩
      · refine Or.inl ⟨?_, g2⟩
        intro ij hmem
        rcases List.mem_cons.mp hmem with h | h
        · subst h; exact ⟨h1, h2⟩
        · exact g1 ij h
      · refine Or.inr ⟨?_, fun x y hxy => ?_⟩
        · rcases g1 with ⟨ij, hmem, hij⟩
          exact ⟨ij, List.mem_cons_of_mem hd hmem, hij⟩
        · rw [g2 x y hxy]
          rw [hmtF_cons, if_neg h1, if_neg h2]

theorem hmtChi_iff (t : Pix) (sl : Sel) (x y : Int) (ij : Nat × Nat)
    (hsrc : sl.data ij.1 ij.2 = 1 →
      inImg t (x - ((sl.cx : Int) - ij.2)) (y - ((sl.cy : Int) - ij.1))) :
    hmtChi t sl x y ij = true ↔
      ((sl.data ij.1 ij.2 = 1 →
          t.getPix (x - ((sl.cx : Int) - ij.2)) (y - ((sl.cy : Int) - ij.1)) = true) ∧
       (sl.data ij.1 ij.2 = 2 →
          t.getPix (x - ((sl.cx : Int) - ij.2)) (y - ((sl.cy : Int) - ij.1)) = false)) := by
  unfold hmtChi
  by_cases h1 : sl.data ij.1 ij.2 = 1
  · rw [if_pos h1]
    simp only [Bool.or_eq_true, Bool.not_eq_true', decide_eq_false_iff_not]
    constructor
    · rintro (h | h)
      · exact absurd (hsrc h1) h
      · exact ⟨fun _ => h, fun hc => by omega⟩
    · rintro ⟨ha, -⟩
      exact Or.inr (ha h1)
  by_cases h2 : sl.data ij.1 ij.2 = 2
  · rw [if_neg h1, if_pos h2]
    simp only [Bool.not_eq_true']
    constructor
    · intro h
      exact ⟨fun hc => absurd hc h1, fun _ => h⟩
    · rintro ⟨-, hb⟩
      exact hb h2
  · rw [if_neg h1, if_neg h2]
    simp [h1, h2]

theorem all_chi_iff (t : Pix) (sl : Sel) (x y : Int) (L : List (Nat × Nat))
    (hsrc : ∀ ij ∈ L, sl.data ij.1 ij.2 = 1 →
      inImg t (x - ((sl.cx : Int) - ij.2)) (y - ((sl.cy : Int) - ij.1))) :
    L.all (hmtChi t sl x y) = true ↔
      ((∀ ij ∈ L, sl.data ij.1 ij.2 = 1 →
          t.getPix (x - ((sl.cx : Int) - ij.2)) (y - ((sl.cy : Int) - ij.1)) = true) ∧
       (∀ ij ∈ L, sl.data ij.1 ij.2 = 2 →
          t.getPix (x - ((sl.cx : Int) - ij.2)) (y - ((sl.cy : Int) - ij.1)) = false)) := by
  rw [List.all_eq_true]
  constructor
  · intro hall
    constructor
    · intro ij hmem h1
      exact ((hmtChi_iff t sl x y ij (hsrc ij hmem)).mp (hall ij hmem)).1 h1
    · intro ij hmem h2
      exact ((hmtChi_iff t sl x y ij (hsrc ij hmem)).mp (hall ij hmem)).2 h2
  · rintro ⟨ha, hb⟩ ij hmem
    exact (hmtChi_iff t sl x y ij (hsrc ij hmem)).mpr
      ⟨ha ij hmem, hb ij hmem⟩

theorem hmtF_iff (t : Pix) (sl : Sel) (x y : Int) :
    ∀ (L : List (Nat × Nat)),
      (∃ ij ∈ L, sl.data ij.1 ij.2 = 1 ∨ sl.data ij.1 ij.2 = 2) →
      (∀ ij ∈ L, sl.data ij.1 ij.2 = 1 →
        inImg t (x - ((sl.cx : Int) - ij.2)) (y - ((sl.cy : Int) - ij.1))) →
      (hmtF t sl x y L = true ↔
        ((∀ ij ∈ L, sl.data ij.1 ij.2 = 1 →
            t.getPix (x - ((sl.cx : Int) - ij.2)) (y - ((sl.cy : Int) - ij.1)) = true) ∧
         (∀ ij ∈ L, sl.data ij.1 ij.2 = 2 →
            t.getPix (x - ((sl.cx : Int) - ij.2)) (y - ((sl.cy : Int) - ij.1)) = false))) := by
  intro L
  induction L with
  | nil =>
    rintro ⟨ij, hmem, -⟩
    exact absurd hmem (List.not_mem_nil ij)
  | cons hd tl ih =>
    intro hne hsrc
    have hsrctl : ∀ ij ∈ tl, sl.data ij.1 ij.2 = 1 →
        inImg t (x - ((sl.cx : Int) - ij.2)) (y - ((sl.cy : Int) - ij.1)) :=
      fun ij hmem => hsrc ij (List.mem_cons_of_mem hd hmem)
    by_cases h1 : sl.data hd.1 hd.2 = 1
    · rw [hmtF_cons, if_pos h1, Bool.and_eq_true,
        all_chi_iff t sl x y tl hsrctl]
      constructor
      · rintro ⟨hv, ha, hb⟩
        constructor
        · intro ij hmem hij
          rcases List.mem_cons.mp hmem with h | h
          · subst h; exact hv
          · exact ha ij h hij
        · intro ij hmem hij
          rcases List.mem_cons.mp hmem with h | h
          · subst h; omega
          · exact hb ij h hij
      · rintro ⟨ha, hb⟩
        exact ⟨ha hd (List.mem_cons_self hd tl) h1,
          fun ij hmem hij => ha ij (List.mem_cons_of_mem hd hmem) hij,
          fun ij hmem hij => hb ij (List.mem_cons_of_mem hd hmem) hij⟩
    by_cases h2 : sl.data hd.1 hd.2 = 2
    · rw [hmtF_cons, if_neg h1, if_pos h2, Bool.and_eq_true,
        all_chi_iff t sl x y tl hsrctl]
      simp only [Bool.not_eq_true']
      constructor
      · rintro ⟨hv, ha, hb⟩
        constructor
        · intro ij hmem hij
          rcases List.mem_cons.mp hmem with h | h
          · subst h; omega
          · exact ha ij h hij
        · intro ij hmem hij
          rcases List.mem_cons.mp hmem with h | h
          · subst h; exact hv
          · exact hb ij h hij
      · rintro ⟨ha, hb⟩
        exact ⟨hb hd (List.mem_cons_self hd tl) h2,
          fun ij hmem hij => ha ij (List.mem_cons_of_mem hd hmem) hij,
          fun ij hmem hij => hb ij (List.mem_cons_of_mem hd hmem) hij⟩
    · have hnetl : ∃ ij ∈ tl, sl.data ij.1 ij.2 = 1 ∨ sl.data ij.1 ij.2 = 2 := by
        rcases hne with ⟨ij, hmem, hij⟩
        rcases List.mem_cons.mp hmem with h | h
        · subst h; tauto
        · exact ⟨ij, h, hij⟩
      rw [hmtF_cons, if_neg h1, if_neg h2, ih hnetl hsrctl]
      constructor
      · rintro ⟨ha, hb⟩
        constructor
        · intro ij hmem hij
          rcases List.mem_cons.mp hmem with h | h
          · subst h; omega
          · exact ha ij h hij
        · intro ij hmem hij
          rcases List.mem_cons.mp hmem with h | h
          · subst h; omega
          · exact hb ij h hij
      · rintro ⟨ha, hb⟩
        exact ⟨fun ij hmem hij => ha ij (List.mem_cons_of_mem hd hmem) hij,
          fun ij hmem hij => hb ij (List.mem_cons_of_mem hd hmem) hij⟩

theorem pixHMT_spec (bc : BC) (pd : Option Pix) (s : Pix) (sl : Sel)
    (hd : s.d = 1) (hsx : 0 < sl.sx) (hsy : 0 < sl.sy)
    (hpd : ∀ d0, pd = some d0 → pixSizesEqual s d0 = true)
    (hnd : ∃ i j, i < sl.sy ∧ j < sl.sx ∧
      (sl.data i j = 1 ∨ sl.data i j = 2)) :
    ∃ R, pixHMT bc pd (some s) (some sl) = some R ∧
      R.w = s.w ∧ R.h = s.h ∧ R.d = s.d ∧
      ∀ x y : Int, R.getPix x y = true ↔
        (inImg s x y ∧
         (∀ i j, isHit sl i j →
            s.getPix (x + ((j : Int) - sl.cx)) (y + ((i : Int) - sl.cy)) = true) ∧
         (∀ i j, isMiss sl i j →
            s.getPix (x + ((j : Int) - sl.cx)) (y + ((i : Int) - sl.cy)) = false)) := by
  obtain ⟨d0, hargs, hw, hh, hdd⟩ := args1_shape pd s sl hd hsx hsy hpd
  have hrw : ((selPairs sl).foldl (hmtStep s sl) (d0, true)).1.w = s.w :=
    ((hmt_fold_dims s sl (selPairs sl) (d0, true)).1).trans hw
  have hrh : ((selPairs sl).foldl (hmtStep s sl) (d0, true)).1.h = s.h :=
    ((hmt_fold_dims s sl (selPairs sl) (d0, true)).2.1).trans hh
  refine ⟨clearStrips ((selPairs sl).foldl (hmtStep s sl) (d0, true)).1
      (s.w : Int) (s.h : Int)
      (selMaxHit sl (fun ij => (sl.cx : Int) - ij.2))
      (selMaxHit sl (fun ij => (sl.cy : Int) - ij.1))
      (selMaxHit sl (fun ij => (ij.2 : Int) - sl.cx))
      (selMaxHit sl (fun ij => (ij.1 : Int) - sl.cy)), ?_, ?_, ?_, ?_, ?_⟩
  · simp only [pixHMT, hargs]
    rfl
  · simp only [clearStrips_w]
    exact hrw
  · simp only [clearStrips_h]
    exact hrh
  · simp only [clearStrips_d]
    exact ((hmt_fold_dims s sl (selPairs sl) (d0, true)).2.2).trans hdd
  rcases hmt_fold_first s sl (selPairs sl) d0 hw hh with ⟨g1, -⟩ | ⟨-, g2⟩
  · exfalso
    rcases hnd with ⟨i, j, hi, hj, hij⟩
    have := g1 (i, j) (mem_selPairs.mpr ⟨hi, hj⟩)
    tauto
  intro x y
  by_cases hxy : inImg s x y
  · have hxy0 : inImg d0 x y := by
      unfold inImg at hxy ⊢
      rw [hw, hh]
      exact hxy
    have hr : inImg ((selPairs sl).foldl (hmtStep s sl) (d0, true)).1 x y := by
      unfold inImg at hxy ⊢
      rw [hrw, hrh]
      exact hxy
    rw [getPix_clearStrips hr (by rw [hrw]) (by rw [hrh])]
    rw [g2 x y hxy0]
    constructor
    · rintro ⟨hf, hb⟩
      have hball := (strips_iff s sl hxy).mp hb
      have hsrc : ∀ ij ∈ selPairs sl, sl.data ij.1 ij.2 = 1 →
          inImg s (x - ((sl.cx : Int) - ij.2)) (y - ((sl.cy : Int) - ij.1)) := by
        intro ij hmem hij
        have hm := mem_selPairs.mp hmem
        have := hball ij.1 ij.2 ⟨hm.1, hm.2, hij⟩
        have e1 : x - ((sl.cx : Int) - ij.2) = x + ((ij.2 : Int) - sl.cx) := by ring
        have e2 : y - ((sl.cy : Int) - ij.1) = y + ((ij.1 : Int) - sl.cy) := by ring
        rw [e1, e2]
        exact this
      have hne : ∃ ij ∈ selPairs sl,
          sl.data ij.1 ij.2 = 1 ∨ sl.data ij.1 ij.2 = 2 := by
        rcases hnd with ⟨i, j, hi, hj, hij⟩
        exact ⟨(i, j), mem_selPairs.mpr ⟨hi, hj⟩, hij⟩
      rcases (hmtF_iff s sl x y (selPairs sl) hne hsrc).mp hf with ⟨ha, hbm⟩
      refine ⟨hxy, fun i j hij => ?_, fun i j hij => ?_⟩
      · have := ha (i, j) (mem_selPairs.mpr ⟨hij.1, hij.2.1⟩) hij.2.2
        have e1 : x - ((sl.cx : Int) - (j : Int)) = x + ((j : Int) - sl.cx) := by ring
        have e2 : y - ((sl.cy : Int) - (i : Int)) = y + ((i : Int) - sl.cy) := by ring
        rw [e1, e2] at this
        exact this
      · have := hbm (i, j) (mem_selPairs.mpr ⟨hij.1, hij.2.1⟩) hij.2.2
        have e1 : x - ((sl.cx : Int) - (j : Int)) = x + ((j : Int) - sl.cx) := by ring
        have e2 : y - ((sl.cy : Int) - (i : Int)) = y + ((i : Int) - sl.cy) := by ring
        rw [e1, e2] at this
        exact this
    · rintro ⟨-, hhits, hmiss⟩
      have hball : ∀ i j, isHit sl i j →
          inImg s (x + ((j : Int) - sl.cx)) (y + ((i : Int) - sl.cy)) :=
        fun i j hij => inImg_of_getPix (hhits i j hij)
      have hsrc : ∀ ij ∈ selPairs sl, sl.data ij.1 ij.2 = 1 →
          inImg s (x - ((sl.cx : Int) - ij.2)) (y - ((sl.cy : Int) - ij.1)) := by
        intro ij hmem hij
        have hm := mem_selPairs.mp hmem
        have := hball ij.1 ij.2 ⟨hm.1, hm.2, hij⟩
        have e1 : x - ((sl.cx : Int) - ij.2) = x + ((ij.2 : Int) - sl.cx) := by ring
        have e2 : y - ((sl.cy : Int) - ij.1) = y + ((ij.1 : Int) - sl.cy) := by ring
        rw [e1, e2]
        exact this
      have hne : ∃ ij ∈ selPairs sl,
          sl.data ij.1 ij.2 = 1 ∨ sl.data ij.1 ij.2 = 2 := by
        rcases hnd with ⟨i, j, hi, hj, hij⟩
        exact ⟨(i, j), mem_selPairs.mpr ⟨hi, hj⟩, hij⟩
      refine ⟨(hmtF_iff s sl x y (selPairs sl) hne hsrc).mpr ⟨?_, ?_⟩,
        (strips_iff s sl hxy).mpr hball⟩
      · intro ij hmem hij
        have hm := mem_selPairs.mp hmem
        have := hhits ij.1 ij.2 ⟨hm.1, hm.2, hij⟩
        have e1 : x - ((sl.cx : Int) - ij.2) = x + ((ij.2 : Int) - sl.cx) := by ring
        have e2 : y - ((sl.cy : Int) - ij.1) = y + ((ij.1 : Int) - sl.cy) := by ring
        rw [e1, e2]
        exact this
      · intro ij hmem hij
        have hm := mem_selPairs.mp hmem
        have := hmiss ij.1 ij.2 ⟨hm.1, hm.2, hij⟩
        have e1 : x - ((sl.cx : Int) - ij.2) = x + ((ij.2 : Int) - sl.cx) := by ring
        have e2 : y - ((sl.cy : Int) - ij.1) = y + ((ij.1 : Int) - sl.cy) := by ring
        rw [e1, e2]
        exact this
  · have hR : ¬ inImg (clearStrips ((selPairs sl).foldl (hmtStep s sl) (d0, true)).1
        (s.w : Int) (s.h : Int)
        (selMaxHit sl (fun ij => (sl.cx : Int) - ij.2))
        (selMaxHit sl (fun ij => (sl.cy : Int) - ij.1))
        (selMaxHit sl (fun ij => (ij.2 : Int) - sl.cx))
        (selMaxHit sl (fun ij => (ij.1 : Int) - sl.cy))) x y := by
      unfold inImg at hxy ⊢
      simp only [clearStrips_w, clearStrips_h, hrw, hrh]
      exact hxy
    rw [getPix_of_not_inImg hR]
    simp only [Bool.false_eq_true, false_iff]
    tauto

/-! ### Validation failure lemmas -/

theorem args1_invalid (pd : Option Pix) (s : Pix) (sl : Sel)
    (h : s.d ≠ 1 ∨ sl.sx = 0 ∨ sl.sy = 0) :
    processMorphArgs1 pd (some s) (some sl) = none := by
  simp only [processMorphArgs1]
  by_cases h1 : s.d ≠ 1
  · rw [if_pos h1]
  · rw [if_neg h1, if_pos (by tauto)]

theorem args1_mismatch (dpix s : Pix) (sl : Sel)
    (h : pixSizesEqual s dpix = false) :
    processMorphArgs1 (some dpix) (some s) (some sl) = none := by
  simp only [processMorphArgs1]
  by_cases h1 : s.d ≠ 1
  · rw [if_pos h1]
  · rw [if_neg h1]
    by_cases h2 : sl.sx = 0 ∨ sl.sy = 0
    · rw [if_pos h2]
    · rw [if_neg h2, if_neg (by simp [h])]

theorem args2_invalid (pd : Option Pix) (s : Pix) (sl : Sel)
    (h : s.d ≠ 1 ∨ sl.sx = 0 ∨ sl.sy = 0) :
    processMorphArgs2 pd (some s) (some sl) = none := by
  simp only [processMorphArgs2]
  by_cases h1 : s.d ≠ 1
  · rw [if_pos h1]
  · rw [if_neg h1, if_pos (by tauto)]

theorem args2_mismatch (dpix s : Pix) (sl : Sel)
    (h : pixSizesEqual s dpix = false) :
    processMorphArgs2 (some dpix) (some s) (some sl) = none := by
  simp only [processMorphArgs2]
  by_cases h1 : s.d ≠ 1
  · rw [if_pos h1]
  · rw [if_neg h1]
    by_cases h2 : sl.sx = 0 ∨ sl.sy = 0
    · rw [if_pos h2]
    · rw [if_neg h2, if_neg (by simp [h])]

theorem pixDilate_args1_none (bc : BC) (pd ps : Option Pix) (sel : Option Sel)
    (h : processMorphArgs1 pd ps sel = none) :
    pixDilate bc pd ps sel = none := by
  cases ps with
  | none => cases sel <;> rfl
  | some s =>
    cases sel with
    | none => rfl
    | some sl => simp only [pixDilate, h]

theorem pixErode_args1_none (bc : BC) (pd ps : Option Pix) (sel : Option Sel)
    (h : processMorphArgs1 pd ps sel = none) :
    pixErode bc pd ps sel = none := by
  cases ps with
  | none => cases sel <;> rfl
  | some s =>
    cases sel with
    | none => rfl
    | some sl => simp only [pixErode, h]

theorem pixHMT_args1_none (bc : BC) (pd ps : Option Pix) (sel : Option Sel)
    (h : processMorphArgs1 pd ps sel = none) :
    pixHMT bc pd ps sel = none := by
  cases ps with
  | none => cases sel <;> rfl
  | some s =>
    cases sel with
    | none => rfl
    | some sl => simp only [pixHMT, h]

/-! ### Destination-independence lemmas -/

theorem clearAll_eq_of_dims {a b : Pix} (hw : a.w = b.w) (hh : a.h = b.h)
    (hd : a.d = b.d) : pixClearAll a = pixClearAll b :=
  Pix.ext2 hw hh hd rfl

theorem setAll_eq_of_dims {a b : Pix} (hw : a.w = b.w) (hh : a.h = b.h)
    (hd : a.d = b.d) : pixSetAll a = pixSetAll b :=
  Pix.ext2 hw hh hd rfl

theorem pixDilate_pixd (bc : BC) (dpix s : Pix) (sl : Sel)
    (hsz : pixSizesEqual s dpix = true) :
    pixDilate bc (some dpix) (some s) (some sl) =
      pixDilate bc none (some s) (some sl) := by
  by_cases hv : s.d ≠ 1 ∨ sl.sx = 0 ∨ sl.sy = 0
  · rw [pixDilate_args1_none bc _ _ _ (args1_invalid _ s sl hv),
      pixDilate_args1_none bc _ _ _ (args1_invalid _ s sl hv)]
  push_neg at hv
  rcases hv with ⟨h1, h2, h3⟩
  rw [show pixDilate bc (some dpix) (some s) (some sl) =
      some (dilateAccum s sl (pixClearAll dpix)) from by
    simp only [pixDilate, args1_some dpix s sl (by omega) (by omega) (by omega) hsz]]
  rw [show pixDilate bc none (some s) (some sl) =
      some (dilateAccum s sl (pixClearAll (pixCreateTemplate s))) from by
    simp only [pixDilate, args1_none s sl (by omega) (by omega) (by omega)]]
  rcases sizesEqual_iff.mp hsz with ⟨e1, e2, e3⟩
  rw [clearAll_eq_of_dims (a := dpix) (b := pixCreateTemplate s)
    e1.symm e2.symm e3.symm]

theorem pixErode_pixd (bc : BC) (dpix s : Pix) (sl : Sel)
    (hsz : pixSizesEqual s dpix = true) :
    pixErode bc (some dpix) (some s) (some sl) =
      pixErode bc none (some s) (some sl) := by
  by_cases hv : s.d ≠ 1 ∨ sl.sx = 0 ∨ sl.sy = 0
  · rw [pixErode_args1_none bc _ _ _ (args1_invalid _ s sl hv),
      pixErode_args1_none bc _ _ _ (args1_invalid _ s sl hv)]
  push_neg at hv
  rcases hv with ⟨h1, h2, h3⟩
  rcases sizesEqual_iff.mp hsz with ⟨e1, e2, e3⟩
  simp only [pixErode, args1_some dpix s sl (by omega) (by omega) (by omega) hsz,
    args1_none s sl (by omega) (by omega) (by omega)]
  rw [setAll_eq_of_dims (a := dpix) (b := pixCreateTemplate s)
    e1.symm e2.symm e3.symm]

theorem hmt_fold_pixd (t : Pix) (sl : Sel) :
    ∀ (L : List (Nat × Nat)) (d d' : Pix), d.w = d'.w → d.h = d'.h →
      d.d = d'.d →
      (∃ ij ∈ L, sl.data ij.1 ij.2 = 1 ∨ sl.data ij.1 ij.2 = 2) →
      L.foldl (hmtStep t sl) (d, true) = L.foldl (hmtStep t sl) (d', true) := by
  intro L
  induction L with
  | nil =>
    rintro d d' _ _ _ ⟨ij, hmem, -⟩
    exact absurd hmem (List.not_mem_nil ij)
  | cons hd tl ih =>
    intro d d' hw hh hdd hne
    rw [List.foldl_cons, List.foldl_cons]
    by_cases h1 : sl.data hd.1 hd.2 = 1
    · rw [show hmtStep t sl (d, true) hd =
          (pixRasterop (pixClearAll d) ((sl.cx : Int) - hd.2)
            ((sl.cy : Int) - hd.1) t.w t.h opSrc (some t) 0 0, false) from by
        simp [hmtStep, h1]]
      rw [show hmtStep t sl (d', true) hd =
          (pixRasterop (pixClearAll d') ((sl.cx : Int) - hd.2)
            ((sl.cy : Int) - hd.1) t.w t.h opSrc (some t) 0 0, false) from by
        simp [hmtStep, h1]]
      rw [clearAll_eq_of_dims hw hh hdd]
    by_cases h2 : sl.data hd.1 hd.2 = 2
    · rw [show hmtStep t sl (d, true) hd =
          (pixRasterop (pixSetAll d) ((sl.cx : Int) - hd.2)
            ((sl.cy : Int) - hd.1) t.w t.h opNotSrc (some t) 0 0, false) from by
        simp [hmtStep, h1, h2]]
      rw [show hmtStep t sl (d', true) hd =
          (pixRasterop (pixSetAll d') ((sl.cx : Int) - hd.2)
            ((sl.cy : Int) - hd.1) t.w t.h opNotSrc (some t) 0 0, false) from by
        simp [hmtStep, h1, h2]]
      rw [setAll_eq_of_dims hw hh hdd]
    · rw [show hmtStep t sl (d, true) hd = (d, true) from by
        simp [hmtStep, h1, h2]]
      rw [show hmtStep t sl (d', true) hd = (d', true) from by
        simp [hmtStep, h1, h2]]
      rcases hne with ⟨ij, hmem, hij⟩
      rcases List.mem_cons.mp hmem with h | h
      · subst h; tauto
      · exact ih d d' hw hh hdd ⟨ij, h, hij⟩

theorem pixHMT_pixd (bc : BC) (dpix s : Pix) (sl : Sel)
    (hsz : pixSizesEqual s dpix = true)
    (hnd : ∃ i j, i < sl.sy ∧ j < sl.sx ∧
      (sl.data i j = 1 ∨ sl.data i j = 2)) :
    pixHMT bc (some dpix) (some s) (some sl) =
      pixHMT bc none (some s) (some sl) := by
  by_cases hv : s.d ≠ 1 ∨ sl.sx = 0 ∨ sl.sy = 0
  · rw [pixHMT_args1_none bc _ _ _ (args1_invalid _ s sl hv),
      pixHMT_args1_none bc _ _ _ (args1_invalid _ s sl hv)]
  push_neg at hv
  rcases hv with ⟨h1, h2, h3⟩
  rcases sizesEqual_iff.mp hsz with ⟨e1, e2, e3⟩
  simp only [pixHMT, args1_some dpix s sl (by omega) (by omega) (by omega) hsz,
    args1_none s sl (by omega) (by omega) (by omega)]
  rw [hmt_fold_pixd s sl (selPairs sl) dpix (pixCreateTemplate s)
    e1.symm e2.symm e3.symm
    (by rcases hnd with ⟨i, j, hi, hj, hij⟩
        exact ⟨(i, j), mem_selPairs.mpr ⟨hi, hj⟩, hij⟩)]

/-! ### Validation failure: the common disjunction -/

/-- One of the five validation failures of the generic operators: absent
source, absent Sel, wrong depth, empty Sel, or a caller-supplied
destination of different geometry. -/
def genFail (pixd pixs : Option Pix) (sel : Option Sel) : Prop :=
  pixs = none ∨ sel = none ∨
  (∃ s, pixs = some s ∧ s.d ≠ 1) ∨
  (∃ sl, sel = some sl ∧ (sl.sx = 0 ∨ sl.sy = 0)) ∨
  (∃ s dpix, pixs = some s ∧ pixd = some dpix ∧ pixSizesEqual s dpix = false)

theorem args1_genFail {pd ps : Option Pix} {sel : Option Sel}
    (h : genFail pd ps sel) : processMorphArgs1 pd ps sel = none := by
  rcases h with h | h | ⟨s, hs, hd1⟩ | ⟨sl, hsl, hsz⟩ | ⟨s, dpix, hs, hdp, hm⟩
  · subst h; cases sel <;> rfl
  · subst h; cases ps <;> rfl
  · subst hs
    cases sel with
    | none => rfl
    | some sl => exact args1_invalid pd s sl (Or.inl hd1)
  · subst hsl
    cases ps with
    | none => rfl
    | some s => exact args1_invalid pd s sl (Or.inr hsz)
  · subst hs
    subst hdp
    cases sel with
    | none => rfl
    | some sl => exact args1_mismatch dpix s sl hm

theorem args2_genFail {pd ps : Option Pix} {sel : Option Sel}
    (h : genFail pd ps sel) : processMorphArgs2 pd ps sel = none := by
  rcases h with h | h | ⟨s, hs, hd1⟩ | ⟨sl, hsl, hsz⟩ | ⟨s, dpix, hs, hdp, hm⟩
  · subst h; cases sel <;> rfl
  · subst h; cases ps <;> rfl
  · subst hs
    cases sel with
    | none => rfl
    | some sl => exact args2_invalid pd s sl (Or.inl hd1)
  · subst hsl
    cases ps with
    | none => rfl
    | some s => exact args2_invalid pd s sl (Or.inr hsz)
  · subst hs
    subst hdp
    cases sel with
    | none => rfl
    | some sl => exact args2_mismatch dpix s sl hm

theorem pixOpen_args2_none (bc : BC) (pd ps : Option Pix) (sel : Option Sel)
    (h : processMorphArgs2 pd ps sel = none) :
    pixOpen bc pd ps sel = none := by
  simp only [pixOpen, h]

theorem pixClose_args2_none (bc : BC) (pd ps : Option Pix) (sel : Option Sel)
    (h : processMorphArgs2 pd ps sel = none) :
    pixClose bc pd ps sel = none := by
  simp only [pixClose, h]

theorem pixOpenGeneralized_args2_none (bc : BC) (pd ps : Option Pix)
    (sel : Option Sel) (h : processMorphArgs2 pd ps sel = none) :
    pixOpenGeneralized bc pd ps sel = none := by
  simp only [pixOpenGeneralized, h]

theorem pixCloseGeneralized_args2_none (bc : BC) (pd ps : Option Pix)
    (sel : Option Sel) (h : processMorphArgs2 pd ps sel = none) :
    pixCloseGeneralized bc pd ps sel = none := by
  simp only [pixCloseGeneralized, h]

/-! ### Existence and dimension lemmas for the primitives -/

theorem args2_shape (pd : Option Pix) (s : Pix) (sl : Sel)
    (hd : s.d = 1) (hsx : 0 < sl.sx) (hsy : 0 < sl.sy)
    (hpd : ∀ d0, pd = some d0 → pixSizesEqual s d0 = true) :
    ∃ d0, processMorphArgs2 pd (some s) (some sl) = some d0 ∧
      d0.w = s.w ∧ d0.h = s.h ∧ d0.d = s.d := by
  cases pd with
  | none => exact ⟨pixCreateTemplate s, args2_none s sl hd hsx hsy, rfl, rfl, rfl⟩
  | some dpix =>
    have hsz := hpd dpix rfl
    rcases sizesEqual_iff.mp hsz with ⟨h1, h2, h3⟩
    exact ⟨dpix, args2_some dpix s sl hd hsx hsy hsz, h1.symm, h2.symm, h3.symm⟩

theorem pixErode_exists (bc : BC) (pd : Option Pix) (s : Pix) (sl : Sel)
    (hd : s.d = 1) (hsx : 0 < sl.sx) (hsy : 0 < sl.sy)
    (hpd : ∀ d0, pd = some d0 → pixSizesEqual s d0 = true) :
    ∃ R, pixErode bc pd (some s) (some sl) = some R ∧
      R.w = s.w ∧ R.h = s.h ∧ R.d = s.d := by
  cases bc with
  | asymmetric =>
    obtain ⟨R, h1, h2, h3, h4, -⟩ := pixErode_spec_asym pd s sl hd hsx hsy hpd
    exact ⟨R, h1, h2, h3, h4⟩
  | symmetric =>
    obtain ⟨R, h1, h2, h3, h4, -⟩ := pixErode_spec_sym pd s sl hd hsx hsy hpd
    exact ⟨R, h1, h2, h3, h4⟩

theorem pixDilate_exists (bc : BC) (pd : Option Pix) (s : Pix) (sl : Sel)
    (hd : s.d = 1) (hsx : 0 < sl.sx) (hsy : 0 < sl.sy)
    (hpd : ∀ d0, pd = some d0 → pixSizesEqual s d0 = true) :
    ∃ R, pixDilate bc pd (some s) (some sl) = some R ∧
      R.w = s.w ∧ R.h = s.h ∧ R.d = s.d := by
  obtain ⟨R, h1, h2, h3, h4, -⟩ := pixDilate_spec bc pd s sl hd hsx hsy hpd
  exact ⟨R, h1, h2, h3, h4⟩

/-! ### Composition lemmas for the derived operators -/

theorem pixOpen_eq (bc : BC) (pd : Option Pix) (s : Pix) (sl : Sel)
    (hd : s.d = 1) (hsx : 0 < sl.sx) (hsy : 0 < sl.sy)
    (hpd : ∀ d0, pd = some d0 → pixSizesEqual s d0 = true) :
    pixOpen bc pd (some s) (some sl) =
      pixDilate bc none (pixErode bc none (some s) (some sl)) (some sl) := by
  obtain ⟨d0, hargs2, hw, hh, hdd⟩ := args2_shape pd s sl hd hsx hsy hpd
  obtain ⟨E, hE, ew, eh, ed⟩ :=
    pixErode_exists bc none s sl hd hsx hsy (fun d0 h => by cases h)
  rw [hE]
  simp only [pixOpen, hargs2, hE]
  exact pixDilate_pixd bc d0 E sl
    (sizesEqual_iff.mpr ⟨by omega, by omega, by omega⟩)

theorem pixClose_eq (bc : BC) (pd : Option Pix) (s : Pix) (sl : Sel)
    (hd : s.d = 1) (hsx : 0 < sl.sx) (hsy : 0 < sl.sy)
    (hpd : ∀ d0, pd = some d0 → pixSizesEqual s d0 = true) :
    pixClose bc pd (some s) (some sl) =
      pixErode bc none (pixDilate bc none (some s) (some sl)) (some sl) := by
  obtain ⟨d0, hargs2, hw, hh, hdd⟩ := args2_shape pd s sl hd hsx hsy hpd
  obtain ⟨T, hT, tw, th, td⟩ :=
    pixDilate_exists bc none s sl hd hsx hsy (fun d0 h => by cases h)
  rw [hT]
  simp only [pixClose, hargs2, hT]
  exact pixErode_pixd bc d0 T sl
    (sizesEqual_iff.mpr ⟨by omega, by omega, by omega⟩)

/-- The extra columns added on each side by `pixCloseSafe` under the
asymmetric boundary condition: max(xp, xn) rounded up to full words. -/
def safeXbord (sl : Sel) : Int :=
  32 * ((max (selMaxHit sl (fun ij => (sl.cx : Int) - ij.2))
    (selMaxHit sl (fun ij => (ij.2 : Int) - sl.cx)) + 31) / 32)

/-- The padded source built by `pixCloseSafe`. -/
def safePad (s : Pix) (sl : Sel) : Pix :=
  pixAddBorderGeneral s (safeXbord sl).toNat (safeXbord sl).toNat
    (selMaxHit sl (fun ij => (sl.cy : Int) - ij.1)).toNat
    (selMaxHit sl (fun ij => (ij.1 : Int) - sl.cy)).toNat false

/-- The value `pixCloseSafe` produces under the asymmetric boundary
condition: close the padded source in place, then strip the border. -/
def closeSafeResult (s : Pix) (sl : Sel) : Pix :=
  pixRemoveBorderGeneral
    ((pixClose BC.asymmetric (some (safePad s sl)) (some (safePad s sl))
      (some sl)).getD (safePad s sl))
    (safeXbord sl).toNat (safeXbord sl).toNat
    (selMaxHit sl (fun ij => (sl.cy : Int) - ij.1)).toNat
    (selMaxHit sl (fun ij => (ij.1 : Int) - sl.cy)).toNat

theorem pixCloseSafe_asym_reduce (pd : Option Pix) (s : Pix) (sl : Sel)
    (hd : s.d = 1) :
    pixCloseSafe BC.asymmetric pd (some s) (some sl) =
      some (closeSafeResult s sl) := by
  simp only [pixCloseSafe]
  rw [if_neg (by omega), if_neg (by simp)]
  cases pd <;> rfl

/-! ### Bitwise equality of bitmaps -/

/-- Bit-for-bit equality: same geometry and depth, same bit at every
coordinate. -/
def PixEq (a b : Pix) : Prop :=
  a.w = b.w ∧ a.h = b.h ∧ a.d = b.d ∧ ∀ x y : Int, a.getPix x y = b.getPix x y

/-- Bit-for-bit equality of optional bitmaps. -/
def OPixEq : Option Pix → Option Pix → Prop
  | none, none => True
  | some a, some b => PixEq a b
  | _, _ => False

theorem PixEq.refl (a : Pix) : PixEq a a := ⟨rfl, rfl, rfl, fun _ _ => rfl⟩

theorem PixEq.symm2 {a b : Pix} (h : PixEq a b) : PixEq b a :=
  ⟨h.1.symm, h.2.1.symm, h.2.2.1.symm, fun x y => (h.2.2.2 x y).symm⟩

theorem PixEq.trans2 {a b c : Pix} (h1 : PixEq a b) (h2 : PixEq b c) :
    PixEq a c :=
  ⟨h1.1.trans h2.1, h1.2.1.trans h2.2.1, h1.2.2.1.trans h2.2.2.1,
    fun x y => (h1.2.2.2 x y).trans (h2.2.2.2 x y)⟩

theorem sizesEqual_refl (a : Pix) : pixSizesEqual a a = true := by
  simp [pixSizesEqual]

/-! ### Border lemmas -/

@[simp] theorem addBorderGeneral_w (s : Pix) (l r t b : Nat) (fill : Bool) :
    (pixAddBorderGeneral s l r t b fill).w = s.w + l + r := rfl

@[simp] theorem addBorderGeneral_h (s : Pix) (l r t b : Nat) (fill : Bool) :
    (pixAddBorderGeneral s l r t b fill).h = s.h + t + b := rfl

@[simp] theorem addBorderGeneral_d (s : Pix) (l r t b : Nat) (fill : Bool) :
    (pixAddBorderGeneral s l r t b fill).d = s.d := rfl

@[simp] theorem removeBorderGeneral_w (s : Pix) (l r t b : Nat) :
    (pixRemoveBorderGeneral s l r t b).w = s.w - (l + r) := rfl

@[simp] theorem removeBorderGeneral_h (s : Pix) (l r t b : Nat) :
    (pixRemoveBorderGeneral s l r t b).h = s.h - (t + b) := rfl

@[simp] theorem removeBorderGeneral_d (s : Pix) (l r t b : Nat) :
    (pixRemoveBorderGeneral s l r t b).d = s.d := rfl

theorem getPix_addBorderGeneral_false (s : Pix) (l r t b : Nat) (x y : Int) :
    (pixAddBorderGeneral s l r t b false).getPix x y =
      s.getPix (x - l) (y - t) := by
  have hreg : ((l : Int) ≤ x ∧ x < (l : Int) + s.w ∧ (t : Int) ≤ y ∧
      y < (t : Int) + s.h) ↔ inImg s (x - l) (y - t) := by
    unfold inImg
    omega
  have h0 : (pixAddBorderGeneral s l r t b false).getPix x y =
      if inImg (pixAddBorderGeneral s l r t b false) x y then
        (if (l : Int) ≤ x ∧ x < (l : Int) + s.w ∧ (t : Int) ≤ y ∧
            y < (t : Int) + s.h then s.getPix (x - l) (y - t) else false)
      else false := rfl
  by_cases hP : inImg (pixAddBorderGeneral s l r t b false) x y
  · rw [h0, if_pos hP]
    by_cases hreg2 : (l : Int) ≤ x ∧ x < (l : Int) + s.w ∧ (t : Int) ≤ y ∧
        y < (t : Int) + s.h
    · rw [if_pos hreg2]
    · rw [if_neg hreg2, getPix_of_not_inImg (fun hc => hreg2 (hreg.mpr hc))]
  · rw [getPix_of_not_inImg hP]
    unfold inImg at hP
    simp only [addBorderGeneral_w, addBorderGeneral_h] at hP
    push_cast at hP
    refine (getPix_of_not_inImg (fun hc => ?_)).symm
    unfold inImg at hc
    omega

theorem getPix_removeBorderGeneral (s : Pix) (l r t b : Nat) (x y : Int)
    (hxy : inImg (pixRemoveBorderGeneral s l r t b) x y) :
    (pixRemoveBorderGeneral s l r t b).getPix x y =
      s.getPix (x + l) (y + t) := by
  have h0 : (pixRemoveBorderGeneral s l r t b).getPix x y =
      if inImg (pixRemoveBorderGeneral s l r t b) x y then
        s.getPix (x + l) (y + t)
      else false := rfl
  rw [h0, if_pos hxy]

theorem xbord_ge {a : Int} (ha : 0 ≤ a) : a ≤ 32 * ((a + 31) / 32) := by
  omega

/-! ### Opening is anti-extensive, safe closing is extensive -/

theorem pixOpen_subset (bc : BC) (pd : Option Pix) (s : Pix) (sl : Sel)
    (hd : s.d = 1) (hsx : 0 < sl.sx) (hsy : 0 < sl.sy)
    (hpd : ∀ d0, pd = some d0 → pixSizesEqual s d0 = true) :
    ∃ O, pixOpen bc pd (some s) (some sl) = some O ∧
      O.w = s.w ∧ O.h = s.h ∧ O.d = s.d ∧
      ∀ x y : Int, O.getPix x y = true → s.getPix x y = true := by
  rw [pixOpen_eq bc pd s sl hd hsx hsy hpd]
  cases bc with
  | asymmetric =>
    obtain ⟨E, hE, ew, eh, ed, eChar⟩ :=
      pixErode_spec_asym none s sl hd hsx hsy (fun d0 h => by cases h)
    rw [hE]
    obtain ⟨O, hO, ow, oh, od, oChar⟩ :=
      pixDilate_spec BC.asymmetric none E sl (by omega) hsx hsy
        (fun d0 h => by cases h)
    refine ⟨O, hO, by omega, by omega, by omega, ?_⟩
    intro x y hOxy
    rcases (oChar x y).mp hOxy with ⟨-, i, j, hij, hEget⟩
    rcases (eChar (x - ((j : Int) - sl.cx)) (y - ((i : Int) - sl.cy))).mp
      hEget with ⟨-, hall⟩
    have := hall i j hij
    have e1 : x - ((j : Int) - sl.cx) + ((j : Int) - sl.cx) = x := by ring
    have e2 : y - ((i : Int) - sl.cy) + ((i : Int) - sl.cy) = y := by ring
    rw [e1, e2] at this
    exact this
  | symmetric =>
    obtain ⟨E, hE, ew, eh, ed, eChar⟩ :=
      pixErode_spec_sym none s sl hd hsx hsy (fun d0 h => by cases h)
    rw [hE]
    obtain ⟨O, hO, ow, oh, od, oChar⟩ :=
      pixDilate_spec BC.symmetric none E sl (by omega) hsx hsy
        (fun d0 h => by cases h)
    refine ⟨O, hO, by omega, by omega, by omega, ?_⟩
    intro x y hOxy
    rcases (oChar x y).mp hOxy with ⟨hEin, i, j, hij, hEget⟩
    rcases (eChar (x - ((j : Int) - sl.cx)) (y - ((i : Int) - sl.cy))).mp
      hEget with ⟨-, hall⟩
    have hxy : inImg s x y := by
      unfold inImg at hEin ⊢
      rw [ew, eh] at hEin
      exact hEin
    have := hall i j hij
    have e1 : x - ((j : Int) - sl.cx) + ((j : Int) - sl.cx) = x := by ring
    have e2 : y - ((i : Int) - sl.cy) + ((i : Int) - sl.cy) = y := by ring
    rw [e1, e2] at this
    exact this hxy

theorem pixCloseSafe_supset (bc : BC) (s : Pix) (sl : Sel)
    (hd : s.d = 1) (hsx : 0 < sl.sx) (hsy : 0 < sl.sy) :
    ∃ C, pixCloseSafe bc none (some s) (some sl) = some C ∧
      C.w = s.w ∧ C.h = s.h ∧ C.d = s.d ∧
      ∀ x y : Int, s.getPix x y = true → C.getPix x y = true := by
  cases bc with
  | symmetric =>
    have hdel : pixCloseSafe BC.symmetric none (some s) (some sl) =
        pixClose BC.symmetric none (some s) (some sl) := by
      simp only [pixCloseSafe]
      rw [if_neg (by omega)]
      simp
    rw [hdel, pixClose_eq BC.symmetric none s sl hd hsx hsy
      (fun d0 h => by cases h)]
    obtain ⟨T, hT, tw, th, td, tChar⟩ :=
      pixDilate_spec BC.symmetric none s sl hd hsx hsy (fun d0 h => by cases h)
    rw [hT]
    obtain ⟨C, hC, cw, ch, cd, cChar⟩ :=
      pixErode_spec_sym none T sl (by omega) hsx hsy (fun d0 h => by cases h)
    refine ⟨C, hC, by omega, by omega, by omega, ?_⟩
    intro x y hs
    have hin : inImg s x y := inImg_of_getPix hs
    have hinT : inImg T x y := by
      unfold inImg at hin ⊢
      rw [tw, th]
      exact hin
    refine (cChar x y).mpr ⟨hinT, fun i j hij hpos => ?_⟩
    refine (tChar (x + ((j : Int) - sl.cx)) (y + ((i : Int) - sl.cy))).mpr
      ⟨?_, i, j, hij, ?_⟩
    · unfold inImg at hpos ⊢
      rw [tw, th] at hpos
      exact hpos
    · have e1 : x + ((j : Int) - sl.cx) - ((j : Int) - sl.cx) = x := by ring
      have e2 : y + ((i : Int) - sl.cy) - ((i : Int) - sl.cy) = y := by ring
      rw [e1, e2]
      exact hs
  | asymmetric =>
    rw [pixCloseSafe_asym_reduce none s sl hd]
    set xp := selMaxHit sl (fun ij => (sl.cx : Int) - ij.2) with hxp
    set xn := selMaxHit sl (fun ij => (ij.2 : Int) - sl.cx) with hxn
    set yp := selMaxHit sl (fun ij => (sl.cy : Int) - ij.1) with hyp2
    set yn := selMaxHit sl (fun ij => (ij.1 : Int) - sl.cy) with hyn
    have hxp0 : 0 ≤ xp := selMaxHit_nonneg sl _
    have hxn0 : 0 ≤ xn := selMaxHit_nonneg sl _
    have hyp0 : 0 ≤ yp := selMaxHit_nonneg sl _
    have hyn0 : 0 ≤ yn := selMaxHit_nonneg sl _
    have hxb0 : 0 ≤ safeXbord sl := by
      unfold safeXbord
      rw [← hxp, ← hxn]
      omega
    have hxpb : xp ≤ safeXbord sl := by
      have := xbord_ge (a := max xp xn) (by omega)
      unfold safeXbord
      rw [← hxp, ← hxn]
      omega
    have hxnb : xn ≤ safeXbord sl := by
      have := xbord_ge (a := max xp xn) (by omega)
      unfold safeXbord
      rw [← hxp, ← hxn]
      omega
    have hcastxb : ((safeXbord sl).toNat : Int) = safeXbord sl :=
      Int.toNat_of_nonneg hxb0
    have hcastyp : ((yp.toNat : Nat) : Int) = yp := Int.toNat_of_nonneg hyp0
    have hcastyn : ((yn.toNat : Nat) : Int) = yn := Int.toNat_of_nonneg hyn0
    have hPd : (safePad s sl).d = 1 := by
      unfold safePad
      simp [hd]
    have hPw : ((safePad s sl).w : Int) = s.w + 2 * safeXbord sl := by
      unfold safePad
      simp only [addBorderGeneral_w]
      push_cast
      omega
    have hPh : ((safePad s sl).h : Int) = s.h + yp + yn := by
      unfold safePad
      simp only [addBorderGeneral_h]
      push_cast
      omega
    have hclose := pixClose_eq BC.asymmetric (some (safePad s sl))
      (safePad s sl) sl hPd hsx hsy
      (fun d0 h => by cases h; exact sizesEqual_refl _)
    obtain ⟨T, hT, tw, th, td, tChar⟩ :=
      pixDilate_spec BC.asymmetric none (safePad s sl) sl hPd hsx hsy
        (fun d0 h => by cases h)
    obtain ⟨C, hC, cw, ch, cd, cChar⟩ :=
      pixErode_spec_asym none T sl (by omega) hsx hsy (fun d0 h => by cases h)
    have hCv : pixClose BC.asymmetric (some (safePad s sl))
        (some (safePad s sl)) (some sl) = some C := by
      rw [hclose, hT, hC]
    have hres : closeSafeResult s sl = pixRemoveBorderGeneral C
        (safeXbord sl).toNat (safeXbord sl).toNat yp.toNat yn.toNat := by
      unfold closeSafeResult
      rw [hCv]
      rfl
    rw [hres]
    have hCw : (C.w : Int) = s.w + 2 * safeXbord sl := by
      rw [cw, tw]
      exact hPw
    have hCh : (C.h : Int) = s.h + yp + yn := by
      rw [ch, th]
      exact hPh
    refine ⟨_, rfl, ?_, ?_, ?_, ?_⟩
    · simp only [removeBorderGeneral_w]
      omega
    · simp only [removeBorderGeneral_h]
      omega
    · simp only [removeBorderGeneral_d]
      rw [cd, td]
      unfold safePad
      simp [hd]
    intro x y hs
    have hin : inImg s x y := inImg_of_getPix hs
    have hinR : inImg (pixRemoveBorderGeneral C (safeXbord sl).toNat
        (safeXbord sl).toNat yp.toNat yn.toNat) x y := by
      unfold inImg at hin ⊢
      simp only [removeBorderGeneral_w, removeBorderGeneral_h]
      omega
    rw [getPix_removeBorderGeneral C _ _ _ _ x y hinR]
    unfold inImg at hin
    refine (cChar (x + ((safeXbord sl).toNat : Int))
        (y + (yp.toNat : Int))).mpr ⟨?_, fun i j hij => ?_⟩
    · unfold inImg
      rw [tw, th]
      rw [hcastxb, hcastyp]
      omega
    · have hjcx : (sl.cx : Int) - j ≤ xp := le_selMaxHit hij
      have hjcx2 : (j : Int) - sl.cx ≤ xn := le_selMaxHit hij
      have hicy : (sl.cy : Int) - i ≤ yp := le_selMaxHit hij
      have hicy2 : (i : Int) - sl.cy ≤ yn := le_selMaxHit hij
      refine (tChar (x + ((safeXbord sl).toNat : Int) + ((j : Int) - sl.cx))
          (y + (yp.toNat : Int) + ((i : Int) - sl.cy))).mpr
        ⟨?_, i, j, hij, ?_⟩
      · unfold inImg
        rw [hcastxb, hcastyp]
        have := hPw
        have := hPh
        omega
      · have e1 : x + ((safeXbord sl).toNat : Int) + ((j : Int) - sl.cx) -
            ((j : Int) - sl.cx) = x + ((safeXbord sl).toNat : Int) := by ring
        have e2 : y + (yp.toNat : Int) + ((i : Int) - sl.cy) -
            ((i : Int) - sl.cy) = y + (yp.toNat : Int) := by ring
        rw [e1, e2]
        unfold safePad
        rw [getPix_addBorderGeneral_false]
        have e3 : x + ((safeXbord sl).toNat : Int) - ((safeXbord sl).toNat : Int)
            = x := by ring
        have e4 : y + (yp.toNat : Int) - (yp.toNat : Int) = y := by ring
        rw [e3, e4]
        exact hs

/-! ### Opening is idempotent -/

theorem pixOpen_idem (bc : BC) (s : Pix) (sl : Sel)
    (hd : s.d = 1) (hsx : 0 < sl.sx) (hsy : 0 < sl.sy) :
    ∃ O O2, pixOpen bc none (some s) (some sl) = some O ∧
      pixOpen bc none (some O) (some sl) = some O2 ∧ PixEq O2 O := by
  have hnone : ∀ (d0 : Pix), (none : Option Pix) = some d0 →
      pixSizesEqual s d0 = true := fun d0 h => by cases h
  cases bc with
  | asymmetric =>
    obtain ⟨E, hE, ew, eh, ed, eChar⟩ :=
      pixErode_spec_asym none s sl hd hsx hsy (fun d0 h => by cases h)
    have hOeq := pixOpen_eq BC.asymmetric none s sl hd hsx hsy
      (fun d0 h => by cases h)
    rw [hE] at hOeq
    obtain ⟨O, hO', ow, oh, od, oChar⟩ :=
      pixDilate_spec BC.asymmetric none E sl (by omega) hsx hsy
        (fun d0 h => by cases h)
    have hO : pixOpen BC.asymmetric none (some s) (some sl) = some O :=
      hOeq.trans hO'
    obtain ⟨E2, hE2, e2w, e2h, e2d, e2Char⟩ :=
      pixErode_spec_asym none O sl (by omega) hsx hsy (fun d0 h => by cases h)
    have hO2eq := pixOpen_eq BC.asymmetric none O sl (by omega) hsx hsy
      (fun d0 h => by cases h)
    rw [hE2] at hO2eq
    obtain ⟨O2, hO2', o2w, o2h, o2d, o2Char⟩ :=
      pixDilate_spec BC.asymmetric none E2 sl (by omega) hsx hsy
        (fun d0 h => by cases h)
    have hO2 : pixOpen BC.asymmetric none (some O) (some sl) = some O2 :=
      hO2eq.trans hO2'
    -- E ⊆ E2
    have hEsub : ∀ x y : Int, E.getPix x y = true → E2.getPix x y = true := by
      intro x y hq
      rcases (eChar x y).mp hq with ⟨hin, hall⟩
      refine (e2Char x y).mpr ⟨by
        unfold inImg at hin ⊢
        rw [ow, oh, ew, eh]
        exact hin, fun i j hij => ?_⟩
      refine (oChar (x + ((j : Int) - sl.cx)) (y + ((i : Int) - sl.cy))).mpr
        ⟨?_, i, j, hij, ?_⟩
      · have := inImg_of_getPix (hall i j hij)
        unfold inImg at this ⊢
        rw [ew, eh]
        exact this
      · have e1 : x + ((j : Int) - sl.cx) - ((j : Int) - sl.cx) = x := by ring
        have e2 : y + ((i : Int) - sl.cy) - ((i : Int) - sl.cy) = y := by ring
        rw [e1, e2]
        exact hq
    -- O ⊆ O2
    have hOsub : ∀ x y : Int, O.getPix x y = true → O2.getPix x y = true := by
      intro x y hp
      rcases (oChar x y).mp hp with ⟨hin, i, j, hij, hEq⟩
      refine (o2Char x y).mpr ⟨by
        unfold inImg at hin ⊢
        rw [e2w, e2h, ow, oh]
        exact hin, i, j, hij, hEsub _ _ hEq⟩
    -- O2 ⊆ O via anti-extensivity of the second opening
    obtain ⟨O2', hO2'', _, _, _, hO2sub⟩ :=
      pixOpen_subset BC.asymmetric none O sl (by omega) hsx hsy
        (fun d0 h => by cases h)
    have hsame : O2' = O2 := by
      rw [hO2] at hO2''
      exact (Option.some.inj hO2'').symm
    rw [hsame] at hO2sub
    refine ⟨O, O2, hO, hO2, by omega, by omega, by omega, fun x y => ?_⟩
    rcases h2 : O2.getPix x y with _ | _
    · rcases h1 : O.getPix x y with _ | _
      · rfl
      · have := hOsub x y h1
        rw [h2] at this
        simp at this
    · rw [hO2sub x y h2]
  | symmetric =>
    obtain ⟨E, hE, ew, eh, ed, eChar⟩ :=
      pixErode_spec_sym none s sl hd hsx hsy (fun d0 h => by cases h)
    have hOeq := pixOpen_eq BC.symmetric none s sl hd hsx hsy
      (fun d0 h => by cases h)
    rw [hE] at hOeq
    obtain ⟨O, hO', ow, oh, od, oChar⟩ :=
      pixDilate_spec BC.symmetric none E sl (by omega) hsx hsy
        (fun d0 h => by cases h)
    have hO : pixOpen BC.symmetric none (some s) (some sl) = some O :=
      hOeq.trans hO'
    obtain ⟨E2, hE2, e2w, e2h, e2d, e2Char⟩ :=
      pixErode_spec_sym none O sl (by omega) hsx hsy (fun d0 h => by cases h)
    have hO2eq := pixOpen_eq BC.symmetric none O sl (by omega) hsx hsy
      (fun d0 h => by cases h)
    rw [hE2] at hO2eq
    obtain ⟨O2, hO2', o2w, o2h, o2d, o2Char⟩ :=
      pixDilate_spec BC.symmetric none E2 sl (by omega) hsx hsy
        (fun d0 h => by cases h)
    have hO2 : pixOpen BC.symmetric none (some O) (some sl) = some O2 :=
      hO2eq.trans hO2'
    have hEsub : ∀ x y : Int, E.getPix x y = true → E2.getPix x y = true := by
      intro x y hq
      rcases (eChar x y).mp hq with ⟨hin, hall⟩
      refine (e2Char x y).mpr ⟨by
        unfold inImg at hin ⊢
        rw [ow, oh, ew, eh]
        exact hin, fun i j hij hpos => ?_⟩
      refine (oChar (x + ((j : Int) - sl.cx)) (y + ((i : Int) - sl.cy))).mpr
        ⟨?_, i, j, hij, ?_⟩
      · unfold inImg at hpos ⊢
        rw [ow, oh] at hpos
        rw [ew, eh] at hpos
        rw [ew, eh]
        exact hpos
      · have e1 : x + ((j : Int) - sl.cx) - ((j : Int) - sl.cx) = x := by ring
        have e2 : y + ((i : Int) - sl.cy) - ((i : Int) - sl.cy) = y := by ring
        rw [e1, e2]
        exact hq
    have hOsub : ∀ x y : Int, O.getPix x y = true → O2.getPix x y = true := by
      intro x y hp
      rcases (oChar x y).mp hp with ⟨hin, i, j, hij, hEq⟩
      refine (o2Char x y).mpr ⟨by
        unfold inImg at hin ⊢
        rw [e2w, e2h, ow, oh]
        exact hin, i, j, hij, hEsub _ _ hEq⟩
    obtain ⟨O2', hO2'', _, _, _, hO2sub⟩ :=
      pixOpen_subset BC.symmetric none O sl (by omega) hsx hsy
        (fun d0 h => by cases h)
    have hsame : O2' = O2 := by
      rw [hO2] at hO2''
      exact (Option.some.inj hO2'').symm
    rw [hsame] at hO2sub
    refine ⟨O, O2, hO, hO2, by omega, by omega, by omega, fun x y => ?_⟩
    rcases h2 : O2.getPix x y with _ | _
    · rcases h1 : O.getPix x y with _ | _
      · rfl
      · have := hOsub x y h1
        rw [h2] at this
        simp at this
    · rw [hO2sub x y h2]

/-! ### Destination independence of derived operators -/

theorem pixOpen_pixd (bc : BC) (dpix s : Pix) (sl : Sel)
    (hsz : pixSizesEqual s dpix = true) :
    pixOpen bc (some dpix) (some s) (some sl) =
      pixOpen bc none (some s) (some sl) := by
  by_cases hv : s.d ≠ 1 ∨ sl.sx = 0 ∨ sl.sy = 0
  · rw [pixOpen_args2_none bc _ _ _ (args2_invalid _ s sl hv),
      pixOpen_args2_none bc _ _ _ (args2_invalid _ s sl hv)]
  push_neg at hv
  rcases hv with ⟨h1, h2, h3⟩
  rw [pixOpen_eq bc (some dpix) s sl (by omega) (by omega) (by omega)
      (fun d0 h => by cases h; exact hsz),
    pixOpen_eq bc none s sl (by omega) (by omega) (by omega)
      (fun d0 h => by cases h)]

theorem pixClose_pixd (bc : BC) (dpix s : Pix) (sl : Sel)
    (hsz : pixSizesEqual s dpix = true) :
    pixClose bc (some dpix) (some s) (some sl) =
      pixClose bc none (some s) (some sl) := by
  by_cases hv : s.d ≠ 1 ∨ sl.sx = 0 ∨ sl.sy = 0
  · rw [pixClose_args2_none bc _ _ _ (args2_invalid _ s sl hv),
      pixClose_args2_none bc _ _ _ (args2_invalid _ s sl hv)]
  push_neg at hv
  rcases hv with ⟨h1, h2, h3⟩
  rw [pixClose_eq bc (some dpix) s sl (by omega) (by omega) (by omega)
      (fun d0 h => by cases h; exact hsz),
    pixClose_eq bc none s sl (by omega) (by omega) (by omega)
      (fun d0 h => by cases h)]

theorem pixCloseSafe_baddepth (bc : BC) (pd : Option Pix) (s : Pix)
    (sl : Sel) (h : s.d ≠ 1) :
    pixCloseSafe bc pd (some s) (some sl) = none := by
  simp only [pixCloseSafe]
  rw [if_pos h]

theorem pixCloseSafe_sym_delegate (pd : Option Pix) (s : Pix) (sl : Sel)
    (hd : s.d = 1) :
    pixCloseSafe BC.symmetric pd (some s) (some sl) =
      pixClose BC.symmetric pd (some s) (some sl) := by
  simp only [pixCloseSafe]
  rw [if_neg (by omega)]
  simp

theorem pixCloseSafe_pixd (bc : BC) (dpix s : Pix) (sl : Sel)
    (hsz : pixSizesEqual s dpix = true) :
    pixCloseSafe bc (some dpix) (some s) (some sl) =
      pixCloseSafe bc none (some s) (some sl) := by
  by_cases hd : s.d = 1
  · cases bc with
    | asymmetric =>
      rw [pixCloseSafe_asym_reduce (some dpix) s sl hd,
        pixCloseSafe_asym_reduce none s sl hd]
    | symmetric =>
      rw [pixCloseSafe_sym_delegate (some dpix) s sl hd,
        pixCloseSafe_sym_delegate none s sl hd]
      exact pixClose_pixd BC.symmetric dpix s sl hsz
  · rw [pixCloseSafe_baddepth bc _ s sl hd, pixCloseSafe_baddepth bc _ s sl hd]

theorem pixHMT_shape (bc : BC) (pd : Option Pix) (s : Pix) (sl : Sel)
    (hd : s.d = 1) (hsx : 0 < sl.sx) (hsy : 0 < sl.sy)
    (hpd : ∀ d0, pd = some d0 → pixSizesEqual s d0 = true) :
    ∃ R, pixHMT bc pd (some s) (some sl) = some R ∧
      R.w = s.w ∧ R.h = s.h ∧ R.d = s.d := by
  obtain ⟨d0, hargs, hw, hh, hdd⟩ := args1_shape pd s sl hd hsx hsy hpd
  refine ⟨clearStrips ((selPairs sl).foldl (hmtStep s sl) (d0, true)).1
      (s.w : Int) (s.h : Int)
      (selMaxHit sl (fun ij => (sl.cx : Int) - ij.2))
      (selMaxHit sl (fun ij => (sl.cy : Int) - ij.1))
      (selMaxHit sl (fun ij => (ij.2 : Int) - sl.cx))
      (selMaxHit sl (fun ij => (ij.1 : Int) - sl.cy)), ?_, ?_, ?_, ?_⟩
  · simp only [pixHMT, hargs]
    rfl
  · simp only [clearStrips_w]
    exact ((hmt_fold_dims s sl (selPairs sl) (d0, true)).1).trans hw
  · simp only [clearStrips_h]
    exact ((hmt_fold_dims s sl (selPairs sl) (d0, true)).2.1).trans hh
  · simp only [clearStrips_d]
    exact ((hmt_fold_dims s sl (selPairs sl) (d0, true)).2.2).trans hdd

theorem pixOpenGeneralized_pixd (bc : BC) (dpix s : Pix) (sl : Sel)
    (hsz : pixSizesEqual s dpix = true) :
    pixOpenGeneralized bc (some dpix) (some s) (some sl) =
      pixOpenGeneralized bc none (some s) (some sl) := by
  by_cases hv : s.d ≠ 1 ∨ sl.sx = 0 ∨ sl.sy = 0
  · rw [pixOpenGeneralized_args2_none bc _ _ _ (args2_invalid _ s sl hv),
      pixOpenGeneralized_args2_none bc _ _ _ (args2_invalid _ s sl hv)]
  push_neg at hv
  rcases hv with ⟨h1, h2, h3⟩
  obtain ⟨T, hT, tw, th, td⟩ := pixHMT_shape bc none s sl (by omega)
    (by omega) (by omega) (fun d0 h => by cases h)
  rcases sizesEqual_iff.mp hsz with ⟨e1, e2, e3⟩
  simp only [pixOpenGeneralized,
    args2_some dpix s sl (by omega) (by omega) (by omega) hsz,
    args2_none s sl (by omega) (by omega) (by omega), hT]
  exact (pixDilate_pixd bc dpix T sl
      (sizesEqual_iff.mpr ⟨by omega, by omega, by omega⟩)).trans
    (pixDilate_pixd bc (pixCreateTemplate s) T sl
      (sizesEqual_iff.mpr ⟨by simp [tw], by simp [th], by simp [td]⟩)).symm

theorem pixCloseGeneralized_pixd (bc : BC) (dpix s : Pix) (sl : Sel)
    (hsz : pixSizesEqual s dpix = true)
    (hnd : ∃ i j, i < sl.sy ∧ j < sl.sx ∧
      (sl.data i j = 1 ∨ sl.data i j = 2)) :
    pixCloseGeneralized bc (some dpix) (some s) (some sl) =
      pixCloseGeneralized bc none (some s) (some sl) := by
  by_cases hv : s.d ≠ 1 ∨ sl.sx = 0 ∨ sl.sy = 0
  · rw [pixCloseGeneralized_args2_none bc _ _ _ (args2_invalid _ s sl hv),
      pixCloseGeneralized_args2_none bc _ _ _ (args2_invalid _ s sl hv)]
  push_neg at hv
  rcases hv with ⟨h1, h2, h3⟩
  obtain ⟨T, hT, tw, th, td⟩ := pixDilate_exists bc none s sl (by omega)
    (by omega) (by omega) (fun d0 h => by cases h)
  rcases sizesEqual_iff.mp hsz with ⟨e1, e2, e3⟩
  simp only [pixCloseGeneralized,
    args2_some dpix s sl (by omega) (by omega) (by omega) hsz,
    args2_none s sl (by omega) (by omega) (by omega), hT]
  rw [pixHMT_pixd bc dpix T sl
    (sizesEqual_iff.mpr ⟨by omega, by omega, by omega⟩) hnd]
  exact (pixHMT_pixd bc (pixCreateTemplate s) T sl
    (sizesEqual_iff.mpr ⟨by simp [tw], by simp [th], by simp [td]⟩) hnd).symm

/-! ### Destination independence of the brick operators -/

theorem pixDilateBrick_pixd (bc : BC) (dpix s : Pix) (h v : Int)
    (hsz : pixSizesEqual s dpix = true) (hd : s.d = 1)
    (hh1 : 1 ≤ h) (hv1 : 1 ≤ v) :
    pixDilateBrick bc (some dpix) (some s) h v =
      pixDilateBrick bc none (some s) h v := by
  simp only [pixDilateBrick, if_neg (show ¬(s.d ≠ 1) by omega),
    if_neg (show ¬(h < 1 ∨ v < 1) by omega)]
  by_cases h11 : h = 1 ∧ v = 1
  · simp only [if_pos h11]
    rfl
  simp only [if_neg h11]
  by_cases hone : h = 1 ∨ v = 1
  · simp only [if_pos hone]
    exact pixDilate_pixd bc dpix s _ hsz
  · simp only [if_neg hone]
    obtain ⟨T, hT, tw, th, td⟩ := pixDilate_exists bc none s
      (selCreateBrick 1 h.toNat 0 (h / 2).toNat 1) hd (by show 0 < Int.toNat h; omega) (by show 0 < 1; omega)
      (fun d0 hc => by cases hc)
    rw [hT]
    rcases sizesEqual_iff.mp hsz with ⟨e1, e2, e3⟩
    exact pixDilate_pixd bc dpix T _
      (sizesEqual_iff.mpr ⟨by omega, by omega, by omega⟩)

theorem pixErodeBrick_pixd (bc : BC) (dpix s : Pix) (h v : Int)
    (hsz : pixSizesEqual s dpix = true) (hd : s.d = 1)
    (hh1 : 1 ≤ h) (hv1 : 1 ≤ v) :
    pixErodeBrick bc (some dpix) (some s) h v =
      pixErodeBrick bc none (some s) h v := by
  simp only [pixErodeBrick, if_neg (show ¬(s.d ≠ 1) by omega),
    if_neg (show ¬(h < 1 ∨ v < 1) by omega)]
  by_cases h11 : h = 1 ∧ v = 1
  · simp only [if_pos h11]
    rfl
  simp only [if_neg h11]
  by_cases hone : h = 1 ∨ v = 1
  · simp only [if_pos hone]
    exact pixErode_pixd bc dpix s _ hsz
  · simp only [if_neg hone]
    obtain ⟨T, hT, tw, th, td⟩ := pixErode_exists bc none s
      (selCreateBrick 1 h.toNat 0 (h / 2).toNat 1) hd (by show 0 < Int.toNat h; omega) (by show 0 < 1; omega)
      (fun d0 hc => by cases hc)
    rw [hT]
    rcases sizesEqual_iff.mp hsz with ⟨e1, e2, e3⟩
    exact pixErode_pixd bc dpix T _
      (sizesEqual_iff.mpr ⟨by omega, by omega, by omega⟩)

theorem pixOpenBrick_pixd (bc : BC) (dpix s : Pix) (h v : Int)
    (hsz : pixSizesEqual s dpix = true) (hd : s.d = 1)
    (hh1 : 1 ≤ h) (hv1 : 1 ≤ v) :
    pixOpenBrick bc (some dpix) (some s) h v =
      pixOpenBrick bc none (some s) h v := by
  simp only [pixOpenBrick, if_neg (show ¬(s.d ≠ 1) by omega),
    if_neg (show ¬(h < 1 ∨ v < 1) by omega)]
  by_cases h11 : h = 1 ∧ v = 1
  · simp only [if_pos h11]
    rfl
  simp only [if_neg h11]
  by_cases hone : h = 1 ∨ v = 1
  · simp only [if_pos hone]
    exact pixOpen_pixd bc dpix s _ hsz
  · simp only [if_neg hone]
    obtain ⟨T, hT, tw, th, td⟩ := pixErode_exists bc none s
      (selCreateBrick 1 h.toNat 0 (h / 2).toNat 1) hd (by show 0 < Int.toNat h; omega) (by show 0 < 1; omega)
      (fun d0 hc => by cases hc)
    rw [hT]
    rcases sizesEqual_iff.mp hsz with ⟨e1, e2, e3⟩
    rw [pixErode_pixd bc dpix T _
      (sizesEqual_iff.mpr ⟨by omega, by omega, by omega⟩)]

theorem pixCloseBrick_pixd (bc : BC) (dpix s : Pix) (h v : Int)
    (hsz : pixSizesEqual s dpix = true) (hd : s.d = 1)
    (hh1 : 1 ≤ h) (hv1 : 1 ≤ v) :
    pixCloseBrick bc (some dpix) (some s) h v =
      pixCloseBrick bc none (some s) h v := by
  simp only [pixCloseBrick, if_neg (show ¬(s.d ≠ 1) by omega),
    if_neg (show ¬(h < 1 ∨ v < 1) by omega)]
  by_cases h11 : h = 1 ∧ v = 1
  · simp only [if_pos h11]
    rfl
  simp only [if_neg h11]
  by_cases hone : h = 1 ∨ v = 1
  · simp only [if_pos hone]
    exact pixClose_pixd bc dpix s _ hsz
  · simp only [if_neg hone]
    obtain ⟨T, hT, tw, th, td⟩ := pixDilate_exists bc none s
      (selCreateBrick 1 h.toNat 0 (h / 2).toNat 1) hd (by show 0 < Int.toNat h; omega) (by show 0 < 1; omega)
      (fun d0 hc => by cases hc)
    rw [hT]
    rcases sizesEqual_iff.mp hsz with ⟨e1, e2, e3⟩
    rw [pixDilate_pixd bc dpix T _
      (sizesEqual_iff.mpr ⟨by omega, by omega, by omega⟩)]

theorem pixCloseSafeBrick_asym_pixd (dpix s : Pix) (h v : Int)
    (hd : s.d = 1) (hh1 : 1 ≤ h) (hv1 : 1 ≤ v) (h11 : ¬(h = 1 ∧ v = 1)) :
    pixCloseSafeBrick BC.asymmetric (some dpix) (some s) h v =
      pixCloseSafeBrick BC.asymmetric none (some s) h v := by
  simp only [pixCloseSafeBrick, if_neg (show ¬(s.d ≠ 1) by omega),
    if_neg (show ¬(h < 1 ∨ v < 1) by omega), if_neg h11,
    if_neg (show ¬(BC.asymmetric = BC.symmetric) by simp)]
  by_cases hone : h = 1 ∨ v = 1
  · simp only [if_pos hone]
    cases hdb : pixClose BC.asymmetric none
        (some (pixAddBorder s (32 * ((max (h / 2) (v / 2) + 31) / 32)).toNat
          false))
        (some (selCreateBrick v.toNat h.toNat (v / 2).toNat (h / 2).toNat 1))
      <;> rfl
  · simp only [if_neg hone]
    cases hdb : discardCall
        (pixDilate BC.asymmetric none
          (pixDilate BC.asymmetric none
            (some (pixAddBorder s (32 * ((max (h / 2) (v / 2) + 31) / 32)).toNat
              false))
            (some (selCreateBrick 1 h.toNat 0 (h / 2).toNat 1)))
          (some (selCreateBrick v.toNat 1 (v / 2).toNat 0 1)))
        (pixErode BC.asymmetric
          (pixDilate BC.asymmetric none
            (pixDilate BC.asymmetric none
              (some (pixAddBorder s
                (32 * ((max (h / 2) (v / 2) + 31) / 32)).toNat false))
              (some (selCreateBrick 1 h.toNat 0 (h / 2).toNat 1)))
            (some (selCreateBrick v.toNat 1 (v / 2).toNat 0 1)))
          (discardCall
            (pixDilate BC.asymmetric none
              (some (pixAddBorder s
                (32 * ((max (h / 2) (v / 2) + 31) / 32)).toNat false))
              (some (selCreateBrick 1 h.toNat 0 (h / 2).toNat 1)))
            (pixErode BC.asymmetric
              (pixDilate BC.asymmetric none
                (some (pixAddBorder s
                  (32 * ((max (h / 2) (v / 2) + 31) / 32)).toNat false))
                (some (selCreateBrick 1 h.toNat 0 (h / 2).toNat 1)))
              (pixDilate BC.asymmetric none
                (pixDilate BC.asymmetric none
                  (some (pixAddBorder s
                    (32 * ((max (h / 2) (v / 2) + 31) / 32)).toNat false))
                  (some (selCreateBrick 1 h.toNat 0 (h / 2).toNat 1)))
                (some (selCreateBrick v.toNat 1 (v / 2).toNat 0 1)))
              (some (selCreateBrick 1 h.toNat 0 (h / 2).toNat 1))))
          (some (selCreateBrick v.toNat 1 (v / 2).toNat 0 1)))
      <;> rfl

theorem pixCloseSafeBrick_pixd (bc : BC) (dpix s : Pix) (h v : Int)
    (hsz : pixSizesEqual s dpix = true) (hd : s.d = 1)
    (hh1 : 1 ≤ h) (hv1 : 1 ≤ v) :
    pixCloseSafeBrick bc (some dpix) (some s) h v =
      pixCloseSafeBrick bc none (some s) h v := by
  by_cases h11 : h = 1 ∧ v = 1
  · simp only [pixCloseSafeBrick, if_neg (show ¬(s.d ≠ 1) by omega),
      if_neg (show ¬(h < 1 ∨ v < 1) by omega), if_pos h11]
    rfl
  cases bc with
  | symmetric =>
    simp only [pixCloseSafeBrick, if_neg (show ¬(s.d ≠ 1) by omega),
      if_neg (show ¬(h < 1 ∨ v < 1) by omega), if_neg h11]
    exact pixCloseBrick_pixd BC.symmetric dpix s h v hsz hd hh1 hv1
  | asymmetric =>
    exact pixCloseSafeBrick_asym_pixd dpix s h v hd hh1 hv1 h11

/-! ### Brick validation failures -/

theorem pixDilate_ps_none (bc : BC) (pd : Option Pix) (sel : Option Sel) :
    pixDilate bc pd none sel = none := by
  cases sel <;> rfl

theorem pixErode_ps_none (bc : BC) (pd : Option Pix) (sel : Option Sel) :
    pixErode bc pd none sel = none := by
  cases sel <;> rfl

theorem discardCall_dst_none (r : Option Pix) : discardCall none r = none := by
  cases r <;> rfl

theorem discardCall_some_none (b : Pix) : discardCall (some b) none = some b := rfl

theorem pixDilateBrick_baddepth (bc : BC) (pd : Option Pix) (s : Pix)
    (h v : Int) (hdep : s.d ≠ 1) :
    pixDilateBrick bc pd (some s) h v = none := by
  simp only [pixDilateBrick, if_pos hdep]

theorem pixErodeBrick_baddepth (bc : BC) (pd : Option Pix) (s : Pix)
    (h v : Int) (hdep : s.d ≠ 1) :
    pixErodeBrick bc pd (some s) h v = none := by
  simp only [pixErodeBrick, if_pos hdep]

theorem pixOpenBrick_baddepth (bc : BC) (pd : Option Pix) (s : Pix)
    (h v : Int) (hdep : s.d ≠ 1) :
    pixOpenBrick bc pd (some s) h v = none := by
  simp only [pixOpenBrick, if_pos hdep]

theorem pixCloseBrick_baddepth (bc : BC) (pd : Option Pix) (s : Pix)
    (h v : Int) (hdep : s.d ≠ 1) :
    pixCloseBrick bc pd (some s) h v = none := by
  simp only [pixCloseBrick, if_pos hdep]

theorem pixCloseSafeBrick_baddepth (bc : BC) (pd : Option Pix) (s : Pix)
    (h v : Int) (hdep : s.d ≠ 1) :
    pixCloseSafeBrick bc pd (some s) h v = none := by
  simp only [pixCloseSafeBrick, if_pos hdep]

theorem pixDilateBrick_badsize (bc : BC) (pd : Option Pix) (s : Pix)
    (h v : Int) (hhv : h < 1 ∨ v < 1) :
    pixDilateBrick bc pd (some s) h v = none := by
  simp only [pixDilateBrick]
  by_cases hdep : s.d ≠ 1
  · rw [if_pos hdep]
  · rw [if_neg hdep, if_pos hhv]

theorem pixErodeBrick_badsize (bc : BC) (pd : Option Pix) (s : Pix)
    (h v : Int) (hhv : h < 1 ∨ v < 1) :
    pixErodeBrick bc pd (some s) h v = none := by
  simp only [pixErodeBrick]
  by_cases hdep : s.d ≠ 1
  · rw [if_pos hdep]
  · rw [if_neg hdep, if_pos hhv]

theorem pixOpenBrick_badsize (bc : BC) (pd : Option Pix) (s : Pix)
    (h v : Int) (hhv : h < 1 ∨ v < 1) :
    pixOpenBrick bc pd (some s) h v = none := by
  simp only [pixOpenBrick]
  by_cases hdep : s.d ≠ 1
  · rw [if_pos hdep]
  · rw [if_neg hdep, if_pos hhv]

theorem pixCloseBrick_badsize (bc : BC) (pd : Option Pix) (s : Pix)
    (h v : Int) (hhv : h < 1 ∨ v < 1) :
    pixCloseBrick bc pd (some s) h v = none := by
  simp only [pixCloseBrick]
  by_cases hdep : s.d ≠ 1
  · rw [if_pos hdep]
  · rw [if_neg hdep, if_pos hhv]

theorem pixCloseSafeBrick_badsize (bc : BC) (pd : Option Pix) (s : Pix)
    (h v : Int) (hhv : h < 1 ∨ v < 1) :
    pixCloseSafeBrick bc pd (some s) h v = none := by
  simp only [pixCloseSafeBrick]
  by_cases hdep : s.d ≠ 1
  · rw [if_pos hdep]
  · rw [if_neg hdep, if_pos hhv]

theorem sizesEqual_congr_left {a b c : Pix} (hw : a.w = b.w) (hh : a.h = b.h)
    (hd : a.d = b.d) : pixSizesEqual a c = pixSizesEqual b c := by
  unfold pixSizesEqual
  rw [hw, hh, hd]

theorem pixDilateBrick_mismatch (bc : BC) (dpix s : Pix) (h v : Int)
    (hsz : pixSizesEqual s dpix = false) (hd : s.d = 1)
    (hh1 : 1 ≤ h) (hv1 : 1 ≤ v) (h11 : ¬(h = 1 ∧ v = 1)) :
    pixDilateBrick bc (some dpix) (some s) h v = none := by
  simp only [pixDilateBrick, if_neg (show ¬(s.d ≠ 1) by omega),
    if_neg (show ¬(h < 1 ∨ v < 1) by omega), if_neg h11]
  by_cases hone : h = 1 ∨ v = 1
  · simp only [if_pos hone]
    exact pixDilate_args1_none bc _ _ _ (args1_mismatch dpix s _ hsz)
  · simp only [if_neg hone]
    obtain ⟨T, hT, tw, th, td⟩ := pixDilate_exists bc none s
      (selCreateBrick 1 h.toNat 0 (h / 2).toNat 1) hd
      (by show 0 < Int.toNat h; omega) (by show 0 < 1; omega)
      (fun d0 hc => by cases hc)
    rw [hT]
    exact pixDilate_args1_none bc _ _ _ (args1_mismatch dpix T _
      ((sizesEqual_congr_left tw th td).trans hsz))

theorem pixErodeBrick_mismatch (bc : BC) (dpix s : Pix) (h v : Int)
    (hsz : pixSizesEqual s dpix = false) (hd : s.d = 1)
    (hh1 : 1 ≤ h) (hv1 : 1 ≤ v) (h11 : ¬(h = 1 ∧ v = 1)) :
    pixErodeBrick bc (some dpix) (some s) h v = none := by
  simp only [pixErodeBrick, if_neg (show ¬(s.d ≠ 1) by omega),
    if_neg (show ¬(h < 1 ∨ v < 1) by omega), if_neg h11]
  by_cases hone : h = 1 ∨ v = 1
  · simp only [if_pos hone]
    exact pixErode_args1_none bc _ _ _ (args1_mismatch dpix s _ hsz)
  · simp only [if_neg hone]
    obtain ⟨T, hT, tw, th, td⟩ := pixErode_exists bc none s
      (selCreateBrick 1 h.toNat 0 (h / 2).toNat 1) hd
      (by show 0 < Int.toNat h; omega) (by show 0 < 1; omega)
      (fun d0 hc => by cases hc)
    rw [hT]
    exact pixErode_args1_none bc _ _ _ (args1_mismatch dpix T _
      ((sizesEqual_congr_left tw th td).trans hsz))

theorem pixOpenBrick_mismatch (bc : BC) (dpix s : Pix) (h v : Int)
    (hsz : pixSizesEqual s dpix = false) (hd : s.d = 1)
    (hh1 : 1 ≤ h) (hv1 : 1 ≤ v) (h11 : ¬(h = 1 ∧ v = 1)) :
    pixOpenBrick bc (some dpix) (some s) h v = none := by
  simp only [pixOpenBrick, if_neg (show ¬(s.d ≠ 1) by omega),
    if_neg (show ¬(h < 1 ∨ v < 1) by omega), if_neg h11]
  by_cases hone : h = 1 ∨ v = 1
  · simp only [if_pos hone]
    exact pixOpen_args2_none bc _ _ _ (args2_mismatch dpix s _ hsz)
  · simp only [if_neg hone]
    obtain ⟨T, hT, tw, th, td⟩ := pixErode_exists bc none s
      (selCreateBrick 1 h.toNat 0 (h / 2).toNat 1) hd
      (by show 0 < Int.toNat h; omega) (by show 0 < 1; omega)
      (fun d0 hc => by cases hc)
    rw [hT]
    rw [pixErode_args1_none bc _ _ _ (args1_mismatch dpix T _
      ((sizesEqual_congr_left tw th td).trans hsz))]
    rw [discardCall_dst_none]

theorem pixCloseBrick_mismatch (bc : BC) (dpix s : Pix) (h v : Int)
    (hsz : pixSizesEqual s dpix = false) (hd : s.d = 1)
    (hh1 : 1 ≤ h) (hv1 : 1 ≤ v) (h11 : ¬(h = 1 ∧ v = 1)) :
    pixCloseBrick bc (some dpix) (some s) h v = none := by
  simp only [pixCloseBrick, if_neg (show ¬(s.d ≠ 1) by omega),
    if_neg (show ¬(h < 1 ∨ v < 1) by omega), if_neg h11]
  by_cases hone : h = 1 ∨ v = 1
  · simp only [if_pos hone]
    exact pixClose_args2_none bc _ _ _ (args2_mismatch dpix s _ hsz)
  · simp only [if_neg hone]
    obtain ⟨T, hT, tw, th, td⟩ := pixDilate_exists bc none s
      (selCreateBrick 1 h.toNat 0 (h / 2).toNat 1) hd
      (by show 0 < Int.toNat h; omega) (by show 0 < 1; omega)
      (fun d0 hc => by cases hc)
    rw [hT]
    rw [pixDilate_args1_none bc _ _ _ (args1_mismatch dpix T _
      ((sizesEqual_congr_left tw th td).trans hsz))]
    rw [discardCall_dst_none]

theorem pixCloseSafeBrick_sym_mismatch (dpix s : Pix) (h v : Int)
    (hsz : pixSizesEqual s dpix = false) (hd : s.d = 1)
    (hh1 : 1 ≤ h) (hv1 : 1 ≤ v) (h11 : ¬(h = 1 ∧ v = 1)) :
    pixCloseSafeBrick BC.symmetric (some dpix) (some s) h v = none := by
  simp only [pixCloseSafeBrick, if_neg (show ¬(s.d ≠ 1) by omega),
    if_neg (show ¬(h < 1 ∨ v < 1) by omega), if_neg h11]
  exact pixCloseBrick_mismatch BC.symmetric dpix s h v hsz hd hh1 hv1 h11

theorem pixCloseSafe_sym_genFail (pd ps : Option Pix) (sel : Option Sel)
    (hgf : genFail pd ps sel) :
    pixCloseSafe BC.symmetric pd ps sel = none := by
  cases ps with
  | none => cases sel <;> rfl
  | some s =>
    cases sel with
    | none => rfl
    | some sl =>
      by_cases hdep : s.d = 1
      · rw [pixCloseSafe_sym_delegate pd s sl hdep]
        exact pixClose_args2_none _ _ _ _ (args2_genFail hgf)
      · exact pixCloseSafe_baddepth _ pd s sl hdep

/-! ### Brick Sel basics and congruence of the primitives -/

@[simp] theorem selCreateBrick_sy (sy sx cy cx f : Nat) :
    (selCreateBrick sy sx cy cx f).sy = sy := rfl

@[simp] theorem selCreateBrick_sx (sy sx cy cx f : Nat) :
    (selCreateBrick sy sx cy cx f).sx = sx := rfl

@[simp] theorem selCreateBrick_cy (sy sx cy cx f : Nat) :
    (selCreateBrick sy sx cy cx f).cy = cy := rfl

@[simp] theorem selCreateBrick_cx (sy sx cy cx f : Nat) :
    (selCreateBrick sy sx cy cx f).cx = cx := rfl

@[simp] theorem selCreateBrick_data (sy sx cy cx f i j : Nat) :
    (selCreateBrick sy sx cy cx f).data i j = f := rfl

theorem isHit_brick {sy sx cy cx i j : Nat} :
    isHit (selCreateBrick sy sx cy cx 1) i j ↔ i < sy ∧ j < sx := by
  unfold isHit
  simp

theorem bool_eq_of_iff {a b : Bool} (h : a = true ↔ b = true) : a = b := by
  rcases a <;> rcases b <;> simp_all

theorem toNat_cast (n : Nat) : ((n : Int)).toNat = n := by omega

theorem toNat_cast_div2 (n : Nat) : (((n : Int)) / 2).toNat = n / 2 := by
  omega

theorem cast_div2 (n : Nat) : ((n : Int)) / 2 = ((n / 2 : Nat) : Int) := by
  omega

theorem pixDilate_congr (bc : BC) (a b : Pix) (sl : Sel) (heq : PixEq a b)
    (hd : a.d = 1) (hsx : 0 < sl.sx) (hsy : 0 < sl.sy) :
    ∃ Ra Rb, pixDilate bc none (some a) (some sl) = some Ra ∧
      pixDilate bc none (some b) (some sl) = some Rb ∧ PixEq Ra Rb := by
  rcases heq with ⟨ew, eh, ed, ep⟩
  obtain ⟨Ra, hRa, raw, rah, rad, aChar⟩ :=
    pixDilate_spec bc none a sl hd hsx hsy (fun d0 hc => by cases hc)
  obtain ⟨Rb, hRb, rbw, rbh, rbd, bChar⟩ :=
    pixDilate_spec bc none b sl (by omega) hsx hsy (fun d0 hc => by cases hc)
  refine ⟨Ra, Rb, hRa, hRb, by omega, by omega, by omega, fun x y => ?_⟩
  refine bool_eq_of_iff ?_
  rw [aChar x y, bChar x y]
  constructor
  · rintro ⟨hin, i, j, hij, hget⟩
    refine ⟨by
      unfold inImg at hin ⊢
      rw [← ew, ← eh]
      exact hin, i, j, hij, by rw [← ep]; exact hget⟩
  · rintro ⟨hin, i, j, hij, hget⟩
    refine ⟨by
      unfold inImg at hin ⊢
      rw [ew, eh]
      exact hin, i, j, hij, by rw [ep]; exact hget⟩

theorem pixErode_congr (bc : BC) (a b : Pix) (sl : Sel) (heq : PixEq a b)
    (hd : a.d = 1) (hsx : 0 < sl.sx) (hsy : 0 < sl.sy) :
    ∃ Ra Rb, pixErode bc none (some a) (some sl) = some Ra ∧
      pixErode bc none (some b) (some sl) = some Rb ∧ PixEq Ra Rb := by
  rcases heq with ⟨ew, eh, ed, ep⟩
  cases bc with
  | asymmetric =>
    obtain ⟨Ra, hRa, raw, rah, rad, aChar⟩ :=
      pixErode_spec_asym none a sl hd hsx hsy (fun d0 hc => by cases hc)
    obtain ⟨Rb, hRb, rbw, rbh, rbd, bChar⟩ :=
      pixErode_spec_asym none b sl (by omega) hsx hsy (fun d0 hc => by cases hc)
    refine ⟨Ra, Rb, hRa, hRb, by omega, by omega, by omega, fun x y => ?_⟩
    refine bool_eq_of_iff ?_
    rw [aChar x y, bChar x y]
    constructor
    · rintro ⟨hin, hall⟩
      refine ⟨by
        unfold inImg at hin ⊢
        rw [← ew, ← eh]
        exact hin, fun i j hij => by rw [← ep]; exact hall i j hij⟩
    · rintro ⟨hin, hall⟩
      refine ⟨by
        unfold inImg at hin ⊢
        rw [ew, eh]
        exact hin, fun i j hij => by rw [ep]; exact hall i j hij⟩
  | symmetric =>
    obtain ⟨Ra, hRa, raw, rah, rad, aChar⟩ :=
      pixErode_spec_sym none a sl hd hsx hsy (fun d0 hc => by cases hc)
    obtain ⟨Rb, hRb, rbw, rbh, rbd, bChar⟩ :=
      pixErode_spec_sym none b sl (by omega) hsx hsy (fun d0 hc => by cases hc)
    refine ⟨Ra, Rb, hRa, hRb, by omega, by omega, by omega, fun x y => ?_⟩
    refine bool_eq_of_iff ?_
    rw [aChar x y, bChar x y]
    constructor
    · rintro ⟨hin, hall⟩
      refine ⟨by
        unfold inImg at hin ⊢
        rw [← ew, ← eh]
        exact hin, fun i j hij hpos => by
          rw [← ep]
          refine hall i j hij ?_
          unfold inImg at hpos ⊢
          rw [ew, eh]
          exact hpos⟩
    · rintro ⟨hin, hall⟩
      refine ⟨by
        unfold inImg at hin ⊢
        rw [ew, eh]
        exact hin, fun i j hij hpos => by
          rw [ep]
          refine hall i j hij ?_
          unfold inImg at hpos ⊢
          rw [← ew, ← eh]
          exact hpos⟩

/-! ### Separability of brick dilation and erosion -/

theorem dilate_sep (bc : BC) (s : Pix) (h v : Nat) (hd : s.d = 1)
    (hh : 0 < h) (hv : 0 < v) :
    ∃ T R Rf,
      pixDilate bc none (some s) (some (selCreateBrick 1 h 0 (h / 2) 1))
        = some T ∧
      pixDilate bc none (some T) (some (selCreateBrick v 1 (v / 2) 0 1))
        = some R ∧
      pixDilate bc none (some s) (some (selCreateBrick v h (v / 2) (h / 2) 1))
        = some Rf ∧
      PixEq R Rf := by
  obtain ⟨T, hT, tw, th, td, tChar⟩ := pixDilate_spec bc none s
    (selCreateBrick 1 h 0 (h / 2) 1) hd (by simpa using hh) (by simp)
    (fun d0 hc => by cases hc)
  obtain ⟨R, hR, rw2, rh2, rd2, rChar⟩ := pixDilate_spec bc none T
    (selCreateBrick v 1 (v / 2) 0 1) (by omega) (by simp) (by simpa using hv)
    (fun d0 hc => by cases hc)
  obtain ⟨Rf, hRf, fw, fh, fd, fChar⟩ := pixDilate_spec bc none s
    (selCreateBrick v h (v / 2) (h / 2) 1) hd (by simpa using hh)
    (by simpa using hv) (fun d0 hc => by cases hc)
  have tIff : ∀ x y : Int, T.getPix x y = true ↔
      (inImg s x y ∧ ∃ j, j < h ∧
        s.getPix (x - ((j : Int) - ((h / 2 : Nat) : Int))) y = true) := by
    intro x y
    rw [tChar x y]
    simp only [isHit_brick, selCreateBrick_cx, selCreateBrick_cy]
    constructor
    · rintro ⟨hin, i, j, ⟨hi1, hjh⟩, hget⟩
      have hi0 : i = 0 := by omega
      subst hi0
      have e : y - (((0 : Nat) : Int) - ((0 : Nat) : Int)) = y := by
        push_cast
        ring
      rw [e] at hget
      exact ⟨hin, j, hjh, hget⟩
    · rintro ⟨hin, j, hjh, hget⟩
      refine ⟨hin, 0, j, ⟨by omega, hjh⟩, ?_⟩
      have e : y - (((0 : Nat) : Int) - ((0 : Nat) : Int)) = y := by
        push_cast
        ring
      rw [e]
      exact hget
  have rIff : ∀ x y : Int, R.getPix x y = true ↔
      (inImg T x y ∧ ∃ i, i < v ∧
        T.getPix x (y - ((i : Int) - ((v / 2 : Nat) : Int))) = true) := by
    intro x y
    rw [rChar x y]
    simp only [isHit_brick, selCreateBrick_cx, selCreateBrick_cy]
    constructor
    · rintro ⟨hin, i, j, ⟨hiv, hj1⟩, hget⟩
      have hj0 : j = 0 := by omega
      subst hj0
      have e : x - (((0 : Nat) : Int) - ((0 : Nat) : Int)) = x := by
        push_cast
        ring
      rw [e] at hget
      exact ⟨hin, i, hiv, hget⟩
    · rintro ⟨hin, i, hiv, hget⟩
      refine ⟨hin, i, 0, ⟨hiv, by omega⟩, ?_⟩
      have e : x - (((0 : Nat) : Int) - ((0 : Nat) : Int)) = x := by
        push_cast
        ring
      rw [e]
      exact hget
  have fIff : ∀ x y : Int, Rf.getPix x y = true ↔
      (inImg s x y ∧ ∃ i, i < v ∧ ∃ j, j < h ∧
        s.getPix (x - ((j : Int) - ((h / 2 : Nat) : Int)))
          (y - ((i : Int) - ((v / 2 : Nat) : Int))) = true) := by
    intro x y
    rw [fChar x y]
    simp only [isHit_brick, selCreateBrick_cx, selCreateBrick_cy]
    constructor
    · rintro ⟨hin, i, j, ⟨hiv, hjh⟩, hget⟩
      exact ⟨hin, i, hiv, j, hjh, hget⟩
    · rintro ⟨hin, i, hiv, j, hjh, hget⟩
      exact ⟨hin, i, j, ⟨hiv, hjh⟩, hget⟩
  refine ⟨T, R, Rf, hT, hR, hRf, by omega, by omega, by omega, fun x y => ?_⟩
  refine bool_eq_of_iff ?_
  rw [rIff x y, fIff x y]
  constructor
  · rintro ⟨hinT, i, hiv, hTget⟩
    rcases (tIff _ _).mp hTget with ⟨hinS, j, hjh, hsget⟩
    refine ⟨by
      unfold inImg at hinT ⊢
      rw [tw, th] at hinT
      exact hinT, i, hiv, j, hjh, hsget⟩
  · rintro ⟨hinS, i, hiv, j, hjh, hsget⟩
    have hbound := inImg_of_getPix hsget
    refine ⟨by
      unfold inImg at hinS ⊢
      rw [tw, th]
      exact hinS, i, hiv, ?_⟩
    refine (tIff _ _).mpr ⟨?_, j, hjh, hsget⟩
    unfold inImg at hinS hbound ⊢
    omega

theorem erode_sep (bc : BC) (s : Pix) (h v : Nat) (hd : s.d = 1)
    (hh : 0 < h) (hv : 0 < v) :
    ∃ T R Rf,
      pixErode bc none (some s) (some (selCreateBrick 1 h 0 (h / 2) 1))
        = some T ∧
      pixErode bc none (some T) (some (selCreateBrick v 1 (v / 2) 0 1))
        = some R ∧
      pixErode bc none (some s) (some (selCreateBrick v h (v / 2) (h / 2) 1))
        = some Rf ∧
      PixEq R Rf := by
  have e0 : ∀ z : Int, z + (((0 : Nat) : Int) - ((0 : Nat) : Int)) = z := by
    intro z
    push_cast
    ring
  cases bc with
  | asymmetric =>
    obtain ⟨T, hT, tw, th, td, tChar⟩ := pixErode_spec_asym none s
      (selCreateBrick 1 h 0 (h / 2) 1) hd (by simpa using hh) (by simp)
      (fun d0 hc => by cases hc)
    obtain ⟨R, hR, rw2, rh2, rd2, rChar⟩ := pixErode_spec_asym none T
      (selCreateBrick v 1 (v / 2) 0 1) (by omega) (by simp) (by simpa using hv)
      (fun d0 hc => by cases hc)
    obtain ⟨Rf, hRf, fw, fh, fd, fChar⟩ := pixErode_spec_asym none s
      (selCreateBrick v h (v / 2) (h / 2) 1) hd (by simpa using hh)
      (by simpa using hv) (fun d0 hc => by cases hc)
    have tIff : ∀ x y : Int, T.getPix x y = true ↔
        (inImg s x y ∧ ∀ j, j < h →
          s.getPix (x + ((j : Int) - ((h / 2 : Nat) : Int))) y = true) := by
      intro x y
      rw [tChar x y]
      simp only [isHit_brick, selCreateBrick_cx, selCreateBrick_cy]
      constructor
      · rintro ⟨hin, hall⟩
        refine ⟨hin, fun j hjh => ?_⟩
        have := hall 0 j ⟨by omega, hjh⟩
        rw [e0 y] at this
        exact this
      · rintro ⟨hin, hall⟩
        refine ⟨hin, fun i j hij => ?_⟩
        have hi0 : i = 0 := by omega
        subst hi0
        rw [e0 y]
        exact hall j hij.2
    have rIff : ∀ x y : Int, R.getPix x y = true ↔
        (inImg T x y ∧ ∀ i, i < v →
          T.getPix x (y + ((i : Int) - ((v / 2 : Nat) : Int))) = true) := by
      intro x y
      rw [rChar x y]
      simp only [isHit_brick, selCreateBrick_cx, selCreateBrick_cy]
      constructor
      · rintro ⟨hin, hall⟩
        refine ⟨hin, fun i hiv => ?_⟩
        have := hall i 0 ⟨hiv, by omega⟩
        rw [e0 x] at this
        exact this
      · rintro ⟨hin, hall⟩
        refine ⟨hin, fun i j hij => ?_⟩
        have hj0 : j = 0 := by omega
        subst hj0
        rw [e0 x]
        exact hall i hij.1
    have fIff : ∀ x y : Int, Rf.getPix x y = true ↔
        (inImg s x y ∧ ∀ i, i < v → ∀ j, j < h →
          s.getPix (x + ((j : Int) - ((h / 2 : Nat) : Int)))
            (y + ((i : Int) - ((v / 2 : Nat) : Int))) = true) := by
      intro x y
      rw [fChar x y]
      simp only [isHit_brick, selCreateBrick_cx, selCreateBrick_cy]
      constructor
      · rintro ⟨hin, hall⟩
        exact ⟨hin, fun i hiv j hjh => hall i j ⟨hiv, hjh⟩⟩
      · rintro ⟨hin, hall⟩
        exact ⟨hin, fun i j hij => hall i hij.1 j hij.2⟩
    refine ⟨T, R, Rf, hT, hR, hRf, by omega, by omega, by omega, fun x y => ?_⟩
    refine bool_eq_of_iff ?_
    rw [rIff x y, fIff x y]
    constructor
    · rintro ⟨hinT, hall⟩
      refine ⟨by
        unfold inImg at hinT ⊢
        rw [tw, th] at hinT
        exact hinT, fun i hiv j hjh => ?_⟩
      exact ((tIff _ _).mp (hall i hiv)).2 j hjh
    · rintro ⟨hinS, hall⟩
      refine ⟨by
        unfold inImg at hinS ⊢
        rw [tw, th]
        exact hinS, fun i hiv => ?_⟩
      refine (tIff _ _).mpr ⟨?_, fun j hjh => hall i hiv j hjh⟩
      have hbound := inImg_of_getPix (hall i hiv 0 hh)
      unfold inImg at hinS hbound ⊢
      omega
  | symmetric =>
    obtain ⟨T, hT, tw, th, td, tChar⟩ := pixErode_spec_sym none s
      (selCreateBrick 1 h 0 (h / 2) 1) hd (by simpa using hh) (by simp)
      (fun d0 hc => by cases hc)
    obtain ⟨R, hR, rw2, rh2, rd2, rChar⟩ := pixErode_spec_sym none T
      (selCreateBrick v 1 (v / 2) 0 1) (by omega) (by simp) (by simpa using hv)
      (fun d0 hc => by cases hc)
    obtain ⟨Rf, hRf, fw, fh, fd, fChar⟩ := pixErode_spec_sym none s
      (selCreateBrick v h (v / 2) (h / 2) 1) hd (by simpa using hh)
      (by simpa using hv) (fun d0 hc => by cases hc)
    have tIff : ∀ x y : Int, T.getPix x y = true ↔
        (inImg s x y ∧ ∀ j, j < h →
          inImg s (x + ((j : Int) - ((h / 2 : Nat) : Int))) y →
          s.getPix (x + ((j : Int) - ((h / 2 : Nat) : Int))) y = true) := by
      intro x y
      rw [tChar x y]
      simp only [isHit_brick, selCreateBrick_cx, selCreateBrick_cy]
      constructor
      · rintro ⟨hin, hall⟩
        refine ⟨hin, fun j hjh hpos => ?_⟩
        have := hall 0 j ⟨by omega, hjh⟩
        rw [e0 y] at this
        exact this hpos
      · rintro ⟨hin, hall⟩
        refine ⟨hin, fun i j hij => ?_⟩
        have hi0 : i = 0 := by omega
        subst hi0
        rw [e0 y]
        exact hall j hij.2
    have rIff : ∀ x y : Int, R.getPix x y = true ↔
        (inImg T x y ∧ ∀ i, i < v →
          inImg T x (y + ((i : Int) - ((v / 2 : Nat) : Int))) →
          T.getPix x (y + ((i : Int) - ((v / 2 : Nat) : Int))) = true) := by
      intro x y
      rw [rChar x y]
      simp only [isHit_brick, selCreateBrick_cx, selCreateBrick_cy]
      constructor
      · rintro ⟨hin, hall⟩
        refine ⟨hin, fun i hiv hpos => ?_⟩
        have := hall i 0 ⟨hiv, by omega⟩
        rw [e0 x] at this
        exact this hpos
      · rintro ⟨hin, hall⟩
        refine ⟨hin, fun i j hij => ?_⟩
        have hj0 : j = 0 := by omega
        subst hj0
        rw [e0 x]
        exact hall i hij.1
    have fIff : ∀ x y : Int, Rf.getPix x y = true ↔
        (inImg s x y ∧ ∀ i, i < v → ∀ j, j < h →
          inImg s (x + ((j : Int) - ((h / 2 : Nat) : Int)))
            (y + ((i : Int) - ((v / 2 : Nat) : Int))) →
          s.getPix (x + ((j : Int) - ((h / 2 : Nat) : Int)))
            (y + ((i : Int) - ((v / 2 : Nat) : Int))) = true) := by
      intro x y
      rw [fChar x y]
      simp only [isHit_brick, selCreateBrick_cx, selCreateBrick_cy]
      constructor
      · rintro ⟨hin, hall⟩
        exact ⟨hin, fun i hiv j hjh => hall i j ⟨hiv, hjh⟩⟩
      · rintro ⟨hin, hall⟩
        exact ⟨hin, fun i j hij => hall i hij.1 j hij.2⟩
    refine ⟨T, R, Rf, hT, hR, hRf, by omega, by omega, by omega, fun x y => ?_⟩
    refine bool_eq_of_iff ?_
    rw [rIff x y, fIff x y]
    constructor
    · rintro ⟨hinT, hall⟩
      have hinS : inImg s x y := by
        unfold inImg at hinT ⊢
        rw [tw, th] at hinT
        exact hinT
      refine ⟨hinS, fun i hiv j hjh hpos => ?_⟩
      have hposT : inImg T x (y + ((i : Int) - ((v / 2 : Nat) : Int))) := by
        unfold inImg at hinS hpos ⊢
        rw [tw, th]
        omega
      exact ((tIff _ _).mp (hall i hiv hposT)).2 j hjh hpos
    · rintro ⟨hinS, hall⟩
      refine ⟨by
        unfold inImg at hinS ⊢
        rw [tw, th]
        exact hinS, fun i hiv hposT => ?_⟩
      refine (tIff _ _).mpr ⟨?_, fun j hjh hpos => hall i hiv j hjh hpos⟩
      unfold inImg at hinS hposT ⊢
      rw [tw, th] at hposT
      omega

theorem dilateBrick_sep (bc : BC) (s : Pix) (h v : Nat) (hd : s.d = 1)
    (hh : 1 < h) (hv : 1 < v) :
    OPixEq (pixDilateBrick bc none (some s) (h : Int) (v : Int))
      (pixDilate bc none (some s)
        (some (selCreateBrick v h (v / 2) (h / 2) 1))) := by
  simp only [pixDilateBrick, if_neg (show ¬(s.d ≠ 1) by omega),
    if_neg (show ¬((h : Int) < 1 ∨ (v : Int) < 1) by omega),
    if_neg (show ¬((h : Int) = 1 ∧ (v : Int) = 1) by omega),
    if_neg (show ¬((h : Int) = 1 ∨ (v : Int) = 1) by omega),
    toNat_cast, toNat_cast_div2]
  obtain ⟨T, R, Rf, hT, hR, hRf, hpix⟩ := dilate_sep bc s h v hd
    (by omega) (by omega)
  rw [hT, hR, hRf]
  exact hpix

theorem erodeBrick_sep (bc : BC) (s : Pix) (h v : Nat) (hd : s.d = 1)
    (hh : 1 < h) (hv : 1 < v) :
    OPixEq (pixErodeBrick bc none (some s) (h : Int) (v : Int))
      (pixErode bc none (some s)
        (some (selCreateBrick v h (v / 2) (h / 2) 1))) := by
  simp only [pixErodeBrick, if_neg (show ¬(s.d ≠ 1) by omega),
    if_neg (show ¬((h : Int) < 1 ∨ (v : Int) < 1) by omega),
    if_neg (show ¬((h : Int) = 1 ∧ (v : Int) = 1) by omega),
    if_neg (show ¬((h : Int) = 1 ∨ (v : Int) = 1) by omega),
    toNat_cast, toNat_cast_div2]
  obtain ⟨T, R, Rf, hT, hR, hRf, hpix⟩ := erode_sep bc s h v hd
    (by omega) (by omega)
  rw [hT, hR, hRf]
  exact hpix

theorem discardCall_some_some (b r : Pix) :
    discardCall (some b) (some r) = some r := rfl

theorem openBrick_sep (bc : BC) (s : Pix) (h v : Nat) (hd : s.d = 1)
    (hh : 1 < h) (hv : 1 < v) :
    OPixEq (pixOpenBrick bc none (some s) (h : Int) (v : Int))
      (pixOpen bc none (some s)
        (some (selCreateBrick v h (v / 2) (h / 2) 1))) := by
  have hselhx : 0 < (selCreateBrick 1 h 0 (h / 2) 1).sx := by
    simpa using (by omega : 0 < h)
  have hselhy : 0 < (selCreateBrick 1 h 0 (h / 2) 1).sy := by simp
  have hselvx : 0 < (selCreateBrick v 1 (v / 2) 0 1).sx := by simp
  have hselvy : 0 < (selCreateBrick v 1 (v / 2) 0 1).sy := by
    simpa using (by omega : 0 < v)
  simp only [pixOpenBrick, if_neg (show ¬(s.d ≠ 1) by omega),
    if_neg (show ¬((h : Int) < 1 ∨ (v : Int) < 1) by omega),
    if_neg (show ¬((h : Int) = 1 ∧ (v : Int) = 1) by omega),
    if_neg (show ¬((h : Int) = 1 ∨ (v : Int) = 1) by omega),
    toNat_cast, toNat_cast_div2]
  obtain ⟨T1, T2, Ef, hT1, hT2, hEf, hpixE⟩ := erode_sep bc s h v hd
    (by omega) (by omega)
  have hT1dims : T1.w = s.w ∧ T1.h = s.h ∧ T1.d = s.d := by
    obtain ⟨E', hE', e1, e2, e3⟩ := pixErode_exists bc none s
      (selCreateBrick 1 h 0 (h / 2) 1) hd hselhx hselhy
      (fun d0 hc => by cases hc)
    rw [hT1] at hE'
    rcases Option.some.inj hE' with rfl
    exact ⟨e1, e2, e3⟩
  have hT2dims : T2.w = s.w ∧ T2.h = s.h ∧ T2.d = s.d := by
    obtain ⟨E', hE', e1, e2, e3⟩ := pixErode_exists bc none T1
      (selCreateBrick v 1 (v / 2) 0 1) (by omega) hselvx hselvy
      (fun d0 hc => by cases hc)
    rw [hT2] at hE'
    rcases Option.some.inj hE' with rfl
    refine ⟨e1.trans hT1dims.1, e2.trans hT1dims.2.1, e3.trans hT1dims.2.2⟩
  rw [hT1, hT2]
  rw [pixDilate_pixd bc T1 T2 (selCreateBrick 1 h 0 (h / 2) 1)
    (sizesEqual_iff.mpr ⟨by omega, by omega, by omega⟩)]
  obtain ⟨T3, hT3, t3w, t3h, t3d⟩ := pixDilate_exists bc none T2
    (selCreateBrick 1 h 0 (h / 2) 1) (by omega) hselhx hselhy
    (fun d0 hc => by cases hc)
  rw [hT3, discardCall_some_some]
  rw [pixDilate_pixd bc T2 T3 (selCreateBrick v 1 (v / 2) 0 1)
    (sizesEqual_iff.mpr ⟨by omega, by omega, by omega⟩)]
  obtain ⟨T4, hT4, t4w, t4h, t4d⟩ := pixDilate_exists bc none T3
    (selCreateBrick v 1 (v / 2) 0 1) (by omega) hselvx hselvy
    (fun d0 hc => by cases hc)
  rw [hT4, discardCall_some_some]
  have hEfd : Ef.d = 1 := by
    obtain ⟨E', hE', e1, e2, e3⟩ := pixErode_exists bc none s
      (selCreateBrick v h (v / 2) (h / 2) 1) hd (by simpa using (by omega : 0 < h))
      (by simpa using (by omega : 0 < v)) (fun d0 hc => by cases hc)
    rw [hEf] at hE'
    rcases Option.some.inj hE' with rfl
    omega
  rw [pixOpen_eq bc none s (selCreateBrick v h (v / 2) (h / 2) 1) hd
    (by simpa using (by omega : 0 < h)) (by simpa using (by omega : 0 < v))
    (fun d0 hc => by cases hc), hEf]
  obtain ⟨Of, hOf, ofw, ofh, ofd⟩ := pixDilate_exists bc none Ef
    (selCreateBrick v h (v / 2) (h / 2) 1) hEfd
    (by simpa using (by omega : 0 < h)) (by simpa using (by omega : 0 < v))
    (fun d0 hc => by cases hc)
  rw [hOf]
  -- chain: T4 = d_v(d_h T2) ≃ d_v(d_h Ef) ≃ d_full Ef = Of
  obtain ⟨Ra, Rb, hRa, hRb, hab⟩ := pixDilate_congr bc T2 Ef
    (selCreateBrick 1 h 0 (h / 2) 1) hpixE (by omega) hselhx hselhy
  rw [hT3] at hRa
  rcases Option.some.inj hRa with rfl
  obtain ⟨Ra2, Rb2, hRa2, hRb2, hab2⟩ := pixDilate_congr bc T3 Rb
    (selCreateBrick v 1 (v / 2) 0 1) hab (by omega) hselvx hselvy
  rw [hT4] at hRa2
  rcases Option.some.inj hRa2 with rfl
  obtain ⟨T', R', Rf', hT'', hR'', hRf'', hsep⟩ := dilate_sep bc Ef h v hEfd
    (by omega) (by omega)
  rw [hRb] at hT''
  rcases Option.some.inj hT'' with rfl
  rw [hRb2] at hR''
  rcases Option.some.inj hR'' with rfl
  rw [hOf] at hRf''
  rcases Option.some.inj hRf'' with rfl
  exact hab2.trans2 hsep

theorem closeBrick_sep (bc : BC) (s : Pix) (h v : Nat) (hd : s.d = 1)
    (hh : 1 < h) (hv : 1 < v) :
    OPixEq (pixCloseBrick bc none (some s) (h : Int) (v : Int))
      (pixClose bc none (some s)
        (some (selCreateBrick v h (v / 2) (h / 2) 1))) := by
  have hselhx : 0 < (selCreateBrick 1 h 0 (h / 2) 1).sx := by
    simpa using (by omega : 0 < h)
  have hselhy : 0 < (selCreateBrick 1 h 0 (h / 2) 1).sy := by simp
  have hselvx : 0 < (selCreateBrick v 1 (v / 2) 0 1).sx := by simp
  have hselvy : 0 < (selCreateBrick v 1 (v / 2) 0 1).sy := by
    simpa using (by omega : 0 < v)
  simp only [pixCloseBrick, if_neg (show ¬(s.d ≠ 1) by omega),
    if_neg (show ¬((h : Int) < 1 ∨ (v : Int) < 1) by omega),
    if_neg (show ¬((h : Int) = 1 ∧ (v : Int) = 1) by omega),
    if_neg (show ¬((h : Int) = 1 ∨ (v : Int) = 1) by omega),
    toNat_cast, toNat_cast_div2]
  obtain ⟨T1, T2, Df, hT1, hT2, hDf, hpixD⟩ := dilate_sep bc s h v hd
    (by omega) (by omega)
  have hT1dims : T1.w = s.w ∧ T1.h = s.h ∧ T1.d = s.d := by
    obtain ⟨E', hE', e1, e2, e3⟩ := pixDilate_exists bc none s
      (selCreateBrick 1 h 0 (h / 2) 1) hd hselhx hselhy
      (fun d0 hc => by cases hc)
    rw [hT1] at hE'
    rcases Option.some.inj hE' with rfl
    exact ⟨e1, e2, e3⟩
  have hT2dims : T2.w = s.w ∧ T2.h = s.h ∧ T2.d = s.d := by
    obtain ⟨E', hE', e1, e2, e3⟩ := pixDilate_exists bc none T1
      (selCreateBrick v 1 (v / 2) 0 1) (by omega) hselvx hselvy
      (fun d0 hc => by cases hc)
    rw [hT2] at hE'
    rcases Option.some.inj hE' with rfl
    refine ⟨e1.trans hT1dims.1, e2.trans hT1dims.2.1, e3.trans hT1dims.2.2⟩
  rw [hT1, hT2]
  rw [pixErode_pixd bc T1 T2 (selCreateBrick 1 h 0 (h / 2) 1)
    (sizesEqual_iff.mpr ⟨by omega, by omega, by omega⟩)]
  obtain ⟨T3, hT3, t3w, t3h, t3d⟩ := pixErode_exists bc none T2
    (selCreateBrick 1 h 0 (h / 2) 1) (by omega) hselhx hselhy
    (fun d0 hc => by cases hc)
  rw [hT3, discardCall_some_some]
  rw [pixErode_pixd bc T2 T3 (selCreateBrick v 1 (v / 2) 0 1)
    (sizesEqual_iff.mpr ⟨by omega, by omega, by omega⟩)]
  obtain ⟨T4, hT4, t4w, t4h, t4d⟩ := pixErode_exists bc none T3
    (selCreateBrick v 1 (v / 2) 0 1) (by omega) hselvx hselvy
    (fun d0 hc => by cases hc)
  rw [hT4, discardCall_some_some]
  have hDfd : Df.d = 1 := by
    obtain ⟨E', hE', e1, e2, e3⟩ := pixDilate_exists bc none s
      (selCreateBrick v h (v / 2) (h / 2) 1) hd (by simpa using (by omega : 0 < h))
      (by simpa using (by omega : 0 < v)) (fun d0 hc => by cases hc)
    rw [hDf] at hE'
    rcases Option.some.inj hE' with rfl
    omega
  rw [pixClose_eq bc none s (selCreateBrick v h (v / 2) (h / 2) 1) hd
    (by simpa using (by omega : 0 < h)) (by simpa using (by omega : 0 < v))
    (fun d0 hc => by cases hc), hDf]
  obtain ⟨Of, hOf, ofw, ofh, ofd⟩ := pixErode_exists bc none Df
    (selCreateBrick v h (v / 2) (h / 2) 1) hDfd
    (by simpa using (by omega : 0 < h)) (by simpa using (by omega : 0 < v))
    (fun d0 hc => by cases hc)
  rw [hOf]
  obtain ⟨Ra, Rb, hRa, hRb, hab⟩ := pixErode_congr bc T2 Df
    (selCreateBrick 1 h 0 (h / 2) 1) hpixD (by omega) hselhx hselhy
  rw [hT3] at hRa
  rcases Option.some.inj hRa with rfl
  obtain ⟨Ra2, Rb2, hRa2, hRb2, hab2⟩ := pixErode_congr bc T3 Rb
    (selCreateBrick v 1 (v / 2) 0 1) hab (by omega) hselvx hselvy
  rw [hT4] at hRa2
  rcases Option.some.inj hRa2 with rfl
  obtain ⟨T', R', Rf', hT'', hR'', hRf'', hsep⟩ := erode_sep bc Df h v hDfd
    (by omega) (by omega)
  rw [hRb] at hT''
  rcases Option.some.inj hT'' with rfl
  rw [hRb2] at hR''
  rcases Option.some.inj hR'' with rfl
  rw [hOf] at hRf''
  rcases Option.some.inj hRf'' with rfl
  exact hab2.trans2 hsep

/-! ### Concrete instances used by witnesses and counterexamples -/

/-- A 3-by-3 1-bpp bitmap with only the centre pixel ON. -/
def pixA : Pix := ⟨3, 3, 1, fun x y => decide (x = 1 ∧ y = 1)⟩

/-- A 2-by-3 blank bitmap, used as a destination of mismatched geometry. -/
def pixBad : Pix := ⟨2, 3, 1, fun _ _ => false⟩

/-- A 1-by-1 bitmap whose single pixel is ON. -/
def pixOne : Pix := ⟨1, 1, 1, fun _ _ => true⟩

/-- A 1-by-1 blank bitmap. -/
def blank1 : Pix := ⟨1, 1, 1, fun _ _ => false⟩

/-- The 3-by-3 all-HIT brick Sel with centred origin. -/
def selB33 : Sel := selCreateBrick 3 3 1 1 1

/-- A 1-by-1 Sel whose only cell is DONT_CARE. -/
def selDC : Sel := ⟨1, 1, 0, 0, fun _ _ => 0⟩

/-- A Sel with zero rows (an empty Sel). -/
def selEmpty : Sel := ⟨0, 3, 0, 0, fun _ _ => 1⟩

/-- The 1-by-1 single-HIT Sel. -/
def selHit1 : Sel := selCreateBrick 1 1 0 0 1

/-- A 2-by-2 Sel with one HIT, one MISS and two DONT_CARE cells. -/
def selHM : Sel := ⟨2, 2, 0, 0, fun i j => if i = 0 ∧ j = 0 then 1
  else if i = 0 ∧ j = 1 then 2 else 0⟩

/-! ### Claim theorems -/

/-- C1: for every 1-bpp source and valid Sel, `pixDilate` yields a
destination of the source's geometry in which a pixel is ON iff some HIT
cell (i, j) of the Sel finds the source ON at p - (j - cx, i - cy),
positions outside the image counting as OFF; no edge clearing is
applied. -/
theorem pixDilate_effect (bc : BC) (pd : Option Pix) (s : Pix) (sl : Sel)
    (hd : s.d = 1) (hsx : 0 < sl.sx) (hsy : 0 < sl.sy)
    (hpd : ∀ d0, pd = some d0 → pixSizesEqual s d0 = true) :
    ∃ R, pixDilate bc pd (some s) (some sl) = some R ∧
      R.w = s.w ∧ R.h = s.h ∧
      ∀ x y : Int, inImg R x y →
        (R.getPix x y = true ↔ ∃ i j, isHit sl i j ∧
          s.getPix (x - ((j : Int) - sl.cx)) (y - ((i : Int) - sl.cy)) = true) := by
  obtain ⟨R, hR, hw, hh, hdd, hChar⟩ := pixDilate_spec bc pd s sl hd hsx hsy hpd
  refine ⟨R, hR, hw, hh, fun x y hxy => ?_⟩
  rw [hChar x y]
  have hins : inImg s x y := by
    unfold inImg at hxy ⊢
    rw [hw, hh] at hxy
    exact hxy
  constructor
  · rintro ⟨-, hrest⟩
    exact hrest
  · intro hrest
    exact ⟨hins, hrest⟩

/-- Witness for C1 at the 3-by-3 centre-pixel bitmap and the 3-by-3
brick Sel. -/
theorem pixDilate_effect_witness :
    ∃ R, pixDilate BC.asymmetric none (some pixA) (some selB33) = some R ∧
      R.w = pixA.w ∧ R.h = pixA.h ∧
      ∀ x y : Int, inImg R x y →
        (R.getPix x y = true ↔ ∃ i j, isHit selB33 i j ∧
          pixA.getPix (x - ((j : Int) - selB33.cx))
            (y - ((i : Int) - selB33.cy)) = true) :=
  pixDilate_effect BC.asymmetric none pixA selB33 rfl (by decide) (by decide)
    (fun d0 hc => by cases hc)

/-- C2: `pixErode` starts from an all-set destination, ANDs in the source
translated by (cx - j, cy - i) for each HIT cell, and clears the four
edge strips exactly under the ASYMMETRIC boundary condition, so that a
result pixel is ON iff every HIT position lies inside the image and is ON
(ASYMMETRIC), while under SYMMETRIC no clearing happens and off-image
positions count as ON. -/
theorem pixErode_effect (pd : Option Pix) (s : Pix) (sl : Sel)
    (hd : s.d = 1) (hsx : 0 < sl.sx) (hsy : 0 < sl.sy)
    (hpd : ∀ d0, pd = some d0 → pixSizesEqual s d0 = true) :
    ∃ Ra Rs,
      pixErode BC.asymmetric pd (some s) (some sl) = some Ra ∧
      pixErode BC.symmetric pd (some s) (some sl) = some Rs ∧
      Ra.w = s.w ∧ Ra.h = s.h ∧ Rs.w = s.w ∧ Rs.h = s.h ∧
      (∀ x y : Int, inImg s x y →
        (Ra.getPix x y = true ↔ ∀ i j, isHit sl i j →
          (inImg s (x + ((j : Int) - sl.cx)) (y + ((i : Int) - sl.cy)) ∧
            s.getPix (x + ((j : Int) - sl.cx)) (y + ((i : Int) - sl.cy)) = true))) ∧
      (∀ x y : Int, inImg s x y →
        (Rs.getPix x y = true ↔ ∀ i j, isHit sl i j →
          (inImg s (x + ((j : Int) - sl.cx)) (y + ((i : Int) - sl.cy)) →
            s.getPix (x + ((j : Int) - sl.cx)) (y + ((i : Int) - sl.cy)) = true))) := by
  obtain ⟨Ra, hRa, aw, ah, ad, aChar⟩ := pixErode_spec_asym pd s sl hd hsx hsy hpd
  obtain ⟨Rs, hRs, sw, sh, sd, sChar⟩ := pixErode_spec_sym pd s sl hd hsx hsy hpd
  refine ⟨Ra, Rs, hRa, hRs, aw, ah, sw, sh, fun x y hxy => ?_, fun x y hxy => ?_⟩
  · rw [aChar x y]
    constructor
    · rintro ⟨-, hall⟩
      exact fun i j hij => ⟨inImg_of_getPix (hall i j hij), hall i j hij⟩
    · intro hall
      exact ⟨hxy, fun i j hij => (hall i j hij).2⟩
  · rw [sChar x y]
    constructor
    · rintro ⟨-, hall⟩
      exact hall
    · intro hall
      exact ⟨hxy, hall⟩

/-- Witness for C2 at the centre-pixel bitmap and 3-by-3 brick. -/
theorem pixErode_effect_witness :
    ∃ Ra Rs,
      pixErode BC.asymmetric none (some pixA) (some selB33) = some Ra ∧
      pixErode BC.symmetric none (some pixA) (some selB33) = some Rs ∧
      Ra.w = pixA.w ∧ Ra.h = pixA.h ∧ Rs.w = pixA.w ∧ Rs.h = pixA.h ∧
      (∀ x y : Int, inImg pixA x y →
        (Ra.getPix x y = true ↔ ∀ i j, isHit selB33 i j →
          (inImg pixA (x + ((j : Int) - selB33.cx)) (y + ((i : Int) - selB33.cy)) ∧
            pixA.getPix (x + ((j : Int) - selB33.cx))
              (y + ((i : Int) - selB33.cy)) = true))) ∧
      (∀ x y : Int, inImg pixA x y →
        (Rs.getPix x y = true ↔ ∀ i j, isHit selB33 i j →
          (inImg pixA (x + ((j : Int) - selB33.cx)) (y + ((i : Int) - selB33.cy)) →
            pixA.getPix (x + ((j : Int) - selB33.cx))
              (y + ((i : Int) - selB33.cy)) = true))) :=
  pixErode_effect none pixA selB33 rfl (by decide) (by decide)
    (fun d0 hc => by cases hc)

/-- C10: eroding by a valid Sel that contains no HIT cell returns an
all-ON bitmap of the source's geometry, for any source contents and
either boundary condition: no rasterop is accumulated, the maximal
translations are all zero, and the initial all-set destination
survives. -/
theorem erode_no_hits_all_on (bc : BC) (s : Pix) (sl : Sel)
    (hd : s.d = 1) (hsx : 0 < sl.sx) (hsy : 0 < sl.sy)
    (hnohit : ∀ i j, i < sl.sy → j < sl.sx → sl.data i j ≠ 1) :
    ∃ R, pixErode bc none (some s) (some sl) = some R ∧
      R.w = s.w ∧ R.h = s.h ∧
      ∀ x y : Int, inImg R x y → R.getPix x y = true := by
  cases bc with
  | asymmetric =>
    obtain ⟨R, hR, hw, hh, hdd, hChar⟩ :=
      pixErode_spec_asym none s sl hd hsx hsy (fun d0 hc => by cases hc)
    refine ⟨R, hR, hw, hh, fun x y hxy => ?_⟩
    refine (hChar x y).mpr ⟨by
      unfold inImg at hxy ⊢
      rw [hw, hh] at hxy
      exact hxy, fun i j hij => absurd hij.2.2 (hnohit i j hij.1 hij.2.1)⟩
  | symmetric =>
    obtain ⟨R, hR, hw, hh, hdd, hChar⟩ :=
      pixErode_spec_sym none s sl hd hsx hsy (fun d0 hc => by cases hc)
    refine ⟨R, hR, hw, hh, fun x y hxy => ?_⟩
    refine (hChar x y).mpr ⟨by
      unfold inImg at hxy ⊢
      rw [hw, hh] at hxy
      exact hxy, fun i j hij => absurd hij.2.2 (hnohit i j hij.1 hij.2.1)⟩

/-- Witness for C10 at the centre-pixel bitmap and the all-DONT_CARE
1-by-1 Sel. -/
theorem erode_no_hits_all_on_witness :
    ∃ R, pixErode BC.asymmetric none (some pixA) (some selDC) = some R ∧
      R.w = pixA.w ∧ R.h = pixA.h ∧
      ∀ x y : Int, inImg R x y → R.getPix x y = true :=
  erode_no_hits_all_on BC.asymmetric pixA selDC rfl (by decide) (by decide)
    (fun i j _ _ hc => by simp [selDC] at hc)

/-- C3 (amended): every validation failure (absent source, absent Sel,
source depth not 1, Sel with a zero dimension, caller-supplied
destination of different geometry) makes pixDilate, pixErode, pixHMT,
pixOpen, pixClose, pixOpenGeneralized and pixCloseGeneralized return a
null bitmap.  pixCloseSafe itself rejects only an absent source, an
absent Sel, or depth not 1; under SYMMETRIC its delegation to pixClose
rejects the remaining failures, while under ASYMMETRIC a mismatched
destination or an empty Sel is not rejected.  The Brick variants reject
an absent source, depth not 1 and hsize or vsize below 1; a mismatched
caller destination propagates to a null return from the inner calls
whenever the brick is not trivially 1-by-1 (for pixCloseSafeBrick, under
SYMMETRIC). -/
theorem morph_validation_amended :
    (∀ (bc : BC) (pd ps : Option Pix) (sel : Option Sel),
      genFail pd ps sel →
        pixDilate bc pd ps sel = none ∧
        pixErode bc pd ps sel = none ∧
        pixHMT bc pd ps sel = none ∧
        pixOpen bc pd ps sel = none ∧
        pixClose bc pd ps sel = none ∧
        pixOpenGeneralized bc pd ps sel = none ∧
        pixCloseGeneralized bc pd ps sel = none) ∧
    (∀ (bc : BC) (pd : Option Pix) (sel : Option Sel),
        pixCloseSafe bc pd none sel = none) ∧
    (∀ (bc : BC) (pd ps : Option Pix), pixCloseSafe bc pd ps none = none) ∧
    (∀ (bc : BC) (pd : Option Pix) (s : Pix) (sl : Sel), s.d ≠ 1 →
        pixCloseSafe bc pd (some s) (some sl) = none) ∧
    (∀ (pd ps : Option Pix) (sel : Option Sel), genFail pd ps sel →
        pixCloseSafe BC.symmetric pd ps sel = none) ∧
    (∀ (bc : BC) (pd : Option Pix) (h v : Int),
        pixDilateBrick bc pd none h v = none ∧
        pixErodeBrick bc pd none h v = none ∧
        pixOpenBrick bc pd none h v = none ∧
        pixCloseBrick bc pd none h v = none ∧
        pixCloseSafeBrick bc pd none h v = none) ∧
    (∀ (bc : BC) (pd : Option Pix) (s : Pix) (h v : Int), s.d ≠ 1 →
        pixDilateBrick bc pd (some s) h v = none ∧
        pixErodeBrick bc pd (some s) h v = none ∧
        pixOpenBrick bc pd (some s) h v = none ∧
        pixCloseBrick bc pd (some s) h v = none ∧
        pixCloseSafeBrick bc pd (some s) h v = none) ∧
    (∀ (bc : BC) (pd : Option Pix) (s : Pix) (h v : Int), h < 1 ∨ v < 1 →
        pixDilateBrick bc pd (some s) h v = none ∧
        pixErodeBrick bc pd (some s) h v = none ∧
        pixOpenBrick bc pd (some s) h v = none ∧
        pixCloseBrick bc pd (some s) h v = none ∧
        pixCloseSafeBrick bc pd (some s) h v = none) ∧
    (∀ (bc : BC) (dpix s : Pix) (h v : Int),
        pixSizesEqual s dpix = false → s.d = 1 → 1 ≤ h → 1 ≤ v →
        ¬(h = 1 ∧ v = 1) →
        pixDilateBrick bc (some dpix) (some s) h v = none ∧
        pixErodeBrick bc (some dpix) (some s) h v = none ∧
        pixOpenBrick bc (some dpix) (some s) h v = none ∧
        pixCloseBrick bc (some dpix) (some s) h v = none ∧
        pixCloseSafeBrick BC.symmetric (some dpix) (some s) h v = none) := by
  refine ⟨?_, ?_, ?_, ?_, ?_, ?_, ?_, ?_, ?_⟩
  · intro bc pd ps sel hgf
    exact ⟨pixDilate_args1_none bc pd ps sel (args1_genFail hgf),
      pixErode_args1_none bc pd ps sel (args1_genFail hgf),
      pixHMT_args1_none bc pd ps sel (args1_genFail hgf),
      pixOpen_args2_none bc pd ps sel (args2_genFail hgf),
      pixClose_args2_none bc pd ps sel (args2_genFail hgf),
      pixOpenGeneralized_args2_none bc pd ps sel (args2_genFail hgf),
      pixCloseGeneralized_args2_none bc pd ps sel (args2_genFail hgf)⟩
  · intro bc pd sel
    cases sel <;> rfl
  · intro bc pd ps
    cases ps <;> rfl
  · intro bc pd s sl hdep
    exact pixCloseSafe_baddepth bc pd s sl hdep
  · intro pd ps sel hgf
    exact pixCloseSafe_sym_genFail pd ps sel hgf
  · intro bc pd h v
    exact ⟨rfl, rfl, rfl, rfl, rfl⟩
  · intro bc pd s h v hdep
    exact ⟨pixDilateBrick_baddepth bc pd s h v hdep,
      pixErodeBrick_baddepth bc pd s h v hdep,
      pixOpenBrick_baddepth bc pd s h v hdep,
      pixCloseBrick_baddepth bc pd s h v hdep,
      pixCloseSafeBrick_baddepth bc pd s h v hdep⟩
  · intro bc pd s h v hhv
    exact ⟨pixDilateBrick_badsize bc pd s h v hhv,
      pixErodeBrick_badsize bc pd s h v hhv,
      pixOpenBrick_badsize bc pd s h v hhv,
      pixCloseBrick_badsize bc pd s h v hhv,
      pixCloseSafeBrick_badsize bc pd s h v hhv⟩
  · intro bc dpix s h v hsz hd hh1 hv1 h11
    exact ⟨pixDilateBrick_mismatch bc dpix s h v hsz hd hh1 hv1 h11,
      pixErodeBrick_mismatch bc dpix s h v hsz hd hh1 hv1 h11,
      pixOpenBrick_mismatch bc dpix s h v hsz hd hh1 hv1 h11,
      pixCloseBrick_mismatch bc dpix s h v hsz hd hh1 hv1 h11,
      pixCloseSafeBrick_sym_mismatch dpix s h v hsz hd hh1 hv1 h11⟩

/-- Witness for C3 at a concrete validation failure: dilating an absent
source returns null. -/
theorem morph_validation_amended_witness :
    pixDilate BC.asymmetric none none none = none :=
  (morph_validation_amended.1 BC.asymmetric none none none (Or.inl rfl)).1

/-- Counterexample to C3 as stated: pixCloseSafe under ASYMMETRIC
accepts a destination of mismatched geometry (and an empty Sel), and the
1-by-1 Brick call accepts a mismatched destination, in each case
returning a non-null bitmap rather than null. -/
theorem morph_validation_counterexample :
    pixSizesEqual pixA pixBad = false ∧
    (pixCloseSafe BC.asymmetric (some pixBad) (some pixA)
      (some selHit1)).isSome = true ∧
    (pixDilateBrick BC.asymmetric (some pixBad) (some pixA) 1 1).isSome = true ∧
    selEmpty.sy = 0 ∧
    (pixCloseSafe BC.asymmetric none (some pixA)
      (some selEmpty)).isSome = true := by
  refine ⟨by decide, ?_, by decide, by decide, ?_⟩ <;> rfl

/-- C4: for brick sizes hsize > 1 and vsize > 1, each Brick operator on a
1-bpp source decomposes into the horizontal 1-by-hsize pass followed by
the vertical vsize-by-1 pass and yields, bit for bit, the same bitmap as
the corresponding non-separated call with the full vsize-by-hsize brick
Sel with origin (vsize/2, hsize/2), under either boundary condition. -/
theorem brick_separability (bc : BC) (s : Pix) (h v : Nat) (hd : s.d = 1)
    (hh : 1 < h) (hv : 1 < v) :
    OPixEq (pixDilateBrick bc none (some s) (h : Int) (v : Int))
      (pixDilate bc none (some s)
        (some (selCreateBrick v h (v / 2) (h / 2) 1))) ∧
    OPixEq (pixErodeBrick bc none (some s) (h : Int) (v : Int))
      (pixErode bc none (some s)
        (some (selCreateBrick v h (v / 2) (h / 2) 1))) ∧
    OPixEq (pixOpenBrick bc none (some s) (h : Int) (v : Int))
      (pixOpen bc none (some s)
        (some (selCreateBrick v h (v / 2) (h / 2) 1))) ∧
    OPixEq (pixCloseBrick bc none (some s) (h : Int) (v : Int))
      (pixClose bc none (some s)
        (some (selCreateBrick v h (v / 2) (h / 2) 1))) :=
  ⟨dilateBrick_sep bc s h v hd hh hv, erodeBrick_sep bc s h v hd hh hv,
    openBrick_sep bc s h v hd hh hv, closeBrick_sep bc s h v hd hh hv⟩

/-- Witness for C4 at the centre-pixel bitmap with a 3-by-3 brick. -/
theorem brick_separability_witness :
    OPixEq (pixDilateBrick BC.asymmetric none (some pixA) ((3 : Nat) : Int)
        ((3 : Nat) : Int))
      (pixDilate BC.asymmetric none (some pixA)
        (some (selCreateBrick 3 3 (3 / 2) (3 / 2) 1))) ∧
    OPixEq (pixErodeBrick BC.asymmetric none (some pixA) ((3 : Nat) : Int)
        ((3 : Nat) : Int))
      (pixErode BC.asymmetric none (some pixA)
        (some (selCreateBrick 3 3 (3 / 2) (3 / 2) 1))) ∧
    OPixEq (pixOpenBrick BC.asymmetric none (some pixA) ((3 : Nat) : Int)
        ((3 : Nat) : Int))
      (pixOpen BC.asymmetric none (some pixA)
        (some (selCreateBrick 3 3 (3 / 2) (3 / 2) 1))) ∧
    OPixEq (pixCloseBrick BC.asymmetric none (some pixA) ((3 : Nat) : Int)
        ((3 : Nat) : Int))
      (pixClose BC.asymmetric none (some pixA)
        (some (selCreateBrick 3 3 (3 / 2) (3 / 2) 1))) :=
  brick_separability BC.asymmetric pixA 3 3 rfl (by decide) (by decide)

/-- C5 (amended): for every 1-bpp source and every valid Sel containing
at least one non-DONT_CARE cell, pixHMT produces a destination in which
pixel p is ON iff every HIT cell holds ON at the translated source
position p + (j - cx, i - cy) and every MISS cell holds OFF there; the
four edge strips of maximal translations are cleared regardless of the
boundary-condition selector, which pixHMT never reads.  An all-DONT_CARE
Sel performs no accumulation step and leaves the destination
uninitialized, so the hypothesis on the Sel cannot be dropped. -/
theorem pixHMT_effect_amended (bc bc2 : BC) (pd : Option Pix) (s : Pix)
    (sl : Sel) (hd : s.d = 1) (hsx : 0 < sl.sx) (hsy : 0 < sl.sy)
    (hpd : ∀ d0, pd = some d0 → pixSizesEqual s d0 = true)
    (hnd : ∃ i j, i < sl.sy ∧ j < sl.sx ∧
      (sl.data i j = 1 ∨ sl.data i j = 2)) :
    pixHMT bc pd (some s) (some sl) = pixHMT bc2 pd (some s) (some sl) ∧
    ∃ R, pixHMT bc pd (some s) (some sl) = some R ∧
      R.w = s.w ∧ R.h = s.h ∧ R.d = s.d ∧
      ∀ x y : Int, R.getPix x y = true ↔
        (inImg s x y ∧
         (∀ i j, isHit sl i j →
            s.getPix (x + ((j : Int) - sl.cx))
              (y + ((i : Int) - sl.cy)) = true) ∧
         (∀ i j, isMiss sl i j →
            s.getPix (x + ((j : Int) - sl.cx))
              (y + ((i : Int) - sl.cy)) = false)) :=
  ⟨rfl, pixHMT_spec bc pd s sl hd hsx hsy hpd hnd⟩

/-- Witness for C5 at the centre-pixel bitmap and the 2-by-2
hit-and-miss Sel. -/
theorem pixHMT_effect_amended_witness :
    pixHMT BC.asymmetric none (some pixA) (some selHM) =
      pixHMT BC.symmetric none (some pixA) (some selHM) ∧
    ∃ R, pixHMT BC.asymmetric none (some pixA) (some selHM) = some R ∧
      R.w = pixA.w ∧ R.h = pixA.h ∧ R.d = pixA.d ∧
      ∀ x y : Int, R.getPix x y = true ↔
        (inImg pixA x y ∧
         (∀ i j, isHit selHM i j →
            pixA.getPix (x + ((j : Int) - selHM.cx))
              (y + ((i : Int) - selHM.cy)) = true) ∧
         (∀ i j, isMiss selHM i j →
            pixA.getPix (x + ((j : Int) - selHM.cx))
              (y + ((i : Int) - selHM.cy)) = false)) :=
  pixHMT_effect_amended BC.asymmetric BC.symmetric none pixA selHM rfl
    (by decide) (by decide) (fun d0 hc => by cases hc)
    ⟨0, 0, by decide, by decide, Or.inl (by decide)⟩

/-- Counterexample to C5 as stated: with the 1-by-1 all-DONT_CARE Sel on
a 1-by-1 all-ON source image, every (vacuous) HIT and MISS condition
holds at the single pixel, yet the pixHMT result pixel is OFF: no
accumulation step runs, so the destination is never initialized and the
operator returns the untouched blank template. -/
theorem pixHMT_effect_counterexample :
    selDC.sy = 1 ∧ selDC.sx = 1 ∧ selDC.data 0 0 = 0 ∧
    pixOne.getPix 0 0 = true ∧
    (pixHMT BC.asymmetric none (some pixOne) (some selDC)).isSome = true ∧
    ((pixHMT BC.asymmetric none (some pixOne) (some selDC)).getD
      pixOne).getPix 0 0 = false := by
  refine ⟨rfl, rfl, rfl, by decide, rfl, by decide⟩

/-- C6: for every 1-bpp source and valid Sel, opening is anti-extensive
(every ON pixel of pixOpen's result is ON in the source) and safe
closing is extensive (every ON pixel of the source is ON in
pixCloseSafe's result), under either boundary condition. -/
theorem open_antiextensive_closeSafe_extensive (bc : BC) (s : Pix)
    (sl : Sel) (hd : s.d = 1) (hsx : 0 < sl.sx) (hsy : 0 < sl.sy) :
    ∃ O C, pixOpen bc none (some s) (some sl) = some O ∧
      pixCloseSafe bc none (some s) (some sl) = some C ∧
      (∀ x y : Int, O.getPix x y = true → s.getPix x y = true) ∧
      (∀ x y : Int, s.getPix x y = true → C.getPix x y = true) := by
  obtain ⟨O, hO, _, _, _, hOsub⟩ :=
    pixOpen_subset bc none s sl hd hsx hsy (fun d0 hc => by cases hc)
  obtain ⟨C, hC, _, _, _, hCsup⟩ := pixCloseSafe_supset bc s sl hd hsx hsy
  exact ⟨O, C, hO, hC, hOsub, hCsup⟩

/-- Witness for C6 at the centre-pixel bitmap and the 3-by-3 brick. -/
theorem open_antiextensive_closeSafe_extensive_witness :
    ∃ O C, pixOpen BC.asymmetric none (some pixA) (some selB33) = some O ∧
      pixCloseSafe BC.asymmetric none (some pixA) (some selB33) = some C ∧
      (∀ x y : Int, O.getPix x y = true → pixA.getPix x y = true) ∧
      (∀ x y : Int, pixA.getPix x y = true → C.getPix x y = true) :=
  open_antiextensive_closeSafe_extensive BC.asymmetric pixA selB33 rfl
    (by decide) (by decide)

/-- C7: for every 1-bpp source and valid Sel, opening is idempotent:
opening the opened image again returns a bit-for-bit identical bitmap,
under either boundary condition. -/
theorem open_idempotent (bc : BC) (s : Pix) (sl : Sel)
    (hd : s.d = 1) (hsx : 0 < sl.sx) (hsy : 0 < sl.sy) :
    ∃ O O2, pixOpen bc none (some s) (some sl) = some O ∧
      pixOpen bc none (some O) (some sl) = some O2 ∧ PixEq O2 O :=
  pixOpen_idem bc s sl hd hsx hsy

/-- Witness for C7 at the centre-pixel bitmap and the 3-by-3 brick. -/
theorem open_idempotent_witness :
    ∃ O O2, pixOpen BC.symmetric none (some pixA) (some selB33) = some O ∧
      pixOpen BC.symmetric none (some O) (some selB33) = some O2 ∧
      PixEq O2 O :=
  open_idempotent BC.symmetric pixA selB33 rfl (by decide) (by decide)

/-- C8 (amended): for every source and Sel, the in-place call
operator(S, S, K) returns exactly the bitmap that the new-output call
operator(NULL, S, K) returns, for pixDilate, pixErode, pixOpen,
pixClose, pixCloseSafe and pixOpenGeneralized unconditionally, for
pixHMT and pixCloseGeneralized whenever the Sel has at least one
non-DONT_CARE cell, and for the five Brick variants for sizes at least
1 on a 1-bpp source.  (With an all-DONT_CARE Sel, pixHMT in place
returns the aliased snapshot while the new-output call returns the blank
template, so the extra hypothesis cannot be dropped.) -/
theorem inplace_equivalence_amended (bc : BC) (s : Pix) (sl : Sel) :
    (pixDilate bc (some s) (some s) (some sl) =
      pixDilate bc none (some s) (some sl)) ∧
    (pixErode bc (some s) (some s) (some sl) =
      pixErode bc none (some s) (some sl)) ∧
    (pixOpen bc (some s) (some s) (some sl) =
      pixOpen bc none (some s) (some sl)) ∧
    (pixClose bc (some s) (some s) (some sl) =
      pixClose bc none (some s) (some sl)) ∧
    (pixCloseSafe bc (some s) (some s) (some sl) =
      pixCloseSafe bc none (some s) (some sl)) ∧
    (pixOpenGeneralized bc (some s) (some s) (some sl) =
      pixOpenGeneralized bc none (some s) (some sl)) ∧
    ((∃ i j, i < sl.sy ∧ j < sl.sx ∧
        (sl.data i j = 1 ∨ sl.data i j = 2)) →
      pixHMT bc (some s) (some s) (some sl) =
        pixHMT bc none (some s) (some sl) ∧
      pixCloseGeneralized bc (some s) (some s) (some sl) =
        pixCloseGeneralized bc none (some s) (some sl)) ∧
    (∀ h v : Int, s.d = 1 → 1 ≤ h → 1 ≤ v →
      pixDilateBrick bc (some s) (some s) h v =
        pixDilateBrick bc none (some s) h v ∧
      pixErodeBrick bc (some s) (some s) h v =
        pixErodeBrick bc none (some s) h v ∧
      pixOpenBrick bc (some s) (some s) h v =
        pixOpenBrick bc none (some s) h v ∧
      pixCloseBrick bc (some s) (some s) h v =
        pixCloseBrick bc none (some s) h v ∧
      pixCloseSafeBrick bc (some s) (some s) h v =
        pixCloseSafeBrick bc none (some s) h v) := by
  refine ⟨pixDilate_pixd bc s s sl (sizesEqual_refl s),
    pixErode_pixd bc s s sl (sizesEqual_refl s),
    pixOpen_pixd bc s s sl (sizesEqual_refl s),
    pixClose_pixd bc s s sl (sizesEqual_refl s),
    pixCloseSafe_pixd bc s s sl (sizesEqual_refl s),
    pixOpenGeneralized_pixd bc s s sl (sizesEqual_refl s),
    fun hnd => ⟨pixHMT_pixd bc s s sl (sizesEqual_refl s) hnd,
      pixCloseGeneralized_pixd bc s s sl (sizesEqual_refl s) hnd⟩,
    fun h v hd hh1 hv1 =>
      ⟨pixDilateBrick_pixd bc s s h v (sizesEqual_refl s) hd hh1 hv1,
       pixErodeBrick_pixd bc s s h v (sizesEqual_refl s) hd hh1 hv1,
       pixOpenBrick_pixd bc s s h v (sizesEqual_refl s) hd hh1 hv1,
       pixCloseBrick_pixd bc s s h v (sizesEqual_refl s) hd hh1 hv1,
       pixCloseSafeBrick_pixd bc s s h v (sizesEqual_refl s) hd hh1 hv1⟩⟩

/-- Witness for C8 at the centre-pixel bitmap, the 2-by-2 hit-and-miss
Sel and the 3-by-3 bricks. -/
theorem inplace_equivalence_amended_witness :
    pixHMT BC.asymmetric (some pixA) (some pixA) (some selHM) =
      pixHMT BC.asymmetric none (some pixA) (some selHM) ∧
    pixDilateBrick BC.asymmetric (some pixA) (some pixA) 3 3 =
      pixDilateBrick BC.asymmetric none (some pixA) 3 3 :=
  ⟨((inplace_equivalence_amended BC.asymmetric pixA selHM).2.2.2.2.2.2.1
      ⟨0, 0, by decide, by decide, Or.inl (by decide)⟩).1,
   ((inplace_equivalence_amended BC.asymmetric pixA selHM).2.2.2.2.2.2.2
      3 3 rfl (by decide) (by decide)).1⟩

/-- Counterexample to C8 as stated: with the 1-by-1 all-DONT_CARE Sel on
the 1-by-1 all-ON source, the in-place pixHMT call returns the aliased
snapshot (pixel ON) while the new-output call returns the never-written
blank template (pixel OFF), so the two calls differ. -/
theorem inplace_equivalence_counterexample :
    ((pixHMT BC.asymmetric (some pixOne) (some pixOne)
        (some selDC)).getD blank1).getPix 0 0 = true ∧
    ((pixHMT BC.asymmetric none (some pixOne)
        (some selDC)).getD blank1).getPix 0 0 = false := by
  refine ⟨by decide, by decide⟩

/-- C9 (amended): under ASYMMETRIC, a caller-supplied destination of
mismatched geometry does not abort pixCloseSafe: the call proceeds and
returns the same non-null safe-closing result as a call with a null
destination (the size check only issues a warning).  Under SYMMETRIC,
however, pixCloseSafe delegates to pixClose, whose argument processing
rejects the mismatched destination and returns a null bitmap. -/
theorem closeSafe_mismatch_amended (s d : Pix) (sl : Sel)
    (hd : s.d = 1) (hsz : pixSizesEqual s d = false) :
    (pixCloseSafe BC.asymmetric (some d) (some s) (some sl) =
        pixCloseSafe BC.asymmetric none (some s) (some sl) ∧
      (pixCloseSafe BC.asymmetric (some d) (some s) (some sl)).isSome = true) ∧
    pixCloseSafe BC.symmetric (some d) (some s) (some sl) = none := by
  refine ⟨⟨?_, ?_⟩, ?_⟩
  · rw [pixCloseSafe_asym_reduce (some d) s sl hd,
      pixCloseSafe_asym_reduce none s sl hd]
  · rw [pixCloseSafe_asym_reduce (some d) s sl hd]
    rfl
  · rw [pixCloseSafe_sym_delegate (some d) s sl hd]
    exact pixClose_args2_none BC.symmetric (some d) (some s) (some sl)
      (args2_mismatch d s sl hsz)

/-- Witness for C9 at the centre-pixel bitmap, a mismatched blank
destination and the single-HIT Sel. -/
theorem closeSafe_mismatch_amended_witness :
    (pixCloseSafe BC.asymmetric (some pixBad) (some pixA) (some selHit1) =
        pixCloseSafe BC.asymmetric none (some pixA) (some selHit1) ∧
      (pixCloseSafe BC.asymmetric (some pixBad) (some pixA)
        (some selHit1)).isSome = true) ∧
    pixCloseSafe BC.symmetric (some pixBad) (some pixA)
      (some selHit1) = none :=
  closeSafe_mismatch_amended pixA pixBad selHit1 rfl (by decide)

/-- Counterexample to C9 as stated: under SYMMETRIC, the size mismatch
does abort the operation, because the delegated pixClose rejects the
mismatched destination and pixCloseSafe returns null. -/
theorem closeSafe_mismatch_counterexample :
    pixSizesEqual pixA pixBad = false ∧
    pixCloseSafe BC.symmetric (some pixBad) (some pixA)
      (some selB33) = none := by
  exact ⟨by decide, rfl⟩

end Morph
